import Mathlib

/-!
# itsdangerous-go: signing, verification and timestamped tokens

A shallow embedding of the Go packages `itsdangerous` (algorithm.go, exc.go),
`itsdangerous/encoding` (base64.go) and `itsdangerous/signer` (signer.go,
timestamp_signer.go), followed by theorems about them.

Conventions of the embedding:

* a Go `[]byte` is a `List Nat` whose elements are below 256; a slice that may
  be `nil` is an `Option Bytes`;
* Go integers are `Nat`/`Int` with explicit reduction modulo `2 ^ 64` where the
  program converts or can wrap;
* a call that may panic returns `Run`; a Go `(value, error)` pair is a `Res`;
* the only mutable state of the program is the `DigestMethod` field of an
  `HMACAlgorithm` reached through `Signer.algorithm`, so every method that can
  reach `HMACAlgorithm.GetSignature` returns the signer after the call;
* `time.Now().Unix()` is an explicit argument `now`;
* the `fmt.Printf` debugging output of `TimestampSigner.Unsign` is not modelled.

The Go standard library functions used by the program (`bytes`, `encoding/base64`,
`encoding/binary`, `crypto/hmac`, `crypto/sha1`) are modelled from their
documented behaviour in the first part of the file.
-/

namespace Itsdangerous

/-! ## Byte strings and the `bytes` package -/

/-- A Go byte slice. -/
abbrev Bytes := List Nat

/-- Every element is a byte. -/
def IsBytes (b : Bytes) : Prop := ∀ x ∈ b, x < 256

/-- The bytes of an ASCII Go string literal. -/
def str (s : String) : Bytes := s.toList.map Char.toNat

/-- Go `bytes.Repeat`. -/
def bytesRepeat (b : Bytes) (count : Nat) : Bytes := (List.replicate count b).flatten

/-- Go `bytes.Index`, scanning from offset `i`: the first index at which `sep`
starts, or `-1`. -/
def bytesIndexFrom (sep : Bytes) : Bytes → Nat → Int
  | [], i => if sep.isPrefixOf [] then (i : Int) else -1
  | c :: rest, i =>
    if sep.isPrefixOf (c :: rest) then (i : Int) else bytesIndexFrom sep rest (i + 1)

/-- Go `bytes.Index`. -/
def bytesIndex (s sep : Bytes) : Int := bytesIndexFrom sep s 0

/-- Go `bytes.Contains(b, subslice)`, which is `Index(b, subslice) != -1`. -/
def bytesContains (b subslice : Bytes) : Bool := bytesIndex b subslice != -1

/-- The last index not above `i` at which `sep` starts in `s`, or `-1`. -/
def lastIndexBelow (s sep : Bytes) : Nat → Int
  | 0 => if sep.isPrefixOf s then 0 else -1
  | i + 1 => if sep.isPrefixOf (s.drop (i + 1)) then ((i + 1 : Nat) : Int) else lastIndexBelow s sep i

/-- Go `bytes.LastIndex`: the index of the last instance of `sep` in `s`, or `-1`. -/
def bytesLastIndex (s sep : Bytes) : Int := lastIndexBelow s sep s.length

/-- Go `bytes.TrimRight(s, cutset)`, for a cutset of ASCII bytes. -/
def bytesTrimRight (s cutset : Bytes) : Bytes := (s.reverse.dropWhile (fun c => cutset.contains c)).reverse

/-- Go `bytes.TrimLeft(s, cutset)`, for a cutset of ASCII bytes. -/
def bytesTrimLeft (s cutset : Bytes) : Bytes := s.dropWhile (fun c => cutset.contains c)

/-- Go `hmac.Equal` (`subtle.ConstantTimeCompare`): true exactly when the two
slices have the same length and the same contents. -/
def hmacEqual (a b : Bytes) : Bool := decide (a = b)

/-! ## `encoding/base64`, `URLEncoding` (padded, not strict) -/

/-- The URL-safe alphabet of `base64.URLEncoding`. -/
def encodeURL : Bytes := str "ABCDEFGHIJKLMNOPQRSTUVWXYZabcdefghijklmnopqrstuvwxyz0123456789-_"

/-- `enc.encode[i]`. -/
def encChar (i : Nat) : Nat := encodeURL.getD i 0

/-- `enc.decodeMap[c]`: the 6-bit value of an alphabet byte, `0xff` otherwise. -/
def decodeMap (c : Nat) : Nat :=
  if encodeURL.indexOf c < 64 then encodeURL.indexOf c else 0xff

/-- `base64.URLEncoding.Encode`, with `=` padding. -/
def urlEncode : Bytes → Bytes
  | a :: b :: c :: rest =>
    let val := a * 2 ^ 16 + b * 2 ^ 8 + c
    encChar (val / 2 ^ 18 % 64) :: encChar (val / 2 ^ 12 % 64) :: encChar (val / 2 ^ 6 % 64)
      :: encChar (val % 64) :: urlEncode rest
  | [a, b] =>
    let val := a * 2 ^ 16 + b * 2 ^ 8
    [encChar (val / 2 ^ 18 % 64), encChar (val / 2 ^ 12 % 64), encChar (val / 2 ^ 6 % 64), 61]
  | [a] =>
    let val := a * 2 ^ 16
    [encChar (val / 2 ^ 18 % 64), encChar (val / 2 ^ 12 % 64), 61, 61]
  | [] => []

/-- Line feed and carriage return, which the decoder skips. -/
def isNL (c : Nat) : Bool := c == 10 || c == 13

/-- The bytes `decodeQuantum` stores for a quantum of `dbuf.length` 6-bit values:
`dbuf.length - 1` bytes of the 24-bit value, most significant first. -/
def quantumBytes (dbuf : List Nat) : Bytes :=
  let val := dbuf.getD 0 0 * 2 ^ 18 + dbuf.getD 1 0 * 2 ^ 12 + dbuf.getD 2 0 * 2 ^ 6 + dbuf.getD 3 0
  [val / 2 ^ 16 % 256, val / 2 ^ 8 % 256, val % 256].take (dbuf.length - 1)

/-- The loop of `base64.URLEncoding.Decode` over `decodeQuantum`: `dbuf` holds the
6-bit values of the current quantum, `out` the bytes already stored. `none` is
a `CorruptInputError`. -/
def decodeLoop : Bytes → List Nat → Bytes → Option Bytes
  | [], dbuf, out => if dbuf.length = 0 then some out else none
  | c :: rest, dbuf, out =>
    if decodeMap c ≠ 0xff then
      if dbuf.length = 3 then decodeLoop rest [] (out ++ quantumBytes (dbuf ++ [decodeMap c]))
      else decodeLoop rest (dbuf ++ [decodeMap c]) out
    else if isNL c then decodeLoop rest dbuf out
    else if c ≠ 61 then none
    else
      match dbuf.length with
      | 0 => none
      | 1 => none
      | 2 =>
        match rest.dropWhile isNL with
        | [] => none
        | p :: rest2 =>
          if p ≠ 61 then none
          else if (rest2.dropWhile isNL).isEmpty then some (out ++ quantumBytes dbuf)
          else none
      | _ => if (rest.dropWhile isNL).isEmpty then some (out ++ quantumBytes dbuf) else none

/-- `base64.URLEncoding.Decode`. -/
def urlDecode (src : Bytes) : Option Bytes := decodeLoop src [] []

/-! ## `encoding/binary`, big endian `uint64` -/

/-- `uint64(x)` of an `int64`. -/
def toUint64 (x : Int) : Nat := (x % 2 ^ 64).toNat

/-- `int64(x)` of a 64-bit value, and the wrap-around of `int64` arithmetic. -/
def toInt64 (x : Int) : Int := (x + 2 ^ 63) % 2 ^ 64 - 2 ^ 63

/-- `binary.Write(buf, binary.BigEndian, w)` for a `uint64`: eight bytes. -/
def putUint64 (w : Nat) : Bytes :=
  [w / 2 ^ 56 % 256, w / 2 ^ 48 % 256, w / 2 ^ 40 % 256, w / 2 ^ 32 % 256,
   w / 2 ^ 24 % 256, w / 2 ^ 16 % 256, w / 2 ^ 8 % 256, w % 256]

/-- The big-endian value of a byte string. -/
def beValue (b : Bytes) : Nat := b.foldl (fun acc x => acc * 256 + x) 0

/-- `binary.Read(buf, binary.BigEndian, &timestamp)` for a `uint64`: reads the
first eight bytes of the reader, an error (`none`) when fewer are left. -/
def readUint64 (buf : Bytes) : Option Nat :=
  if buf.length < 8 then none else some (beValue (buf.take 8))

/-! ## `crypto/sha1` and `crypto/hmac` -/

/-- A digest constructor `func() hash.Hash`: `sum m` is `Sum(nil)` after writing `m`
to a fresh hash, `blockSize` is `BlockSize()`. -/
structure Hash where
  sum : Bytes → Bytes
  blockSize : Nat
  sum_bytes : ∀ m, IsBytes (sum m)

/-- Rotate a 32-bit word left. -/
def rotl32 (x n : Nat) : Nat := (x * 2 ^ n + x / 2 ^ (32 - n)) % 2 ^ 32

/-- Big-endian 32-bit word of the first four bytes. -/
def be32 (b : Bytes) : Nat :=
  (b.getD 0 0 % 256) * 2 ^ 24 + (b.getD 1 0 % 256) * 2 ^ 16 + (b.getD 2 0 % 256) * 2 ^ 8
    + b.getD 3 0 % 256

/-- Big-endian bytes of a 32-bit word. -/
def put32 (w : Nat) : Bytes := [w / 2 ^ 24 % 256, w / 2 ^ 16 % 256, w / 2 ^ 8 % 256, w % 256]

/-- The first `n` big-endian words of a block. -/
def sha1Words : Nat → Bytes → List Nat
  | 0, _ => []
  | n + 1, b => be32 b :: sha1Words n (b.drop 4)

/-- The five chaining words of SHA-1. -/
structure Sha1State where
  a : Nat
  b : Nat
  c : Nat
  d : Nat
  e : Nat

/-- The round function of SHA-1. -/
def sha1F (t b c d : Nat) : Nat :=
  if t < 20 then (b &&& c) ||| ((b ^^^ (2 ^ 32 - 1)) &&& d)
  else if t < 40 then b ^^^ c ^^^ d
  else if t < 60 then ((b ||| c) &&& d) ||| (b &&& c)
  else b ^^^ c ^^^ d

/-- The round constant of SHA-1. -/
def sha1K (t : Nat) : Nat :=
  if t < 20 then 0x5A827999 else if t < 40 then 0x6ED9EBA1
  else if t < 60 then 0x8F1BBCDC else 0xCA62C1D6

/-- Rounds `t`, `t + 1`, ... of the compression function; `w` holds the sixteen most
recent schedule words, oldest first. -/
def sha1Rounds : Nat → Nat → List Nat → Sha1State → Sha1State
  | 0, _, _, s => s
  | n + 1, t, w, s =>
    let wt := if t < 16 then w.getD t 0
              else rotl32 (w.getD 13 0 ^^^ w.getD 8 0 ^^^ w.getD 2 0 ^^^ w.getD 0 0) 1
    let w2 := if t < 16 then w else w.drop 1 ++ [wt]
    let tmp := (rotl32 s.a 5 + sha1F t s.b s.c s.d + s.e + wt + sha1K t) % 2 ^ 32
    sha1Rounds n (t + 1) w2 ⟨tmp, s.a, rotl32 s.b 30, s.c, s.d⟩

/-- The compression function of SHA-1 on one 64-byte block. -/
def sha1Block (h : Sha1State) (blk : Bytes) : Sha1State :=
  let r := sha1Rounds 80 0 (sha1Words 16 blk) h
  ⟨(h.a + r.a) % 2 ^ 32, (h.b + r.b) % 2 ^ 32, (h.c + r.c) % 2 ^ 32, (h.d + r.d) % 2 ^ 32,
   (h.e + r.e) % 2 ^ 32⟩

/-- Compression over `n` consecutive blocks. -/
def sha1Blocks : Nat → Sha1State → Bytes → Sha1State
  | 0, h, _ => h
  | n + 1, h, m => sha1Blocks n (sha1Block h (m.take 64)) (m.drop 64)

/-- SHA-1 padding: `0x80`, zero bytes, and the bit length as a big-endian `uint64`. -/
def sha1Pad (m : Bytes) : Bytes :=
  m ++ [0x80] ++ List.replicate ((119 - m.length % 64) % 64) 0 ++ putUint64 (8 * m.length % 2 ^ 64)

/-- The SHA-1 digest of a message (FIPS 180-4). -/
def sha1Sum (m : Bytes) : Bytes :=
  let p := sha1Pad m
  let h := sha1Blocks (p.length / 64) ⟨0x67452301, 0xEFCDAB89, 0x98BADCFE, 0x10325476, 0xC3D2E1F0⟩ p
  put32 h.a ++ put32 h.b ++ put32 h.c ++ put32 h.d ++ put32 h.e

/-- Go `sha1.New`. -/
def sha1 : Hash where
  sum := sha1Sum
  blockSize := 64
  sum_bytes := by
    intro m x hx
    simp only [sha1Sum, put32, List.mem_append, List.mem_cons, List.mem_singleton,
      List.not_mem_nil, or_false] at hx
    omega

/-- Rotate a 64-bit word right. -/
def rotr64 (x n : Nat) : Nat := (x / 2 ^ n + x * 2 ^ (64 - n)) % 2 ^ 64

/-- The first `n` big-endian 64-bit words of a block. -/
def sha512Words : Nat → Bytes → List Nat
  | 0, _ => []
  | n + 1, b => beValue ((b.take 8).map (fun x => x % 256)) :: sha512Words n (b.drop 8)

/-- The round constants of SHA-512: the first 64 bits of the fractional parts of the
cube roots of the first eighty primes. -/
def sha512K : List Nat :=
  [
   4794697086780616226, 8158064640168781261, 13096744586834688815,
   16840607885511220156, 4131703408338449720, 6480981068601479193,
   10538285296894168987, 12329834152419229976, 15566598209576043074,
   1334009975649890238, 2608012711638119052, 6128411473006802146,
   8268148722764581231, 9286055187155687089, 11230858885718282805,
   13951009754708518548, 16472876342353939154, 17275323862435702243,
   1135362057144423861, 2597628984639134821, 3308224258029322869,
   5365058923640841347, 6679025012923562964, 8573033837759648693,
   10970295158949994411, 12119686244451234320, 12683024718118986047,
   13788192230050041572, 14330467153632333762, 15395433587784984357,
   489312712824947311, 1452737877330783856, 2861767655752347644,
   3322285676063803686, 5560940570517711597, 5996557281743188959,
   7280758554555802590, 8532644243296465576, 9350256976987008742,
   10552545826968843579, 11727347734174303076, 12113106623233404929,
   14000437183269869457, 14369950271660146224, 15101387698204529176,
   15463397548674623760, 17586052441742319658, 1182934255886127544,
   1847814050463011016, 2177327727835720531, 2830643537854262169,
   3796741975233480872, 4115178125766777443, 5681478168544905931,
   6601373596472566643, 7507060721942968483, 8399075790359081724,
   8693463985226723168, 9568029438360202098, 10144078919501101548,
   10430055236837252648, 11840083180663258601, 13761210420658862357,
   14299343276471374635, 14566680578165727644, 15097957966210449927,
   16922976911328602910, 17689382322260857208, 500013540394364858,
   748580250866718886, 1242879168328830382, 1977374033974150939,
   2944078676154940804, 3659926193048069267, 4368137639120453308,
   4836135668995329356, 5532061633213252278, 6448918945643986474,
   6902733635092675308, 7801388544844847127]

/-- Rounds `t`, `t + 1`, ... of the SHA-512 compression function on the working
variables `[a, b, c, d, e, f, g, h]`; `w` holds the sixteen most recent schedule
words, oldest first. -/
def sha512Rounds : Nat → Nat → List Nat → List Nat → List Nat
  | 0, _, _, s => s
  | n + 1, t, w, s =>
    let wt := if t < 16 then w.getD t 0
      else
        let x := w.getD 14 0
        let y := w.getD 1 0
        ((rotr64 x 19 ^^^ rotr64 x 61 ^^^ (x / 2 ^ 6)) + w.getD 9 0
          + (rotr64 y 1 ^^^ rotr64 y 8 ^^^ (y / 2 ^ 7)) + w.getD 0 0) % 2 ^ 64
    let w2 := if t < 16 then w else w.drop 1 ++ [wt]
    let a := s.getD 0 0
    let b := s.getD 1 0
    let c := s.getD 2 0
    let d := s.getD 3 0
    let e := s.getD 4 0
    let f := s.getD 5 0
    let g := s.getD 6 0
    let h := s.getD 7 0
    let t1 := (h + (rotr64 e 14 ^^^ rotr64 e 18 ^^^ rotr64 e 41)
      + ((e &&& f) ^^^ ((e ^^^ (2 ^ 64 - 1)) &&& g)) + sha512K.getD t 0 + wt) % 2 ^ 64
    let t2 := ((rotr64 a 28 ^^^ rotr64 a 34 ^^^ rotr64 a 39)
      + ((a &&& b) ^^^ (a &&& c) ^^^ (b &&& c))) % 2 ^ 64
    sha512Rounds n (t + 1) w2 [(t1 + t2) % 2 ^ 64, a, b, c, (d + t1) % 2 ^ 64, e, f, g]

/-- The compression function of SHA-512 on one 128-byte block. -/
def sha512Block (h : List Nat) (blk : Bytes) : List Nat :=
  List.zipWith (fun x y => (x + y) % 2 ^ 64) h (sha512Rounds 80 0 (sha512Words 16 blk) h)

/-- Compression over `n` consecutive blocks. -/
def sha512Blocks : Nat → List Nat → Bytes → List Nat
  | 0, h, _ => h
  | n + 1, h, m => sha512Blocks n (sha512Block h (m.take 128)) (m.drop 128)

/-- SHA-512 padding: `0x80`, zero bytes, and the bit length as a big-endian 128-bit
integer. -/
def sha512Pad (m : Bytes) : Bytes :=
  m ++ [0x80] ++ List.replicate ((239 - m.length % 128) % 128) 0
    ++ putUint64 (8 * m.length / 2 ^ 64 % 2 ^ 64) ++ putUint64 (8 * m.length % 2 ^ 64)

/-- The initial chaining value of SHA-384: the first 64 bits of the fractional parts of
the square roots of the ninth to sixteenth primes. -/
def sha384Init : List Nat :=
  [
   14680500436340154072, 7105036623409894663, 10473403895298186519,
   1526699215303891257, 7436329637833083697, 10282925794625328401,
   15784041429090275239, 5167115440072839076]

/-- The SHA-384 digest of a message (FIPS 180-4): the first six words of the SHA-512
computation started from `sha384Init`. -/
def sha384Sum (m : Bytes) : Bytes :=
  let p := sha512Pad m
  ((sha512Blocks (p.length / 128) sha384Init p).take 6).flatMap putUint64

/-- Go `sha512.New384`. -/
def sha384 : Hash where
  sum := sha384Sum
  blockSize := 128
  sum_bytes := by
    intro m x hx
    simp only [sha384Sum, List.mem_flatMap, putUint64, List.mem_cons, List.mem_singleton,
      List.not_mem_nil, or_false] at hx
    obtain ⟨w, _, hw⟩ := hx
    omega

/-- The key block of `hmac.New`: a key longer than the block size is hashed, then
the key is copied into a zeroed block and every byte is xored with `pad`. -/
def hmacPad (h : Hash) (key : Bytes) (pad : Nat) : Bytes :=
  let key := if key.length > h.blockSize then h.sum key else key
  ((key.take h.blockSize) ++ List.replicate (h.blockSize - key.length) 0).map (fun x => x ^^^ pad)

/-- `mac := hmac.New(h, key); mac.Write(value); mac.Sum(nil)`. -/
def hmacSum (h : Hash) (key value : Bytes) : Bytes :=
  h.sum (hmacPad h key 0x5c ++ h.sum (hmacPad h key 0x36 ++ value))

/-! ## exc.go -/

/-- The three error types of exc.go, each with its `Message`. -/
inductive Error where
  | BadData (Message : Bytes)
  | BadTimeSignature (Message : Bytes)
  | SignatureExpired (Message : Bytes)
  deriving DecidableEq, Repr

/-- A Go `(value, error)` result. -/
inductive Res (α : Type) where
  | ok (v : α)
  | error (e : Error)
  deriving DecidableEq, Repr

/-- The outcome of a call that may panic. -/
inductive Run (α : Type) where
  | done (a : α)
  | panic (msg : String)
  deriving DecidableEq, Repr

/-- The returned value of a call, without the state after it. -/
def Run.val {α σ : Type} : Run (α × σ) → Run α
  | .done (a, _) => .done a
  | .panic m => .panic m

/-- The state after a call that did not panic. -/
def Run.state {α σ : Type} : Run (α × σ) → Option σ
  | .done (_, s) => some s
  | .panic _ => none

/-- Sequencing of calls that may panic. -/
def Run.bind {α β : Type} : Run α → (α → Run β) → Run β
  | .done a, f => f a
  | .panic m, _ => .panic m

/-! ## encoding/base64.go -/

/-- `BytesCombine`: `bytes.Join(valueBytes, []byte(""))`. -/
def BytesCombine (valueBytes : List Bytes) : Bytes := valueBytes.flatten

/-- `Base64Encode`: URL-safe encoding with the trailing `=` trimmed. -/
def Base64Encode (src : Bytes) : Bytes :=
  let dst := urlEncode src
  bytesTrimRight dst (str "=")

/-- `Base64Decode`: pads to a multiple of four (with ONE `=` when the length
already is a multiple of four) and decodes. -/
def Base64Decode (src : Bytes) : Res Bytes :=
  let eqChar := [61]
  let padLen := if src.length % 4 > 0 then 4 - src.length % 4 else 1
  let copySrc := BytesCombine [src, bytesRepeat eqChar padLen]
  match urlDecode copySrc with
  | none => .error (.BadData (str "Invalid base64-encoded data"))
  | some dst => .ok dst

/-! ## algorithm.go -/

/-- `HMACAlgorithm`: `DigestMethod` may be nil. -/
structure HMACAlgorithm where
  DigestMethod : Option Hash

/-- `SigningAlgorithm`: the two implementations of the repository and any other
implementation of the interface, given by its two methods. -/
inductive SigningAlgorithm where
  | noneAlg
  | hmacAlg (alg : HMACAlgorithm)
  | other (get : Bytes → Bytes → Bytes) (verify : Bytes → Bytes → Bytes → Bool)

/-- `NoneAlgorithm.GetSignature`. -/
def NoneAlgorithm.GetSignature (_key _value : Bytes) : Bytes := [98]

/-- `NoneAlgorithm.VerifySignature`. -/
def NoneAlgorithm.VerifySignature (key value sig : Bytes) : Bool :=
  hmacEqual (NoneAlgorithm.GetSignature key value) sig

/-- `HMACAlgorithm.GetSignature`: a nil `DigestMethod` is first SET to `sha1.New` on
the receiver; returns the signature and the receiver after the call. -/
def HMACAlgorithm.GetSignature (alg : HMACAlgorithm) (key value : Bytes) : Bytes × HMACAlgorithm :=
  match alg.DigestMethod with
  | none => (hmacSum sha1 key value, { DigestMethod := some sha1 })
  | some d => (hmacSum d key value, alg)

/-- `HMACAlgorithm.VerifySignature`. -/
def HMACAlgorithm.VerifySignature (alg : HMACAlgorithm) (key value sig : Bytes) :
    Bool × HMACAlgorithm :=
  let r := alg.GetSignature key value
  (hmacEqual r.1 sig, r.2)

/-- Interface dispatch of `GetSignature`. -/
def SigningAlgorithm.GetSignature : SigningAlgorithm → Bytes → Bytes → Bytes × SigningAlgorithm
  | .noneAlg, key, value => (NoneAlgorithm.GetSignature key value, .noneAlg)
  | .hmacAlg alg, key, value => ((alg.GetSignature key value).1, .hmacAlg (alg.GetSignature key value).2)
  | .other get verify, key, value => (get key value, .other get verify)

/-- Interface dispatch of `VerifySignature`. -/
def SigningAlgorithm.VerifySignature :
    SigningAlgorithm → Bytes → Bytes → Bytes → Bool × SigningAlgorithm
  | .noneAlg, key, value, sig => (NoneAlgorithm.VerifySignature key value sig, .noneAlg)
  | .hmacAlg alg, key, value, sig =>
    ((alg.VerifySignature key value sig).1, .hmacAlg (alg.VerifySignature key value sig).2)
  | .other get verify, key, value, sig => (verify key value sig, .other get verify)

/-! ## signer/signer.go -/

/-- `defaultKeyDerivation`. -/
def defaultKeyDerivation : String := "django-concat"

/-- `base64Alphabet`. -/
def base64Alphabet : Bytes := str "abcdefghijklmnopqrstuvwxyzABCDEFGHIJKLMNOPQRSTUVWXYZ0123456789-_="

/-- `Signer`. -/
structure Signer where
  secretKey : Option Bytes
  salt : Bytes
  sep : Bytes
  keyDerivation : String
  digestMethod : Hash
  algorithm : SigningAlgorithm

/-- `NewSigner`. -/
def NewSigner (secretKey salt sep : Option Bytes) (digestMethod : Option Hash)
    (keyDerivation : String) (algorithm : Option SigningAlgorithm) : Run Signer :=
  let sep := match sep with
    | none => [46]
    | some x => x
  if bytesContains sep base64Alphabet then
    .panic ("The given separator cannot be used because " ++
      "it may be contained in the signature itself. ASCII letters, digits," ++
      " and \x27-_=\x27 must not be used.")
  else
    let salt := match salt with
      | none => str "itsdangerous.Signer"
      | some x => x
    let keyDerivation := if keyDerivation = "" then defaultKeyDerivation else keyDerivation
    let digestMethod := match digestMethod with
      | none => sha1
      | some d => d
    let algorithm := match algorithm with
      | none => SigningAlgorithm.hmacAlg { DigestMethod := some digestMethod }
      | some a => a
    .done {
      secretKey := secretKey
      sep := sep
      salt := salt
      keyDerivation := keyDerivation
      digestMethod := digestMethod
      algorithm := algorithm }

/-- `DefaultSigner`. -/
def DefaultSigner (secretKey salt sep : Option Bytes) : Run Signer :=
  NewSigner secretKey salt sep none "" none

/-- `Signer.DeriveKey`; a nil `secretKey` is used as the empty key. -/
def Signer.DeriveKey (signer : Signer) (secretKey : Option Bytes) : Run Bytes :=
  let secretKey := match secretKey with
    | none => signer.secretKey
    | some k => some k
  let secretKey := secretKey.getD []
  if signer.keyDerivation = "concat" then
    let concatKey := signer.salt ++ secretKey
    .done (signer.digestMethod.sum concatKey)
  else if signer.keyDerivation = "django-concat" then
    let concatKey := signer.salt ++ str "signer" ++ secretKey
    .done (signer.digestMethod.sum concatKey)
  else if signer.keyDerivation = "hmac" then
    .done (hmacSum signer.digestMethod secretKey signer.salt)
  else if signer.keyDerivation = "none" then
    .done secretKey
  else
    .panic "Unknown key derivation method"

/-- `Signer.GetSignature`, with the signer after the call. -/
def Signer.GetSignature (signer : Signer) (value : Bytes) : Run (Bytes × Signer) :=
  match signer.DeriveKey none with
  | .panic m => .panic m
  | .done key =>
    let r := signer.algorithm.GetSignature key value
    .done (Base64Encode r.1, { signer with algorithm := r.2 })

/-- `Signer.Sign`, with the signer after the call. -/
def Signer.Sign (signer : Signer) (value : Bytes) : Run (Bytes × Signer) :=
  match signer.GetSignature value with
  | .panic m => .panic m
  | .done (signature, signer2) => .done (BytesCombine [value, signer.sep, signature], signer2)

/-- `Signer.VerifySignature`, with the signer after the call. -/
def Signer.VerifySignature (signer : Signer) (value sig : Bytes) : Run (Bool × Signer) :=
  match Base64Decode sig with
  | .error _ => .done (false, signer)
  | .ok sig =>
    match signer.DeriveKey signer.secretKey with
    | .panic m => .panic m
    | .done key =>
      let r := signer.algorithm.VerifySignature key value sig
      .done (r.1, { signer with algorithm := r.2 })

/-- `Signer.Unsign`, with the signer after the call. -/
def Signer.Unsign (signer : Signer) (signedValue : Bytes) : Run (Res Bytes × Signer) :=
  if !bytesContains signedValue signer.sep then
    .done (.error (.BadData (str "No " ++ signer.sep ++ str " found in value")), signer)
  else
    let lastIndex := bytesLastIndex signedValue signer.sep
    let sig := signedValue.drop (lastIndex + signer.sep.length).toNat
    let value := signedValue.take lastIndex.toNat
    match signer.VerifySignature value sig with
    | .panic m => .panic m
    | .done (true, signer2) => .done (.ok value, signer2)
    | .done (false, signer2) =>
      .done (.error (.BadData (str "Signature " ++ sig ++ str " does not match")), signer2)

/-- `Signer.Validate`, with the signer after the call. -/
def Signer.Validate (signer : Signer) (signedValue : Bytes) : Run (Bool × Signer) :=
  match signer.Unsign signedValue with
  | .panic m => .panic m
  | .done (.error _, signer2) => .done (false, signer2)
  | .done (.ok _, signer2) => .done (true, signer2)

/-! ## signer/timestamp_signer.go -/

/-- A `time.Time` with whole seconds, given by its Unix time. -/
structure Time where
  unix : Int
  deriving DecidableEq, Repr

/-- `TimestampSigner`: embeds a `Signer`. -/
structure TimestampSigner where
  toSigner : Signer

/-- `NewTimestampSigner`. -/
def NewTimestampSigner (secretKey salt sep : Option Bytes) (digestMethod : Option Hash)
    (keyDerivation : String) (algorithm : Option SigningAlgorithm) : Run TimestampSigner :=
  match NewSigner secretKey salt sep digestMethod keyDerivation algorithm with
  | .panic m => .panic m
  | .done signer => .done ⟨signer⟩

/-- `DefaultTimestampSigner`. -/
def DefaultTimestampSigner (secretKey salt sep : Option Bytes) : Run TimestampSigner :=
  NewTimestampSigner secretKey salt sep none "" none

/-- `TimestampSigner.TimestampToTime`: `time.Unix(ts, 0)`. -/
def TimestampSigner.TimestampToTime (ts : Int) : Time := ⟨ts⟩

/-- `TimestampSigner.Sign` when `GetTimestamp()` returns `now`. `binary.Write` of a
`uint64` into a `bytes.Buffer` does not fail, so the error branch is never taken. -/
def TimestampSigner.Sign (signer : TimestampSigner) (now : Int) (value : Bytes) :
    Run (Res Bytes × TimestampSigner) :=
  let buf := putUint64 (toUint64 now)
  let timestamp := Base64Encode (bytesTrimLeft buf [0])
  let value := BytesCombine [value, signer.toSigner.sep, timestamp]
  match signer.toSigner.GetSignature value with
  | .panic m => .panic m
  | .done (sig, signer2) =>
    .done (.ok (BytesCombine [value, signer.toSigner.sep, sig]), ⟨signer2⟩)

/-- The zero padding both readers put in front of the decoded timestamp. -/
def timestampPadLen (sig : Bytes) : Nat :=
  if sig.length % 8 > 0 then 8 - sig.length % 8 else 1

/-- `TimestampSigner.GetSignedTimestamp`, with the signer after the call. -/
def TimestampSigner.GetSignedTimestamp (signer : TimestampSigner) (signedValue : Bytes) :
    Run (Res Time × TimestampSigner) :=
  match signer.toSigner.Unsign signedValue with
  | .panic m => .panic m
  | .done (.error err, signer2) => .done (.error err, ⟨signer2⟩)
  | .done (.ok unSignResult, signer2) =>
    if !bytesContains unSignResult signer.toSigner.sep then
      .done (.error (.BadTimeSignature (str "timestamp missing")), ⟨signer2⟩)
    else
      let lastIndex := bytesLastIndex unSignResult signer.toSigner.sep
      let tsBytes := unSignResult.drop (lastIndex + signer.toSigner.sep.length).toNat
      match Base64Decode tsBytes with
      | .error err => .done (.error err, ⟨signer2⟩)
      | .ok sig =>
        let padLen := timestampPadLen sig
        let buf := BytesCombine [bytesRepeat [0] padLen, sig]
        match readUint64 buf with
        | none => .done (.error (.BadTimeSignature (str "Malformed timestamp")), ⟨signer2⟩)
        | some timestamp =>
          .done (.ok (TimestampSigner.TimestampToTime (toInt64 timestamp)), ⟨signer2⟩)

/-- `TimestampSigner.Unsign` when `GetTimestamp()` returns `now`, with the signer
after the call. -/
def TimestampSigner.Unsign (signer : TimestampSigner) (now : Int) (signedValue : Bytes)
    (maxAge : Int) : Run (Res Bytes × TimestampSigner) :=
  match signer.toSigner.Unsign signedValue with
  | .panic m => .panic m
  | .done (.error err, signer2) => .done (.error err, ⟨signer2⟩)
  | .done (.ok unSignResult, signer2) =>
    if !bytesContains unSignResult signer.toSigner.sep then
      .done (.error (.BadTimeSignature (str "timestamp missing")), ⟨signer2⟩)
    else
      let lastIndex := bytesLastIndex unSignResult signer.toSigner.sep
      let tsBytes := unSignResult.drop (lastIndex + signer.toSigner.sep.length).toNat
      let value := unSignResult.take lastIndex.toNat
      match Base64Decode tsBytes with
      | .error err => .done (.error err, ⟨signer2⟩)
      | .ok sig =>
        let padLen := timestampPadLen sig
        let buf := BytesCombine [bytesRepeat [0] padLen, sig]
        match readUint64 buf with
        | none => .done (.error (.BadTimeSignature (str "Malformed timestamp")), ⟨signer2⟩)
        | some timestamp =>
          if maxAge > 0 then
            let age := toInt64 (now - toInt64 timestamp)
            if age > maxAge then
              .done (.error (.SignatureExpired (str ("Signature age " ++ toString age ++ " > "
                ++ toString maxAge ++ " seconds"))), ⟨signer2⟩)
            else if age < 0 then
              .done (.error (.SignatureExpired (str ("Signature age " ++ toString age
                ++ " < 0 seconds"))), ⟨signer2⟩)
            else .done (.ok value, ⟨signer2⟩)
          else .done (.ok value, ⟨signer2⟩)

/-- `TimestampSigner.Validate`. -/
def TimestampSigner.Validate (signer : TimestampSigner) (now : Int) (signedValue : Bytes)
    (maxAge : Int) : Run (Bool × TimestampSigner) :=
  match signer.Unsign now signedValue maxAge with
  | .panic m => .panic m
  | .done (.error _, signer2) => .done (false, signer2)
  | .done (.ok _, signer2) => .done (true, signer2)

/-! ## A signer for the examples -/

/-- The `DefaultTimestampSigner` for the secret "secret-key": HMAC with SHA-1,
django-concat, separator `.`, salt "itsdangerous.Signer". -/
def exampleSigner : TimestampSigner :=
  ⟨{ secretKey := some (str "secret-key")
     salt := str "itsdangerous.Signer"
     sep := [46]
     keyDerivation := "django-concat"
     digestMethod := sha1
     algorithm := .hmacAlg { DigestMethod := some sha1 } }⟩

/-! ## Auxiliary functions of the proofs -/

/-- The 6-bit values that `urlEncode` writes for `src`, without the padding. -/
def sextets : Bytes → List Nat
  | a :: b :: c :: rest =>
    let val := a * 2 ^ 16 + b * 2 ^ 8 + c
    (val / 2 ^ 18 % 64) :: (val / 2 ^ 12 % 64) :: (val / 2 ^ 6 % 64) :: (val % 64) :: sextets rest
  | [a, b] =>
    let val := a * 2 ^ 16 + b * 2 ^ 8
    [val / 2 ^ 18 % 64, val / 2 ^ 12 % 64, val / 2 ^ 6 % 64]
  | [a] =>
    let val := a * 2 ^ 16
    [val / 2 ^ 18 % 64, val / 2 ^ 12 % 64]
  | [] => []

/-- The state of `decodeLoop` after a run of alphabet bytes with 6-bit values `sx`. -/
def feed : List Nat → List Nat → Bytes → List Nat × Bytes
  | [], dbuf, out => (dbuf, out)
  | s :: sx, dbuf, out =>
    if dbuf.length = 3 then feed sx [] (out ++ quantumBytes (dbuf ++ [s]))
    else feed sx (dbuf ++ [s]) out

/-- The bytes carried by a list of 6-bit values, a quantum at a time. -/
def unsext : List Nat → Bytes
  | s0 :: s1 :: s2 :: s3 :: rest => quantumBytes [s0, s1, s2, s3] ++ unsext rest
  | [s0, s1, s2] => quantumBytes [s0, s1, s2]
  | [s0, s1] => quantumBytes [s0, s1]
  | [_] => []
  | [] => []

/-- The number of significant bytes of a 64-bit value. -/
def byteLen (w : Nat) : Nat :=
  if w = 0 then 0 else if w < 2 ^ 8 then 1 else if w < 2 ^ 16 then 2 else if w < 2 ^ 24 then 3
  else if w < 2 ^ 32 then 4 else if w < 2 ^ 40 then 5 else if w < 2 ^ 48 then 6
  else if w < 2 ^ 56 then 7 else 8

/-! ## Base 64 as RFC 4648 words it, to compare `Base64Encode` with -/

/-- The eight bits of every byte, most significant bit first. -/
def rfc4648Bits (x : Bytes) : List Nat :=
  x.flatMap (fun b => [b / 128 % 2, b / 64 % 2, b / 32 % 2, b / 16 % 2, b / 8 % 2, b / 4 % 2,
    b / 2 % 2, b % 2])

/-- The bit string cut into groups of six bits, the last group filled up with zero
bits on the right. -/
def rfc4648Groups : List Nat → List (List Nat)
  | b0 :: b1 :: b2 :: b3 :: b4 :: b5 :: rest => [b0, b1, b2, b3, b4, b5] :: rfc4648Groups rest
  | [] => []
  | short => [(short ++ List.replicate 6 0).take 6]

/-- The number a group of bits spells, most significant bit first. -/
def rfc4648Index (g : List Nat) : Nat := g.foldl (fun acc b => 2 * acc + b) 0

/-- The URL-safe alphabet of RFC 4648, table 2: `A`-`Z`, `a`-`z`, `0`-`9`, `-`, `_`. -/
def rfc4648URLChar (i : Nat) : Nat :=
  if i < 26 then 65 + i else if i < 52 then 97 + (i - 26) else if i < 62 then 48 + (i - 52)
  else if i = 62 then 45 else 95

/-- The standard padded URL-safe base 64 encoding: one character per group of six
bits, then `=` up to a multiple of four characters. -/
def rfc4648URLPadded (x : Bytes) : Bytes :=
  let cs := (rfc4648Groups (rfc4648Bits x)).map (fun g => rfc4648URLChar (rfc4648Index g))
  cs ++ List.replicate ((4 - cs.length % 4) % 4) 61

/-- A byte string with all its trailing `=` removed. -/
def stripTrailingPad : Bytes → Bytes
  | [] => []
  | c :: rest => if stripTrailingPad rest = [] ∧ c = 61 then [] else c :: stripTrailingPad rest

/-- The number of `=` that `Base64Decode` appends to its input. -/
def base64PadLen (src : Bytes) : Nat := if src.length % 4 > 0 then 4 - src.length % 4 else 1

/-- The signing algorithm after a call of `GetSignature`: an `HMACAlgorithm` whose
`DigestMethod` is nil has it set to `sha1.New`, every other algorithm is as it was. -/
def SigningAlgorithm.resolved : SigningAlgorithm → SigningAlgorithm
  | .hmacAlg { DigestMethod := none } => .hmacAlg { DigestMethod := some sha1 }
  | a => a

/-- The signer after its algorithm computed a signature. -/
def Signer.resolved (s : Signer) : Signer := { s with algorithm := s.algorithm.resolved }

/-- The minimal big-endian representation of a number as the specification words it:
the big-endian bytes with the leading zero bytes removed, keeping at least one byte,
so the one byte `00` for zero. -/
def minimalBigEndian (t : Nat) : Bytes := if t = 0 then [0] else (Nat.digits 256 t).reverse

/-! ## Lemmas on the `bytes` package -/

theorem isPrefixOf_iff (a b : Bytes) : a.isPrefixOf b = true ↔ a <+: b :=
  List.isPrefixOf_iff_prefix

theorem bytesIndexFrom_cases (sep : Bytes) (s : Bytes) (i : Nat) :
    (bytesIndexFrom sep s i = -1 ∧ ¬ sep <:+: s) ∨
    (∃ k : Nat, bytesIndexFrom sep s i = ((i + k : Nat) : Int) ∧ sep <:+: s) := by
  induction s generalizing i with
  | nil =>
    unfold bytesIndexFrom
    by_cases h : sep.isPrefixOf [] = true
    · right
      refine ⟨0, by simp [h], ?_⟩
      exact ((isPrefixOf_iff _ _).mp h).isInfix
    · left
      refine ⟨by simp [h], ?_⟩
      intro hc
      apply h
      rw [isPrefixOf_iff]
      have := List.eq_nil_of_infix_nil hc
      subst this
      exact List.prefix_refl _
  | cons c rest ih =>
    unfold bytesIndexFrom
    by_cases h : sep.isPrefixOf (c :: rest) = true
    · right
      exact ⟨0, by simp [h], ((isPrefixOf_iff _ _).mp h).isInfix⟩
    · rcases ih (i + 1) with ⟨h1, h2⟩ | ⟨k, h1, h2⟩
      · left
        refine ⟨by simp [h, h1], ?_⟩
        intro hc
        rcases List.infix_cons_iff.mp hc with h3 | h3
        · exact h ((isPrefixOf_iff _ _).mpr h3)
        · exact h2 h3
      · right
        refine ⟨k + 1, ?_, List.infix_cons h2⟩
        simp only [h, Bool.false_eq_true, if_false, h1]
        congr 1
        omega

theorem bytesContains_iff (b sub : Bytes) : bytesContains b sub = true ↔ sub <:+: b := by
  unfold bytesContains bytesIndex
  rcases bytesIndexFrom_cases sub b 0 with ⟨h1, h2⟩ | ⟨k, h1, h2⟩
  · simp [h1, h2]
  · simp only [h1, h2, iff_true, bne_iff_ne, ne_eq]
    omega

theorem bytesContains_length {b sub : Bytes} (h : bytesContains b sub = true) :
    sub.length ≤ b.length :=
  ((bytesContains_iff b sub).mp h).length_le


theorem lastIndexBelow_cases (s sep : Bytes) (n : Nat) :
    (lastIndexBelow s sep n = -1 ∧ ∀ j, j ≤ n → ¬ sep <+: s.drop j) ∨
    (∃ k : Nat, k ≤ n ∧ lastIndexBelow s sep n = (k : Int) ∧ sep <+: s.drop k ∧
      ∀ j, k < j → j ≤ n → ¬ sep <+: s.drop j) := by
  induction n with
  | zero =>
    unfold lastIndexBelow
    by_cases h : sep.isPrefixOf s = true
    · right
      refine ⟨0, le_refl _, by simp [h], by simpa using (isPrefixOf_iff _ _).mp h, ?_⟩
      intro j h1 h2
      omega
    · left
      refine ⟨by simp [h], ?_⟩
      intro j hj hc
      have : j = 0 := by omega
      subst this
      exact h ((isPrefixOf_iff _ _).mpr (by simpa using hc))
  | succ n ih =>
    unfold lastIndexBelow
    by_cases h : sep.isPrefixOf (s.drop (n + 1)) = true
    · right
      refine ⟨n + 1, le_refl _, by simp [h], (isPrefixOf_iff _ _).mp h, ?_⟩
      intro j h1 h2
      omega
    · have hn : ¬ sep <+: s.drop (n + 1) := fun hc => h ((isPrefixOf_iff _ _).mpr hc)
      rcases ih with ⟨h1, h2⟩ | ⟨k, hk, h1, h2, h3⟩
      · left
        refine ⟨by simp [h, h1], ?_⟩
        intro j hj
        by_cases hj2 : j = n + 1
        · subst hj2
          exact hn
        · exact h2 j (by omega)
      · right
        refine ⟨k, by omega, by simp [h, h1], h2, ?_⟩
        intro j hj1 hj2
        by_cases hj3 : j = n + 1
        · subst hj3
          exact hn
        · exact h3 j hj1 (by omega)

theorem infix_iff_prefix_drop (sub s : Bytes) :
    sub <:+: s ↔ ∃ k, k ≤ s.length ∧ sub <+: s.drop k := by
  constructor
  · rintro ⟨a, b, rfl⟩
    refine ⟨a.length, by simp, ?_⟩
    simp [List.append_assoc]
  · rintro ⟨k, _, hk⟩
    exact hk.isInfix.trans (List.drop_suffix k s).isInfix

/-- The last index of a separator that occurs: the split it induces. -/
theorem bytesLastIndex_of_contains {s sep : Bytes} (h : bytesContains s sep = true) :
    ∃ k : Nat, bytesLastIndex s sep = (k : Int) ∧ k ≤ s.length ∧ sep <+: s.drop k ∧
      ∀ j, k < j → j ≤ s.length → ¬ sep <+: s.drop j := by
  have hin := (bytesContains_iff s sep).mp h
  obtain ⟨i, hi, hp⟩ := (infix_iff_prefix_drop sep s).mp hin
  rcases lastIndexBelow_cases s sep s.length with ⟨_, h2⟩ | ⟨k, hk, h1, h2, h3⟩
  · exact absurd hp (h2 i hi)
  · exact ⟨k, h1, hk, h2, h3⟩

/-- The last index when the split at the last occurrence is known. -/
theorem bytesLastIndex_eq {s sep value sig : Bytes} (hs : s = value ++ sep ++ sig)
    (hlast : ∀ j, value.length < j → j ≤ s.length → ¬ sep <+: s.drop j) :
    bytesContains s sep = true ∧ bytesLastIndex s sep = (value.length : Int) := by
  have hc : bytesContains s sep = true := by
    rw [bytesContains_iff, hs]
    exact ⟨value, sig, rfl⟩
  refine ⟨hc, ?_⟩
  obtain ⟨k, hk1, hk2, hk3, hk4⟩ := bytesLastIndex_of_contains hc
  have hv : sep <+: s.drop value.length := by
    rw [hs]; simp [List.append_assoc]
  have hvl : value.length ≤ s.length := by rw [hs]; simp
  have h1 : ¬ value.length < k := fun hlt => hlast k hlt hk2 hk3
  have h2 : ¬ k < value.length := fun hlt => hk4 _ hlt hvl hv
  rw [hk1]
  congr 1
  omega

/-- Splitting a token at an index where the separator starts. -/
theorem split_at_prefix {s sep : Bytes} {k : Nat} (h : sep <+: s.drop k) :
    s = s.take k ++ sep ++ s.drop (k + sep.length) := by
  obtain ⟨r, hr⟩ := h
  have h2 : s.drop (k + sep.length) = r := by
    rw [← List.drop_drop, ← hr]
    simp
  rw [h2, List.append_assoc, hr]
  exact (List.take_append_drop k s).symm

/-! ## Construction -/

theorem base64Alphabet_length : base64Alphabet.length = 65 := by decide

/-- `NewSigner` with the defaults written with `Option.getD`. -/
theorem NewSigner_eq (secretKey salt sep : Option Bytes) (digestMethod : Option Hash)
    (keyDerivation : String) (algorithm : Option SigningAlgorithm) :
    NewSigner secretKey salt sep digestMethod keyDerivation algorithm =
      if bytesContains (sep.getD [46]) base64Alphabet = true then
        .panic ("The given separator cannot be used because " ++
          "it may be contained in the signature itself. ASCII letters, digits," ++
          " and \x27-_=\x27 must not be used.")
      else .done {
        secretKey := secretKey
        sep := sep.getD [46]
        salt := salt.getD (str "itsdangerous.Signer")
        keyDerivation := if keyDerivation = "" then defaultKeyDerivation else keyDerivation
        digestMethod := digestMethod.getD sha1
        algorithm :=
          algorithm.getD (SigningAlgorithm.hmacAlg { DigestMethod := some (digestMethod.getD sha1) }) } := by
  cases sep <;> cases salt <;> cases digestMethod <;> cases algorithm <;> rfl

/-- `NewSigner` panics exactly when the separator (after the default) contains
the WHOLE 65-byte alphabet string as a contiguous run. -/
theorem NewSigner_done_iff (secretKey salt sep : Option Bytes) (digestMethod : Option Hash)
    (keyDerivation : String) (algorithm : Option SigningAlgorithm) :
    (∃ signer, NewSigner secretKey salt sep digestMethod keyDerivation algorithm = .done signer)
      ↔ ¬ base64Alphabet <:+: sep.getD [46] := by
  rw [← bytesContains_iff, NewSigner_eq]
  split <;> simp_all

/-- Every separator shorter than 65 bytes is accepted by `NewSigner`. -/
theorem NewSigner_done_of_short (secretKey salt : Option Bytes) (sep : Bytes)
    (digestMethod : Option Hash) (keyDerivation : String) (algorithm : Option SigningAlgorithm)
    (h : sep.length < 65) :
    ∃ signer, NewSigner secretKey salt (some sep) digestMethod keyDerivation algorithm
      = .done signer := by
  rw [NewSigner_done_iff]
  intro hc
  have := hc.length_le
  rw [base64Alphabet_length] at this
  simp only [Option.getD] at this
  omega

/-- The fields of a constructed signer. -/
theorem NewSigner_fields {secretKey salt sep : Option Bytes} {digestMethod : Option Hash}
    {keyDerivation : String} {algorithm : Option SigningAlgorithm} {signer : Signer}
    (h : NewSigner secretKey salt sep digestMethod keyDerivation algorithm = .done signer) :
    signer.secretKey = secretKey ∧ signer.sep = sep.getD [46] ∧
    signer.salt = salt.getD (str "itsdangerous.Signer") ∧
    signer.keyDerivation = (if keyDerivation = "" then defaultKeyDerivation else keyDerivation) ∧
    signer.digestMethod = digestMethod.getD sha1 ∧
    signer.algorithm =
      algorithm.getD (SigningAlgorithm.hmacAlg { DigestMethod := some (digestMethod.getD sha1) }) := by
  rw [NewSigner_eq] at h
  split at h
  · exact absurd h (by simp)
  · simp only [Run.done.injEq] at h
    subst h
    simp

/-- C3 (code defect, evaluated at the failing input): the one-byte separator `a`, a
byte of the URL-safe base64 alphabet, is accepted by `NewSigner` whatever the other
arguments are: a Signer with that separator is returned, no panic. -/
theorem NewSigner_accepts_letter_separator (secretKey salt : Option Bytes)
    (digestMethod : Option Hash) (keyDerivation : String) (algorithm : Option SigningAlgorithm) :
    ∃ signer, NewSigner secretKey salt (some (str "a")) digestMethod keyDerivation algorithm
        = .done signer ∧ signer.sep = str "a" ∧ (str "a").length = 1 ∧ 97 ∈ base64Alphabet
        ∧ 97 ∈ str "a" := by
  obtain ⟨signer, h⟩ := NewSigner_done_of_short secretKey salt (str "a") digestMethod
    keyDerivation algorithm (by decide)
  refine ⟨signer, h, (NewSigner_fields h).2.1, by decide, by decide, by decide⟩

/-- `DeriveKey` for a name outside the four known ones. -/
theorem Signer.DeriveKey_unknown (signer : Signer)
    (h : signer.keyDerivation ≠ "concat" ∧ signer.keyDerivation ≠ "django-concat" ∧
      signer.keyDerivation ≠ "hmac" ∧ signer.keyDerivation ≠ "none") (k : Option Bytes) :
    signer.DeriveKey k = .panic "Unknown key derivation method" := by
  unfold Signer.DeriveKey
  simp [h.1, h.2.1, h.2.2.1, h.2.2.2]

/-- C5 (amended): for every key-derivation name other than "", "concat",
"django-concat", "hmac" and "none", and every separator that `NewSigner` accepts,
`NewSigner` does NOT fail: it returns a Signer that carries the unknown name. The
failure is raised on use: `DeriveKey`, `GetSignature` and `Sign` panic with
"Unknown key derivation method" on every input, and `Unsign` panics on every
token whose signature field base64-decodes, while a token without the separator
still gets an ordinary `BadData`. -/
theorem NewSigner_unknown_keyDerivation (secretKey salt sep : Option Bytes)
    (digestMethod : Option Hash) (keyDerivation : String) (algorithm : Option SigningAlgorithm)
    (hkd : keyDerivation ≠ "" ∧ keyDerivation ≠ "concat" ∧ keyDerivation ≠ "django-concat" ∧
      keyDerivation ≠ "hmac" ∧ keyDerivation ≠ "none")
    (hsep : bytesContains (sep.getD [46]) base64Alphabet = false) :
    ∃ signer, NewSigner secretKey salt sep digestMethod keyDerivation algorithm = .done signer ∧
      signer.keyDerivation = keyDerivation ∧
      (∀ k, signer.DeriveKey k = .panic "Unknown key derivation method") ∧
      (∀ v, signer.GetSignature v = .panic "Unknown key derivation method") ∧
      (∀ v, signer.Sign v = .panic "Unknown key derivation method") ∧
      (∀ value sig d, Base64Decode sig = .ok d →
        signer.VerifySignature value sig = .panic "Unknown key derivation method") ∧
      (∀ token, bytesContains token signer.sep = false →
        ∃ m, signer.Unsign token = .done (.error (.BadData m), signer)) := by
  have hdone : ∃ signer, NewSigner secretKey salt sep digestMethod keyDerivation algorithm
      = .done signer := by
    rw [NewSigner_done_iff, ← bytesContains_iff, hsep]
    simp
  obtain ⟨signer, hs⟩ := hdone
  have hf := NewSigner_fields hs
  have hk : signer.keyDerivation = keyDerivation := by
    rw [hf.2.2.2.1]; simp [hkd.1]
  have hd := Signer.DeriveKey_unknown signer (by rw [hk]; exact hkd.2)
  refine ⟨signer, hs, hk, hd, ?_, ?_, ?_, ?_⟩
  · intro v
    simp [Signer.GetSignature, hd]
  · intro v
    simp [Signer.Sign, Signer.GetSignature, hd]
  · intro value sig d hdec
    simp [Signer.VerifySignature, hdec, hd]
  · intro token ht
    refine ⟨str "No " ++ signer.sep ++ str " found in value", ?_⟩
    simp [Signer.Unsign, ht]

/-- Witness of `NewSigner_unknown_keyDerivation`: the name "sha256" with the default
separator. -/
theorem NewSigner_unknown_keyDerivation_witness :
    ∃ signer, NewSigner (some (str "secret-key")) none none none "sha256" none = .done signer ∧
      signer.keyDerivation = "sha256" ∧
      (∀ k, signer.DeriveKey k = .panic "Unknown key derivation method") ∧
      (∀ v, signer.GetSignature v = .panic "Unknown key derivation method") ∧
      (∀ v, signer.Sign v = .panic "Unknown key derivation method") ∧
      (∀ value sig d, Base64Decode sig = .ok d →
        signer.VerifySignature value sig = .panic "Unknown key derivation method") ∧
      (∀ token, bytesContains token signer.sep = false →
        ∃ m, signer.Unsign token = .done (.error (.BadData m), signer)) :=
  NewSigner_unknown_keyDerivation (some (str "secret-key")) none none none "sha256" none
    (by decide) (by decide)

/-- C5 (counterexample): with the unknown key-derivation name "bogus" (and every
other argument left to its default) `NewSigner` returns a Signer and does not
panic. -/
theorem NewSigner_bogus_keyDerivation_returns :
    (∃ signer, NewSigner (some (str "secret-key")) none none none "bogus" none = .done signer ∧
      signer.keyDerivation = "bogus") ∧
    ∀ m, NewSigner (some (str "secret-key")) none none none "bogus" none ≠ .panic m := by
  have h : bytesContains ([46] : Bytes) base64Alphabet = false := by decide
  constructor
  · obtain ⟨signer, hs⟩ := (NewSigner_done_iff (some (str "secret-key")) none none none "bogus"
      none).mpr (by rw [← bytesContains_iff]; simp [Option.getD, h])
    refine ⟨signer, hs, ?_⟩
    rw [(NewSigner_fields hs).2.2.2.1]
    decide
  · intro m
    rw [NewSigner_eq]
    simp [Option.getD, h]

/-! ## `Signer.Unsign` -/

/-- `Unsign` on a token without the separator. -/
theorem Signer.Unsign_no_sep (signer : Signer) (token : Bytes)
    (h : bytesContains token signer.sep = false) :
    signer.Unsign token =
      .done (.error (.BadData (str "No " ++ signer.sep ++ str " found in value")), signer) := by
  simp [Signer.Unsign, h]

/-- `Unsign` on a token split at the last occurrence of the separator. -/
theorem Signer.Unsign_split (signer : Signer) (token value sig : Bytes)
    (hs : token = value ++ signer.sep ++ sig)
    (hlast : ∀ j, value.length < j → j ≤ token.length → ¬ signer.sep <+: token.drop j) :
    signer.Unsign token =
      match signer.VerifySignature value sig with
      | .panic m => .panic m
      | .done (true, signer2) => .done (.ok value, signer2)
      | .done (false, signer2) =>
        .done (.error (.BadData (str "Signature " ++ sig ++ str " does not match")), signer2) := by
  obtain ⟨hc, hl⟩ := bytesLastIndex_eq hs hlast
  have h1 : token.take value.length = value := by
    rw [hs, List.append_assoc, List.take_left]
  have h2 : token.drop (value.length + signer.sep.length) = sig := by
    rw [hs, ← List.length_append, List.drop_left]
  have h3 : ((value.length : Int) + (signer.sep.length : Int)).toNat
      = value.length + signer.sep.length := by omega
  rcases hv : signer.VerifySignature value sig with ⟨⟨_ | _, s2⟩⟩ | m <;>
    simp only [Signer.Unsign, hc, hl, Bool.not_true, Bool.false_eq_true, if_false,
      Int.toNat_ofNat, h1, h2, h3, hv]

/-- The results of `Signer.Unsign` when `VerifySignature` returns. A token without
the separator fails with `BadData`. For a token that contains it, with `value` the
bytes before the LAST occurrence of the separator and `sig` the bytes after it,
`Unsign` returns exactly `value` when `VerifySignature(value, sig)` returns true and
fails with `BadData` when it returns false; a `sig` that does not base64-decode is not
verified. Whenever `Unsign` returns a byte sequence it is that `value`, with a
verified signature. The panic of `VerifySignature` is in `Signer.Unsign_outcome`. -/
theorem Signer.Unsign_characterisation (signer : Signer) (token : Bytes) :
    (bytesContains token signer.sep = false →
      ∃ m, signer.Unsign token = .done (.error (.BadData m), signer)) ∧
    (∀ value sig : Bytes, token = value ++ signer.sep ++ sig →
      (∀ j, value.length < j → j ≤ token.length → ¬ signer.sep <+: token.drop j) →
      (∀ s2, signer.VerifySignature value sig = .done (true, s2) →
        signer.Unsign token = .done (.ok value, s2)) ∧
      (∀ s2, signer.VerifySignature value sig = .done (false, s2) →
        ∃ m, signer.Unsign token = .done (.error (.BadData m), s2)) ∧
      (∀ e, Base64Decode sig = .error e →
        signer.VerifySignature value sig = .done (false, signer))) ∧
    (∀ x s2, signer.Unsign token = .done (.ok x, s2) →
      bytesContains token signer.sep = true ∧
      ∃ sig, token = x ++ signer.sep ++ sig ∧
        (∀ j, x.length < j → j ≤ token.length → ¬ signer.sep <+: token.drop j) ∧
        signer.VerifySignature x sig = .done (true, s2)) := by
  refine ⟨fun h => ⟨_, Signer.Unsign_no_sep signer token h⟩, ?_, ?_⟩
  · intro value sig hs hlast
    have hu := Signer.Unsign_split signer token value sig hs hlast
    refine ⟨?_, ?_, ?_⟩
    · intro s2 hv
      rw [hu, hv]
    · intro s2 hv
      exact ⟨_, by rw [hu, hv]⟩
    · intro e he
      simp [Signer.VerifySignature, he]
  · intro x s2 hx
    have hc : bytesContains token signer.sep = true := by
      by_contra hn
      rw [Signer.Unsign_no_sep signer token (by simpa using hn)] at hx
      simp at hx
    obtain ⟨k, _, hk2, hk3, hk4⟩ := bytesLastIndex_of_contains hc
    have hsplit := split_at_prefix hk3
    have hlast : ∀ j, (token.take k).length < j → j ≤ token.length →
        ¬ signer.sep <+: token.drop j := by
      intro j hj
      rw [List.length_take, Nat.min_eq_left hk2] at hj
      exact hk4 j hj
    have hu := Signer.Unsign_split signer token _ _ hsplit hlast
    rw [hu] at hx
    refine ⟨hc, token.drop (k + signer.sep.length), ?_⟩
    split at hx
    · simp at hx
    · rename_i s3 hv
      simp only [Run.done.injEq, Prod.mk.injEq, Res.ok.injEq] at hx
      obtain ⟨hx1, hx2⟩ := hx
      subst hx1 hx2
      exact ⟨hsplit, hlast, hv⟩
    · simp at hx

/-! ## Base64 lemmas -/

theorem encodeURL_length : encodeURL.length = 64 := by decide

theorem decodeMap_encChar : ∀ i, i < 64 → decodeMap (encChar i) = i := by decide

theorem encChar_ne_pad : ∀ i, i < 64 → encChar i ≠ 61 := by decide

theorem encChar_ne_dot : ∀ i, i < 64 → encChar i ≠ 46 := by decide

theorem encChar_lt : ∀ i, i < 64 → encChar i < 256 := by decide

theorem decodeMap_lt {c : Nat} (h : decodeMap c ≠ 0xff) : decodeMap c < 64 := by
  unfold decodeMap at h ⊢
  split
  · assumption
  · rename_i h2
    simp [h2] at h

theorem encChar_decodeMap {c : Nat} (h : decodeMap c ≠ 0xff) : encChar (decodeMap c) = c := by
  by_cases h2 : List.indexOf c encodeURL < 64
  · have h3 : List.indexOf c encodeURL < encodeURL.length := by rw [encodeURL_length]; exact h2
    simp only [decodeMap, h2, if_true]
    unfold encChar
    rw [List.getD_eq_getElem _ _ h3]
    exact List.getElem_indexOf h3
  · simp [decodeMap, h2] at h

theorem decodeMap_pad : decodeMap 61 = 0xff := by decide

theorem decodeMap_encChar_ne {i : Nat} (h : i < 64) : decodeMap (encChar i) ≠ 0xff := by
  rw [decodeMap_encChar i h]; omega

theorem sextets_lt (x : Bytes) : ∀ s ∈ sextets x, s < 64 := by
  induction x using sextets.induct with
  | case1 a b c rest ih =>
    intro s hs
    simp only [sextets, List.mem_cons] at hs
    rcases hs with h | h | h | h | h
    · omega
    · omega
    · omega
    · omega
    · exact ih s h
  | case2 a b =>
    intro s hs
    simp only [sextets, List.mem_cons, List.mem_singleton, List.not_mem_nil, or_false] at hs
    omega
  | case3 a =>
    intro s hs
    simp only [sextets, List.mem_cons, List.mem_singleton, List.not_mem_nil, or_false] at hs
    omega
  | case4 => simp [sextets]

theorem sextets_length (x : Bytes) : (sextets x).length = (4 * x.length + 2) / 3 := by
  induction x using sextets.induct with
  | case1 a b c rest ih =>
    simp only [sextets, List.length_cons, ih]
    omega
  | case2 a b => simp [sextets]
  | case3 a => simp [sextets]
  | case4 => simp [sextets]

/-- `urlEncode` is the alphabet bytes of the 6-bit values followed by the padding. -/
theorem urlEncode_eq (x : Bytes) :
    urlEncode x = (sextets x).map encChar ++ List.replicate ((3 - x.length % 3) % 3) 61 := by
  induction x using sextets.induct with
  | case1 a b c rest ih =>
    simp only [urlEncode, sextets, List.map_cons, List.cons_append, ih, List.length_cons]
    have : (3 - (rest.length + 1 + 1 + 1) % 3) % 3 = (3 - rest.length % 3) % 3 := by omega
    rw [this]
  | case2 a b => simp [urlEncode, sextets]
  | case3 a => simp [urlEncode, sextets]
  | case4 => simp [urlEncode, sextets]

theorem bytesTrimRight_pad (a : Bytes) (n : Nat) (h : ∀ c ∈ a, c ≠ 61) :
    bytesTrimRight (a ++ List.replicate n 61) (str "=") = a := by
  have hs : str "=" = [61] := by decide
  unfold bytesTrimRight
  rw [hs, List.reverse_append, List.reverse_replicate]
  have h1 : List.dropWhile (fun c => ([61] : Bytes).contains c) (List.replicate n 61 ++ a.reverse)
      = a.reverse := by
    induction n with
    | zero =>
      simp only [List.replicate_zero, List.nil_append]
      cases hr : a.reverse with
      | nil => rfl
      | cons c rest =>
        have hc : c ∈ a := by
          rw [← List.mem_reverse, hr]; exact List.mem_cons_self _ _
        have := h c hc
        simp [List.dropWhile, this]
    | succ n ih =>
      simp only [List.replicate_succ, List.cons_append, List.dropWhile]
      simpa using ih
  rw [h1, List.reverse_reverse]

/-- `Base64Encode` is the alphabet bytes of the 6-bit values. -/
theorem Base64Encode_eq (x : Bytes) : Base64Encode x = (sextets x).map encChar := by
  unfold Base64Encode
  simp only
  rw [urlEncode_eq, bytesTrimRight_pad]
  intro c hc
  obtain ⟨s, hs, rfl⟩ := List.mem_map.mp hc
  exact encChar_ne_pad s (sextets_lt x s hs)

theorem Base64Encode_length (x : Bytes) : (Base64Encode x).length = (4 * x.length + 2) / 3 := by
  rw [Base64Encode_eq, List.length_map, sextets_length]

/-- Over a run of alphabet bytes `decodeLoop` only updates its state, as `feed` does. -/
theorem decodeLoop_alpha (cs rest : Bytes) (d : List Nat) (o : Bytes)
    (h : ∀ c ∈ cs, decodeMap c ≠ 0xff) :
    decodeLoop (cs ++ rest) d o
      = decodeLoop rest (feed (cs.map decodeMap) d o).1 (feed (cs.map decodeMap) d o).2 := by
  induction cs generalizing d o with
  | nil => simp [feed]
  | cons c cs ih =>
    have hc : decodeMap c ≠ 0xff := h c (List.mem_cons_self _ _)
    have hcs : ∀ c ∈ cs, decodeMap c ≠ 0xff := fun x hx => h x (List.mem_cons_of_mem _ hx)
    simp only [List.cons_append, List.map_cons]
    rw [decodeLoop, feed]
    by_cases h3 : d.length = 3
    · simp only [hc, h3, ne_eq, not_false_eq_true, if_true]
      exact ih _ _ hcs
    · simp only [hc, h3, ne_eq, not_false_eq_true, if_true, if_false]
      exact ih _ _ hcs

theorem feed_four (s0 s1 s2 s3 : Nat) (sx : List Nat) (o : Bytes) :
    feed (s0 :: s1 :: s2 :: s3 :: sx) [] o = feed sx [] (o ++ quantumBytes [s0, s1, s2, s3]) := by
  simp [feed]

/-- The state after a run of 6-bit values, in terms of `unsext`. -/
theorem feed_unsext (sx : List Nat) (o : Bytes) :
    (feed sx [] o).2 ++ quantumBytes (feed sx [] o).1 = o ++ unsext sx ∧
    (feed sx [] o).1.length = sx.length % 4 := by
  induction sx using unsext.induct generalizing o with
  | case1 s0 s1 s2 s3 rest ih =>
    rw [feed_four]
    obtain ⟨h1, h2⟩ := ih (o ++ quantumBytes [s0, s1, s2, s3])
    refine ⟨?_, ?_⟩
    · rw [h1, unsext, List.append_assoc]
    · rw [h2]
      simp only [List.length_cons]
      omega
  | case2 s0 s1 s2 => simp [feed, unsext]
  | case3 s0 s1 => simp [feed, unsext]
  | case4 s0 => simp [feed, unsext, quantumBytes]
  | case5 => simp [feed, unsext, quantumBytes]

/-- The padding that `Base64Decode` appends to a source of length `n`. -/
theorem decodeLoop_padding (n : Nat) (d : List Nat) (o : Bytes) (hd : d.length = n % 4) :
    decodeLoop (bytesRepeat [61] (if n % 4 > 0 then 4 - n % 4 else 1)) d o
      = if 2 ≤ n % 4 then some (o ++ quantumBytes d) else none := by
  have h4 : n % 4 = 0 ∨ n % 4 = 1 ∨ n % 4 = 2 ∨ n % 4 = 3 := by omega
  rcases h4 with h | h | h | h <;> rw [h] at hd <;>
    simp [h, bytesRepeat, List.replicate, decodeLoop, hd, decodeMap_pad, isNL]

/-- `Base64Decode` of a source made of alphabet bytes only. -/
theorem Base64Decode_alpha (cs : Bytes) (h : ∀ c ∈ cs, decodeMap c ≠ 0xff) :
    Base64Decode cs =
      if 2 ≤ cs.length % 4 then .ok (unsext (cs.map decodeMap))
      else .error (.BadData (str "Invalid base64-encoded data")) := by
  obtain ⟨h1, h2⟩ := feed_unsext (cs.map decodeMap) []
  rw [List.length_map] at h2
  unfold Base64Decode urlDecode BytesCombine
  simp only [List.flatten_cons, List.flatten_nil, List.append_nil]
  rw [decodeLoop_alpha cs _ [] [] h, decodeLoop_padding cs.length _ _ h2]
  by_cases h3 : 2 ≤ cs.length % 4
  · simp only [h3, if_true, h1, List.nil_append]
  · simp only [h3, if_false]

theorem quantumBytes_four (a b c : Nat) (ha : a < 256) (hb : b < 256) (hc : c < 256) :
    quantumBytes [(a * 2 ^ 16 + b * 2 ^ 8 + c) / 2 ^ 18 % 64, (a * 2 ^ 16 + b * 2 ^ 8 + c) / 2 ^ 12 % 64,
      (a * 2 ^ 16 + b * 2 ^ 8 + c) / 2 ^ 6 % 64, (a * 2 ^ 16 + b * 2 ^ 8 + c) % 64] = [a, b, c] := by
  simp only [quantumBytes, List.getD_cons_zero, List.getD_cons_succ, List.length_cons,
    List.length_nil]
  simp only [List.take, List.cons.injEq, and_true]
  refine ⟨?_, ?_, ?_⟩ <;> omega

theorem quantumBytes_three (a b : Nat) (ha : a < 256) (hb : b < 256) :
    quantumBytes [(a * 2 ^ 16 + b * 2 ^ 8) / 2 ^ 18 % 64, (a * 2 ^ 16 + b * 2 ^ 8) / 2 ^ 12 % 64,
      (a * 2 ^ 16 + b * 2 ^ 8) / 2 ^ 6 % 64] = [a, b] := by
  simp only [quantumBytes, List.getD_cons_zero, List.getD_cons_succ, List.length_cons,
    List.length_nil, List.getD_nil]
  simp only [List.take, List.cons.injEq, and_true]
  refine ⟨?_, ?_⟩ <;> omega

theorem quantumBytes_two (a : Nat) (ha : a < 256) :
    quantumBytes [(a * 2 ^ 16) / 2 ^ 18 % 64, (a * 2 ^ 16) / 2 ^ 12 % 64] = [a] := by
  simp only [quantumBytes, List.getD_cons_zero, List.getD_cons_succ, List.length_cons,
    List.length_nil, List.getD_nil]
  simp only [List.take, List.cons.injEq, and_true]
  omega

/-- The 6-bit values of a byte string carry exactly that byte string. -/
theorem unsext_sextets (x : Bytes) (hx : IsBytes x) : unsext (sextets x) = x := by
  induction x using sextets.induct with
  | case1 a b c rest ih =>
    have ha : a < 256 := hx a (by simp)
    have hb : b < 256 := hx b (by simp)
    have hc : c < 256 := hx c (by simp)
    have hr : IsBytes rest := fun y hy => hx y (by simp [hy])
    simp only [sextets, unsext, ih hr, quantumBytes_four a b c ha hb hc]
    rfl
  | case2 a b =>
    have ha : a < 256 := hx a (by simp)
    have hb : b < 256 := hx b (by simp)
    simp only [sextets, unsext, quantumBytes_three a b ha hb]
  | case3 a =>
    have ha : a < 256 := hx a (by simp)
    simp only [sextets, unsext, quantumBytes_two a ha]
  | case4 => simp [sextets, unsext]

/-- Base64 round trip: `Base64Decode (Base64Encode x)` returns `x` when the length of
`x` is not a multiple of three, and fails with `BadData` when it is. -/
theorem Base64Decode_Base64Encode (x : Bytes) (hx : IsBytes x) :
    Base64Decode (Base64Encode x) =
      if x.length % 3 ≠ 0 then .ok x
      else .error (.BadData (str "Invalid base64-encoded data")) := by
  have hal : ∀ c ∈ (sextets x).map encChar, decodeMap c ≠ 0xff := by
    intro c hc
    obtain ⟨s, hs, rfl⟩ := List.mem_map.mp hc
    exact decodeMap_encChar_ne (sextets_lt x s hs)
  have hmap : ((sextets x).map encChar).map decodeMap = sextets x := by
    rw [List.map_map]
    conv => rhs; rw [← List.map_id (sextets x)]
    apply List.map_congr_left
    intro s hs
    exact decodeMap_encChar s (sextets_lt x s hs)
  rw [Base64Encode_eq, Base64Decode_alpha _ hal, hmap, unsext_sextets x hx, List.length_map,
    sextets_length]
  have h3 : x.length % 3 = 0 ∨ x.length % 3 = 1 ∨ x.length % 3 = 2 := by omega
  rcases h3 with h | h | h
  · have : ¬ 2 ≤ (4 * x.length + 2) / 3 % 4 := by omega
    simp [h, this]
  · have : 2 ≤ (4 * x.length + 2) / 3 % 4 := by omega
    simp [h, this]
  · have : 2 ≤ (4 * x.length + 2) / 3 % 4 := by omega
    simp [h, this]

/-! ## Round trip of `Signer` -/

theorem encChar_mem_alphabet : ∀ i, i < 64 → encChar i ∈ base64Alphabet := by decide

theorem decodeMap_of_not_mem {c : Nat} (h : c ∉ base64Alphabet) : decodeMap c = 0xff := by
  by_contra hc
  apply h
  rw [← encChar_decodeMap hc]
  exact encChar_mem_alphabet _ (decodeMap_lt hc)

theorem Base64Encode_alpha (x : Bytes) : ∀ c ∈ Base64Encode x, decodeMap c ≠ 0xff := by
  intro c hc
  rw [Base64Encode_eq] at hc
  obtain ⟨s, hs, rfl⟩ := List.mem_map.mp hc
  exact decodeMap_encChar_ne (sextets_lt x s hs)

/-- A non-empty separator does not start inside or after the separator that precedes
a run of bytes none of which is a byte of the separator. -/
theorem no_later_sep_of_disjoint (v sep e : Bytes) (hne : sep ≠ [])
    (hdis : ∀ c ∈ sep, c ∉ e) :
    ∀ j, v.length < j → j ≤ (v ++ sep ++ e).length → ¬ sep <+: (v ++ sep ++ e).drop j := by
  intro j hj hjl hp
  obtain ⟨r, hr⟩ := hp
  have htok : v ++ sep ++ e = (v ++ sep ++ e).take j ++ (sep ++ r) := by
    rw [hr, List.take_append_drop]
  have hlen : j + (sep.length + r.length) = v.length + sep.length + e.length := by
    have := congrArg List.length htok
    simp only [List.length_append, List.length_take] at this
    simp only [List.length_append] at hjl
    omega
  have hrs : r <:+ v ++ sep ++ e := by
    rw [htok, ← List.append_assoc]; exact List.suffix_append _ _
  have hes : e <:+ v ++ sep ++ e := List.suffix_append _ _
  obtain ⟨e1, he1⟩ := List.suffix_of_suffix_length_le hrs hes (by omega)
  have he1ne : e1 ≠ [] := by
    intro h
    subst h
    simp only [List.nil_append] at he1
    subst he1
    omega
  have hcancel : (v ++ sep ++ e).take j ++ sep = v ++ sep ++ e1 := by
    have hh : ((v ++ sep ++ e).take j ++ sep) ++ r = (v ++ sep ++ e1) ++ r := by
      rw [List.append_assoc, ← htok, ← he1]
      simp [List.append_assoc]
    exact List.append_cancel_right hh
  have hlast := congrArg List.getLast? hcancel
  rw [List.getLast?_append_of_ne_nil _ hne, List.getLast?_append_of_ne_nil _ he1ne] at hlast
  have h1 : sep.getLast hne ∈ sep := List.getLast_mem hne
  have h2 : e1.getLast he1ne ∈ e := by
    rw [← he1]; exact List.mem_append_left _ (List.getLast_mem he1ne)
  rw [List.getLast?_eq_getLast _ hne, List.getLast?_eq_getLast _ he1ne, Option.some.injEq] at hlast
  exact hdis _ h1 (hlast ▸ h2)

/-- A non-empty separator without alphabet bytes does not start inside or after the
separator that precedes a run of alphabet bytes. -/
theorem no_later_sep (v sep e : Bytes) (hne : sep ≠ [])
    (hsep : ∀ c ∈ sep, decodeMap c = 0xff) (he : ∀ c ∈ e, decodeMap c ≠ 0xff) :
    ∀ j, v.length < j → j ≤ (v ++ sep ++ e).length → ¬ sep <+: (v ++ sep ++ e).drop j :=
  no_later_sep_of_disjoint v sep e hne (fun c hc hce => he c hce (hsep c hc))

theorem Signer.DeriveKey_secretKey (s : Signer) : s.DeriveKey s.secretKey = s.DeriveKey none := by
  unfold Signer.DeriveKey
  cases s.secretKey <;> rfl

theorem Signer.DeriveKey_algorithm (s : Signer) (a : SigningAlgorithm) (k : Option Bytes) :
    ({ s with algorithm := a } : Signer).DeriveKey k = s.DeriveKey k := rfl

/-- `DeriveKey` returns for the four known derivations. -/
theorem Signer.DeriveKey_known (s : Signer) (k : Option Bytes)
    (h : s.keyDerivation = "concat" ∨ s.keyDerivation = "django-concat" ∨
      s.keyDerivation = "hmac" ∨ s.keyDerivation = "none") :
    ∃ key, s.DeriveKey k = .done key := by
  unfold Signer.DeriveKey
  rcases h with h | h | h | h <;> simp [h]

/-- The round trip of one signer, from what it needs of its algorithm. -/
theorem Signer.Sign_Unsign_core (s : Signer) (v key : Bytes) (hne : s.sep ≠ [])
    (hsep : ∀ c ∈ s.sep, decodeMap c = 0xff)
    (hkey : s.DeriveKey none = .done key)
    (hb : IsBytes (s.algorithm.GetSignature key v).1)
    (hl : (s.algorithm.GetSignature key v).1.length % 3 ≠ 0)
    (hv : ((s.algorithm.GetSignature key v).2.VerifySignature key v
      (s.algorithm.GetSignature key v).1).1 = true) :
    ∃ s1 s2, s.Sign v = .done (v ++ s.sep ++ Base64Encode (s.algorithm.GetSignature key v).1, s1) ∧
      s1.Unsign (v ++ s.sep ++ Base64Encode (s.algorithm.GetSignature key v).1)
        = .done (.ok v, s2) := by
  have hdec := Base64Decode_Base64Encode _ hb
  simp only [hl, ne_eq, not_false_eq_true, if_true] at hdec
  refine ⟨{ s with algorithm := (s.algorithm.GetSignature key v).2 },
    { s with algorithm := ((s.algorithm.GetSignature key v).2.VerifySignature key v
      (s.algorithm.GetSignature key v).1).2 }, ?_, ?_⟩
  · simp [Signer.Sign, Signer.GetSignature, hkey, BytesCombine]
  · have hu := Signer.Unsign_split { s with algorithm := (s.algorithm.GetSignature key v).2 }
      (v ++ s.sep ++ Base64Encode (s.algorithm.GetSignature key v).1) v
      (Base64Encode (s.algorithm.GetSignature key v).1) rfl
      (no_later_sep v s.sep _ hne hsep (Base64Encode_alpha _))
    rw [hu]
    simp only [Signer.VerifySignature, hdec, Signer.DeriveKey_secretKey,
      Signer.DeriveKey_algorithm, hkey, hv]

theorem sha1Sum_length (m : Bytes) : (sha1Sum m).length = 20 := by
  simp [sha1Sum, put32]

theorem NewSigner_done_of_clean (secretKey salt sep : Option Bytes) (digestMethod : Option Hash)
    (keyDerivation : String) (algorithm : Option SigningAlgorithm)
    (hsep : ∀ x, sep = some x → x ≠ [] ∧ ∀ c ∈ x, c ∉ base64Alphabet) :
    ∃ signer, NewSigner secretKey salt sep digestMethod keyDerivation algorithm = .done signer ∧
      signer.sep ≠ [] ∧ ∀ c ∈ signer.sep, decodeMap c = 0xff := by
  have h97 : (97 : Nat) ∈ base64Alphabet := by decide
  have h46 : (46 : Nat) ∉ base64Alphabet := by decide
  have hclean : sep.getD [46] ≠ [] ∧ ∀ c ∈ sep.getD [46], c ∉ base64Alphabet := by
    cases sep with
    | none =>
      refine ⟨by simp, ?_⟩
      intro c hc
      simp only [Option.getD, List.mem_singleton] at hc
      subst hc
      exact h46
    | some x => exact hsep x rfl
  obtain ⟨signer, hs⟩ := (NewSigner_done_iff secretKey salt sep digestMethod keyDerivation
    algorithm).mpr (fun hin => hclean.2 97 (hin.subset h97) h97)
  refine ⟨signer, hs, ?_, ?_⟩
  · rw [(NewSigner_fields hs).2.1]; exact hclean.1
  · rw [(NewSigner_fields hs).2.1]
    exact fun c hc => decodeMap_of_not_mem (hclean.2 c hc)

/-- C1 (amended): round trip. For every byte sequence `v` and every Signer that
`NewSigner` constructs from a separator that is nil (the default `.`) or non-empty
and free of bytes of the URL-safe base64 alphabet, one of the four key derivations
(or the default), any digest function, and either the None algorithm or an HMAC
algorithm (the default one over `digestMethod`, or a caller-supplied
`HMACAlgorithm`) whose digest output length is not a multiple of three,
`Unsign(Sign(v))` succeeds and returns exactly `v`. -/
theorem Signer_round_trip (secretKey salt sep : Option Bytes) (digestMethod : Option Hash)
    (keyDerivation : String) (algorithm : Option SigningAlgorithm) (v : Bytes)
    (hsep : ∀ x, sep = some x → x ≠ [] ∧ ∀ c ∈ x, c ∉ base64Alphabet)
    (hkd : keyDerivation = "" ∨ keyDerivation = "concat" ∨ keyDerivation = "django-concat" ∨
      keyDerivation = "hmac" ∨ keyDerivation = "none")
    (halg : (algorithm = none ∧ ∀ m, ((digestMethod.getD sha1).sum m).length % 3 ≠ 0) ∨
      algorithm = some .noneAlg ∨
      ∃ d, algorithm = some (.hmacAlg ⟨d⟩) ∧ ∀ m, ((d.getD sha1).sum m).length % 3 ≠ 0) :
    ∃ signer t s1 s2,
      NewSigner secretKey salt sep digestMethod keyDerivation algorithm = .done signer ∧
      signer.Sign v = .done (t, s1) ∧ s1.Unsign t = .done (.ok v, s2) := by
  obtain ⟨signer, hs, hne, hclean⟩ := NewSigner_done_of_clean secretKey salt sep digestMethod
    keyDerivation algorithm hsep
  have hf := NewSigner_fields hs
  have hk : signer.keyDerivation = "concat" ∨ signer.keyDerivation = "django-concat" ∨
      signer.keyDerivation = "hmac" ∨ signer.keyDerivation = "none" := by
    rw [hf.2.2.2.1]
    rcases hkd with h | h | h | h | h <;> subst h <;> decide
  obtain ⟨key, hkey⟩ := Signer.DeriveKey_known signer none hk
  have halg2 : IsBytes (signer.algorithm.GetSignature key v).1 ∧
      (signer.algorithm.GetSignature key v).1.length % 3 ≠ 0 ∧
      ((signer.algorithm.GetSignature key v).2.VerifySignature key v
        (signer.algorithm.GetSignature key v).1).1 = true := by
    rw [hf.2.2.2.2.2]
    rcases halg with ⟨h, hl⟩ | h | ⟨d, h, hl⟩
    · subst h
      simp only [Option.getD, SigningAlgorithm.GetSignature, SigningAlgorithm.VerifySignature,
        HMACAlgorithm.GetSignature, HMACAlgorithm.VerifySignature, hmacEqual]
      exact ⟨Hash.sum_bytes _ _, hl _, by simp⟩
    · subst h
      simp only [Option.getD, SigningAlgorithm.GetSignature, SigningAlgorithm.VerifySignature,
        NoneAlgorithm.GetSignature, NoneAlgorithm.VerifySignature, hmacEqual]
      refine ⟨?_, by decide, by decide⟩
      intro x hx
      simp only [List.mem_singleton] at hx
      omega
    · subst h
      cases d with
      | none =>
        simp only [Option.getD, SigningAlgorithm.GetSignature, SigningAlgorithm.VerifySignature,
          HMACAlgorithm.GetSignature, HMACAlgorithm.VerifySignature, hmacEqual]
        exact ⟨Hash.sum_bytes _ _, hl _, by simp⟩
      | some d =>
        simp only [Option.getD, SigningAlgorithm.GetSignature, SigningAlgorithm.VerifySignature,
          HMACAlgorithm.GetSignature, HMACAlgorithm.VerifySignature, hmacEqual]
        exact ⟨Hash.sum_bytes _ _, hl _, by simp⟩
  obtain ⟨s1, s2, h1, h2⟩ := Signer.Sign_Unsign_core signer v key hne hclean hkey halg2.1
    halg2.2.1 halg2.2.2
  exact ⟨signer, _, s1, s2, hs, h1, h2⟩

/-- Witness of `Signer_round_trip`: the default signer (HMAC-SHA1, django-concat,
separator `.`) with the secret "secret-key" and the value "hello". -/
theorem Signer_round_trip_witness :
    ∃ signer t s1 s2,
      NewSigner (some (str "secret-key")) none none none "" none = .done signer ∧
      signer.Sign (str "hello") = .done (t, s1) ∧ s1.Unsign t = .done (.ok (str "hello"), s2) :=
  Signer_round_trip (some (str "secret-key")) none none none "" none (str "hello")
    (fun _ h => by simp at h) (Or.inl rfl)
    (Or.inl ⟨rfl, fun m => by
      show (sha1Sum m).length % 3 ≠ 0
      rw [sha1Sum_length]
      decide⟩)

set_option maxRecDepth 1000000 in
/-- C1 (counterexample): two signers that `NewSigner` constructs without failing and
that do not accept their own token. (1) HMAC over SHA-384 (`sha512.New384`), all
else default: `Sign("hello")` is `hello.` followed by 64 base64 bytes, and `Unsign`
of that token, by the signer as it is after `Sign`, fails with `BadData`. (2) The
empty (non-nil) separator with the None algorithm: `Sign("hello")` is `helloYg`,
and `Unsign` of it fails with `BadData`. -/
theorem Signer_round_trip_fails :
    ((NewSigner (some (str "secret-key")) none none (some sha384) "" none).bind
        (fun s => (s.Sign (str "hello")).val)
      = .done (str "hello.IbEIWzpbZzzsUnFmM8SRbiYjdERZFzfhxjs61AAJ_OC4YQv2iHJSftH_0WHqQIes") ∧
     (NewSigner (some (str "secret-key")) none none (some sha384) "" none).bind
        (fun s => (s.Sign (str "hello")).bind (fun r => (r.2.Unsign
          (str "hello.IbEIWzpbZzzsUnFmM8SRbiYjdERZFzfhxjs61AAJ_OC4YQv2iHJSftH_0WHqQIes")).val))
      = .done (.error (.BadData (str ("Signature " ++
          "IbEIWzpbZzzsUnFmM8SRbiYjdERZFzfhxjs61AAJ_OC4YQv2iHJSftH_0WHqQIes does not match"))))) ∧
    ((NewSigner (some (str "secret-key")) none (some []) none "" (some .noneAlg)).bind
        (fun s => (s.Sign (str "hello")).val) = .done (str "helloYg") ∧
     (NewSigner (some (str "secret-key")) none (some []) none "" (some .noneAlg)).bind
        (fun s => (s.Sign (str "hello")).bind (fun r => (r.2.Unsign (str "helloYg")).val))
      = .done (.error (.BadData (str "Signature  does not match")))) := by
  refine ⟨⟨?_, ?_⟩, ⟨?_, ?_⟩⟩ <;> decide

/-! ## Timestamps -/

theorem beValue_putUint64 (w : Nat) : beValue (putUint64 w) = w % 2 ^ 64 := by
  simp only [beValue, putUint64, List.foldl]
  omega

theorem putUint64_bytes (w : Nat) : IsBytes (putUint64 w) := by
  intro x hx
  simp only [putUint64, List.mem_cons, List.mem_singleton, List.not_mem_nil, or_false] at hx
  omega

theorem trimLeft_zeros (k : Nat) (l : Bytes) (hl : ∀ b ∈ l.head?, b ≠ 0) :
    bytesTrimLeft (List.replicate k 0 ++ l) [0] = l := by
  induction k with
  | zero =>
    cases l with
    | nil => rfl
    | cons b l =>
      have hb : b ≠ 0 := hl b (by simp)
      simp [bytesTrimLeft, List.dropWhile, hb]
  | succ k ih =>
    simp only [List.replicate_succ, List.cons_append, bytesTrimLeft, List.dropWhile]
    simpa [bytesTrimLeft] using ih

set_option maxHeartbeats 1000000 in
/-- The eight big-endian bytes are zero bytes followed by the significant bytes. -/
theorem putUint64_split (w : Nat) (hw : w < 2 ^ 64) :
    putUint64 w = List.replicate (8 - byteLen w) 0 ++ (putUint64 w).drop (8 - byteLen w) ∧
    ∀ b ∈ ((putUint64 w).drop (8 - byteLen w)).head?, b ≠ 0 := by
  have hcases : w = 0 ∨ (0 < w ∧ w < 2 ^ 8) ∨ (2 ^ 8 ≤ w ∧ w < 2 ^ 16) ∨
      (2 ^ 16 ≤ w ∧ w < 2 ^ 24) ∨ (2 ^ 24 ≤ w ∧ w < 2 ^ 32) ∨ (2 ^ 32 ≤ w ∧ w < 2 ^ 40) ∨
      (2 ^ 40 ≤ w ∧ w < 2 ^ 48) ∨ (2 ^ 48 ≤ w ∧ w < 2 ^ 56) ∨ 2 ^ 56 ≤ w := by omega
  rcases hcases with h | h | h | h | h | h | h | h | h
  · subst h
    decide
  · have z0 : w / 72057594037927936 % 256 = 0 := by omega
    have z1 : w / 281474976710656 % 256 = 0 := by omega
    have z2 : w / 1099511627776 % 256 = 0 := by omega
    have z3 : w / 4294967296 % 256 = 0 := by omega
    have z4 : w / 16777216 % 256 = 0 := by omega
    have z5 : w / 65536 % 256 = 0 := by omega
    have z6 : w / 256 % 256 = 0 := by omega
    have nz : w % 256 ≠ 0 := by omega
    have hb : byteLen w = 1 := by
      unfold byteLen
      rw [if_neg (show ¬ w = 0 by omega)]
      rw [if_pos (show w < 2 ^ 8 by omega)]
    simp [putUint64, hb, nz, z0, z1, z2, z3, z4, z5, z6]
  · have z0 : w / 72057594037927936 % 256 = 0 := by omega
    have z1 : w / 281474976710656 % 256 = 0 := by omega
    have z2 : w / 1099511627776 % 256 = 0 := by omega
    have z3 : w / 4294967296 % 256 = 0 := by omega
    have z4 : w / 16777216 % 256 = 0 := by omega
    have z5 : w / 65536 % 256 = 0 := by omega
    have nz : w / 256 % 256 ≠ 0 := by omega
    have hb : byteLen w = 2 := by
      unfold byteLen
      rw [if_neg (show ¬ w = 0 by omega)]
      rw [if_neg (show ¬ w < 2 ^ 8 by omega)]
      rw [if_pos (show w < 2 ^ 16 by omega)]
    simp [putUint64, hb, nz, z0, z1, z2, z3, z4, z5]
  · have z0 : w / 72057594037927936 % 256 = 0 := by omega
    have z1 : w / 281474976710656 % 256 = 0 := by omega
    have z2 : w / 1099511627776 % 256 = 0 := by omega
    have z3 : w / 4294967296 % 256 = 0 := by omega
    have z4 : w / 16777216 % 256 = 0 := by omega
    have nz : w / 65536 % 256 ≠ 0 := by omega
    have hb : byteLen w = 3 := by
      unfold byteLen
      rw [if_neg (show ¬ w = 0 by omega)]
      rw [if_neg (show ¬ w < 2 ^ 8 by omega)]
      rw [if_neg (show ¬ w < 2 ^ 16 by omega)]
      rw [if_pos (show w < 2 ^ 24 by omega)]
    simp [putUint64, hb, nz, z0, z1, z2, z3, z4]
  · have z0 : w / 72057594037927936 % 256 = 0 := by omega
    have z1 : w / 281474976710656 % 256 = 0 := by omega
    have z2 : w / 1099511627776 % 256 = 0 := by omega
    have z3 : w / 4294967296 % 256 = 0 := by omega
    have nz : w / 16777216 % 256 ≠ 0 := by omega
    have hb : byteLen w = 4 := by
      unfold byteLen
      rw [if_neg (show ¬ w = 0 by omega)]
      rw [if_neg (show ¬ w < 2 ^ 8 by omega)]
      rw [if_neg (show ¬ w < 2 ^ 16 by omega)]
      rw [if_neg (show ¬ w < 2 ^ 24 by omega)]
      rw [if_pos (show w < 2 ^ 32 by omega)]
    simp [putUint64, hb, nz, z0, z1, z2, z3]
  · have z0 : w / 72057594037927936 % 256 = 0 := by omega
    have z1 : w / 281474976710656 % 256 = 0 := by omega
    have z2 : w / 1099511627776 % 256 = 0 := by omega
    have nz : w / 4294967296 % 256 ≠ 0 := by omega
    have hb : byteLen w = 5 := by
      unfold byteLen
      rw [if_neg (show ¬ w = 0 by omega)]
      rw [if_neg (show ¬ w < 2 ^ 8 by omega)]
      rw [if_neg (show ¬ w < 2 ^ 16 by omega)]
      rw [if_neg (show ¬ w < 2 ^ 24 by omega)]
      rw [if_neg (show ¬ w < 2 ^ 32 by omega)]
      rw [if_pos (show w < 2 ^ 40 by omega)]
    simp [putUint64, hb, nz, z0, z1, z2]
  · have z0 : w / 72057594037927936 % 256 = 0 := by omega
    have z1 : w / 281474976710656 % 256 = 0 := by omega
    have nz : w / 1099511627776 % 256 ≠ 0 := by omega
    have hb : byteLen w = 6 := by
      unfold byteLen
      rw [if_neg (show ¬ w = 0 by omega)]
      rw [if_neg (show ¬ w < 2 ^ 8 by omega)]
      rw [if_neg (show ¬ w < 2 ^ 16 by omega)]
      rw [if_neg (show ¬ w < 2 ^ 24 by omega)]
      rw [if_neg (show ¬ w < 2 ^ 32 by omega)]
      rw [if_neg (show ¬ w < 2 ^ 40 by omega)]
      rw [if_pos (show w < 2 ^ 48 by omega)]
    simp [putUint64, hb, nz, z0, z1]
  · have z0 : w / 72057594037927936 % 256 = 0 := by omega
    have nz : w / 281474976710656 % 256 ≠ 0 := by omega
    have hb : byteLen w = 7 := by
      unfold byteLen
      rw [if_neg (show ¬ w = 0 by omega)]
      rw [if_neg (show ¬ w < 2 ^ 8 by omega)]
      rw [if_neg (show ¬ w < 2 ^ 16 by omega)]
      rw [if_neg (show ¬ w < 2 ^ 24 by omega)]
      rw [if_neg (show ¬ w < 2 ^ 32 by omega)]
      rw [if_neg (show ¬ w < 2 ^ 40 by omega)]
      rw [if_neg (show ¬ w < 2 ^ 48 by omega)]
      rw [if_pos (show w < 2 ^ 56 by omega)]
    simp [putUint64, hb, nz, z0]
  · have nz : w / 72057594037927936 % 256 ≠ 0 := by omega
    have hb : byteLen w = 8 := by
      unfold byteLen
      rw [if_neg (show ¬ w = 0 by omega)]
      rw [if_neg (show ¬ w < 2 ^ 8 by omega)]
      rw [if_neg (show ¬ w < 2 ^ 16 by omega)]
      rw [if_neg (show ¬ w < 2 ^ 24 by omega)]
      rw [if_neg (show ¬ w < 2 ^ 32 by omega)]
      rw [if_neg (show ¬ w < 2 ^ 40 by omega)]
      rw [if_neg (show ¬ w < 2 ^ 48 by omega)]
      rw [if_neg (show ¬ w < 2 ^ 56 by omega)]
    simp [putUint64, hb, nz]

/-- `bytes.TrimLeft(buf, "\x00")` of the eight big-endian bytes keeps the significant
bytes. -/
theorem trimLeft_putUint64 (w : Nat) (hw : w < 2 ^ 64) :
    bytesTrimLeft (putUint64 w) [0] = (putUint64 w).drop (8 - byteLen w) := by
  obtain ⟨h1, h2⟩ := putUint64_split w hw
  conv => lhs; rw [h1]
  exact trimLeft_zeros _ _ h2

theorem byteLen_le (w : Nat) : byteLen w ≤ 8 := by
  unfold byteLen
  split_ifs <;> omega

theorem trimLeft_putUint64_length (w : Nat) (hw : w < 2 ^ 64) :
    (bytesTrimLeft (putUint64 w) [0]).length = byteLen w := by
  rw [trimLeft_putUint64 w hw, List.length_drop]
  have := byteLen_le w
  simp only [putUint64, List.length_cons, List.length_nil]
  omega

theorem IsBytes_append {a b : Bytes} (ha : IsBytes a) (hb : IsBytes b) : IsBytes (a ++ b) := by
  intro x hx
  rcases List.mem_append.mp hx with h | h
  · exact ha x h
  · exact hb x h

theorem quantumBytes_bytes (d : List Nat) : IsBytes (quantumBytes d) := by
  intro x hx
  have hx2 := List.mem_of_mem_take hx
  simp only [List.mem_cons, List.mem_singleton, List.not_mem_nil, or_false] at hx2
  omega

/-- `decodeLoop` only ever stores bytes. -/
theorem decodeLoop_bytes (src : Bytes) (d : List Nat) (o r : Bytes) (ho : IsBytes o)
    (h : decodeLoop src d o = some r) : IsBytes r := by
  induction src generalizing d o with
  | nil =>
    unfold decodeLoop at h
    split at h
    · simp only [Option.some.injEq] at h
      exact h ▸ ho
    · exact absurd h (by simp)
  | cons c rest ih =>
    have hq : ∀ d2, IsBytes (o ++ quantumBytes d2) := fun d2 => IsBytes_append ho (quantumBytes_bytes d2)
    unfold decodeLoop at h
    split at h
    · split at h
      · exact ih _ _ (hq _) h
      · exact ih _ _ ho h
    · split at h
      · exact ih _ _ ho h
      · split at h
        · exact absurd h (by simp)
        · split at h
          · exact absurd h (by simp)
          · exact absurd h (by simp)
          · split at h
            · exact absurd h (by simp)
            · split at h
              · exact absurd h (by simp)
              · split at h
                · simp only [Option.some.injEq] at h
                  exact h ▸ hq _
                · exact absurd h (by simp)
          · split at h
            · simp only [Option.some.injEq] at h
              exact h ▸ hq _
            · exact absurd h (by simp)

/-- What `Base64Decode` returns: bytes, or the one `BadData` error. -/
theorem Base64Decode_cases (x : Bytes) :
    (∃ r, Base64Decode x = .ok r ∧ IsBytes r) ∨
    Base64Decode x = .error (.BadData (str "Invalid base64-encoded data")) := by
  unfold Base64Decode
  simp only
  cases h : urlDecode (BytesCombine [x, bytesRepeat [61] (if x.length % 4 > 0 then 4 - x.length % 4 else 1)]) with
  | none => right; rfl
  | some r =>
    left
    exact ⟨r, rfl, decodeLoop_bytes _ _ _ _ (by intro y hy; simp at hy) h⟩

theorem foldl_be (l : Bytes) (a : Nat) :
    l.foldl (fun acc x => acc * 256 + x) a
      = a * 256 ^ l.length + l.foldl (fun acc x => acc * 256 + x) 0 := by
  induction l generalizing a with
  | nil => simp
  | cons b l ih =>
    simp only [List.foldl_cons, List.length_cons]
    rw [ih, ih (0 * 256 + b)]
    ring

theorem beValue_cons (b : Nat) (l : Bytes) : beValue (b :: l) = b * 256 ^ l.length + beValue l := by
  simp only [beValue, List.foldl_cons]
  rw [foldl_be]
  simp

theorem beValue_lt (l : Bytes) (hl : IsBytes l) : beValue l < 256 ^ l.length := by
  induction l with
  | nil => simp [beValue]
  | cons b l ih =>
    have hb : b < 256 := hl b (by simp)
    have h2 := ih (fun y hy => hl y (by simp [hy]))
    rw [beValue_cons, List.length_cons, pow_succ]
    nlinarith

theorem beValue_zeros (k : Nat) (l : Bytes) : beValue (List.replicate k 0 ++ l) = beValue l := by
  induction k with
  | zero => simp
  | succ k ih =>
    rw [List.replicate_succ, List.cons_append, beValue_cons, ih]
    simp

/-- The padded timestamp always has eight bytes to read when the decoded field is not
empty, and the value read is below `2 ^ 56`. -/
theorem readUint64_padded (sig : Bytes) (hs : sig ≠ []) (hb : IsBytes sig) :
    ∃ t, readUint64 (BytesCombine [bytesRepeat [0] (timestampPadLen sig), sig]) = some t ∧
      t < 2 ^ 56 := by
  have hpos : 0 < sig.length := List.length_pos.mpr hs
  have hrep : ∀ k, bytesRepeat [0] k = List.replicate k 0 := by
    intro k
    induction k with
    | zero => rfl
    | succ k ih =>
      simp only [bytesRepeat, List.replicate_succ, List.flatten_cons] at ih ⊢
      rw [ih]; rfl
  have hpad : 1 ≤ timestampPadLen sig ∧ 8 ≤ timestampPadLen sig + sig.length := by
    unfold timestampPadLen
    split <;> omega
  obtain ⟨k, hk⟩ : ∃ k, timestampPadLen sig = k + 1 := ⟨timestampPadLen sig - 1, by omega⟩
  simp only [BytesCombine, List.flatten_cons, List.flatten_nil, List.append_nil, hrep]
  unfold readUint64
  rw [if_neg (by simp only [List.length_append, List.length_replicate]; omega)]
  refine ⟨_, rfl, ?_⟩
  rw [hk, List.replicate_succ, List.cons_append, List.take_succ_cons, beValue_cons]
  have hb2 : IsBytes (List.take 7 (List.replicate k 0 ++ sig)) := by
    intro y hy
    rcases List.mem_append.mp (List.mem_of_mem_take hy) with h | h
    · rw [List.mem_replicate] at h
      omega
    · exact hb y h
  have h3 := beValue_lt _ hb2
  have h4 : (List.take 7 (List.replicate k 0 ++ sig)).length ≤ 7 := by
    rw [List.length_take]; omega
  have h5 : 256 ^ (List.take 7 (List.replicate k 0 ++ sig)).length ≤ 256 ^ 7 :=
    Nat.pow_le_pow_right (by decide) h4
  omega

/-! ## Timestamped tokens -/

theorem exampleSigner_eq :
    DefaultTimestampSigner (some (str "secret-key")) none none = .done exampleSigner := by
  have h : bytesContains ([46] : Bytes) base64Alphabet = false := by decide
  unfold DefaultTimestampSigner NewTimestampSigner
  rw [NewSigner_eq]
  simp only [Option.getD, h, Bool.false_eq_true, if_false]
  rfl

theorem Run.val_done {α σ : Type} {r : Run (α × σ)} {a : α} (h : r.val = .done a) :
    ∃ s, r = .done (a, s) := by
  rcases r with ⟨a2, s⟩ | m
  · simp only [Run.val, Run.done.injEq] at h
    exact ⟨s, by rw [h]⟩
  · simp [Run.val] at h

/-- `TimestampSigner.Sign` is the base `Sign` of the value followed by the separator
and the encoded timestamp. -/
theorem TimestampSigner.Sign_eq (signer : TimestampSigner) (now : Int) (v : Bytes) :
    signer.Sign now v =
      (signer.toSigner.Sign (v ++ signer.toSigner.sep
        ++ Base64Encode (bytesTrimLeft (putUint64 (toUint64 now)) [0]))).bind
        (fun r => .done (.ok r.1, ⟨r.2⟩)) := by
  unfold TimestampSigner.Sign Signer.Sign
  simp only [BytesCombine, List.flatten_cons, List.flatten_nil, List.append_nil,
    List.append_assoc]
  rcases Signer.GetSignature signer.toSigner _ with ⟨sig, s2⟩ | m <;> rfl

/-- Both readers when the timestamp field does not decode. -/
theorem TimestampSigner.read_undecodable (signer : TimestampSigner) (token payload : Bytes)
    (s2 : Signer) (e : Error)
    (hU : signer.toSigner.Unsign token = .done (.ok payload, s2))
    (hC : bytesContains payload signer.toSigner.sep = true)
    (hD : Base64Decode (payload.drop
      (bytesLastIndex payload signer.toSigner.sep + signer.toSigner.sep.length).toNat) = .error e) :
    signer.GetSignedTimestamp token = .done (.error e, ⟨s2⟩) ∧
    ∀ now maxAge, signer.Unsign now token maxAge = .done (.error e, ⟨s2⟩) := by
  constructor
  · simp only [TimestampSigner.GetSignedTimestamp, hU, hC, hD, Bool.not_true,
      Bool.false_eq_true, if_false]
  · intro now maxAge
    simp only [TimestampSigner.Unsign, hU, hC, hD, Bool.not_true, Bool.false_eq_true, if_false]

/-- Both readers when the timestamp field decodes and eight bytes can be read. -/
theorem TimestampSigner.read_timestamp (signer : TimestampSigner) (token payload sig : Bytes)
    (s2 : Signer) (T : Nat)
    (hU : signer.toSigner.Unsign token = .done (.ok payload, s2))
    (hC : bytesContains payload signer.toSigner.sep = true)
    (hD : Base64Decode (payload.drop
      (bytesLastIndex payload signer.toSigner.sep + signer.toSigner.sep.length).toNat) = .ok sig)
    (hR : readUint64 (BytesCombine [bytesRepeat [0] (timestampPadLen sig), sig]) = some T) :
    signer.GetSignedTimestamp token = .done (.ok ⟨toInt64 T⟩, ⟨s2⟩) ∧
    ∀ now maxAge, signer.Unsign now token maxAge =
      if maxAge > 0 ∧ toInt64 (now - toInt64 T) > maxAge then
        .done (.error (.SignatureExpired (str ("Signature age " ++
          toString (toInt64 (now - toInt64 T)) ++ " > " ++ toString maxAge ++ " seconds"))), ⟨s2⟩)
      else if maxAge > 0 ∧ toInt64 (now - toInt64 T) < 0 then
        .done (.error (.SignatureExpired (str ("Signature age " ++
          toString (toInt64 (now - toInt64 T)) ++ " < 0 seconds"))), ⟨s2⟩)
      else .done (.ok (payload.take (bytesLastIndex payload signer.toSigner.sep).toNat), ⟨s2⟩) := by
  constructor
  · simp only [TimestampSigner.GetSignedTimestamp, hU, hC, hD, hR, Bool.not_true,
      Bool.false_eq_true, if_false, TimestampSigner.TimestampToTime]
  · intro now maxAge
    simp only [TimestampSigner.Unsign, hU, hC, hD, hR, Bool.not_true, Bool.false_eq_true,
      if_false]
    by_cases hm : maxAge > 0
    · simp only [hm, if_true, true_and]
    · simp only [hm, if_false, false_and]

/-- The round trip of a signer with a clean separator, a known key derivation and
the None algorithm or an HMAC algorithm whose digest length is not a multiple of
three. -/
theorem Signer.Sign_Unsign (s : Signer) (v : Bytes) (hne : s.sep ≠ [])
    (hsep : ∀ c ∈ s.sep, c ∉ base64Alphabet)
    (hkd : s.keyDerivation = "concat" ∨ s.keyDerivation = "django-concat" ∨
      s.keyDerivation = "hmac" ∨ s.keyDerivation = "none")
    (halg : s.algorithm = .noneAlg ∨
      ∃ d, s.algorithm = .hmacAlg ⟨d⟩ ∧ ∀ m, ((d.getD sha1).sum m).length % 3 ≠ 0) :
    ∃ sig s1 s2, s.Sign v = .done (v ++ s.sep ++ sig, s1) ∧ s1.sep = s.sep ∧
      s1.Unsign (v ++ s.sep ++ sig) = .done (.ok v, s2) := by
  obtain ⟨key, hkey⟩ := Signer.DeriveKey_known s none hkd
  have halg2 : IsBytes (s.algorithm.GetSignature key v).1 ∧
      (s.algorithm.GetSignature key v).1.length % 3 ≠ 0 ∧
      ((s.algorithm.GetSignature key v).2.VerifySignature key v
        (s.algorithm.GetSignature key v).1).1 = true := by
    rcases halg with h | ⟨d, h, hl⟩
    · rw [h]
      simp only [SigningAlgorithm.GetSignature, SigningAlgorithm.VerifySignature,
        NoneAlgorithm.GetSignature, NoneAlgorithm.VerifySignature, hmacEqual]
      refine ⟨?_, by decide, by decide⟩
      intro x hx
      simp only [List.mem_singleton] at hx
      omega
    · rw [h]
      cases d with
      | none =>
        simp only [Option.getD, SigningAlgorithm.GetSignature, SigningAlgorithm.VerifySignature,
          HMACAlgorithm.GetSignature, HMACAlgorithm.VerifySignature, hmacEqual]
        exact ⟨Hash.sum_bytes _ _, hl _, by simp⟩
      | some d =>
        simp only [Option.getD, SigningAlgorithm.GetSignature, SigningAlgorithm.VerifySignature,
          HMACAlgorithm.GetSignature, HMACAlgorithm.VerifySignature, hmacEqual]
        exact ⟨Hash.sum_bytes _ _, hl _, by simp⟩
  obtain ⟨s1, s2, h1, h2⟩ := Signer.Sign_Unsign_core s v key hne
    (fun c hc => decodeMap_of_not_mem (hsep c hc)) hkey halg2.1 halg2.2.1 halg2.2.2
  refine ⟨_, s1, s2, h1, ?_, h2⟩
  simp only [Signer.Sign, Signer.GetSignature, hkey, Run.done.injEq, Prod.mk.injEq] at h1
  rw [← h1.2]

theorem toUint64_lt (x : Int) : toUint64 x < 2 ^ 64 := by
  unfold toUint64
  omega

/-- C10 (amended): for every clock value `now`, the byte string that
`TimestampSigner.Sign` base64-encodes as the timestamp field is the 8-byte
big-endian encoding of `uint64(now)` with the leading zero bytes removed: putting
the zero bytes back gives the eight bytes, its first byte (if any) is not zero, and
its big-endian value is `uint64(now)`. It is empty exactly when the clock value is
0; for every other clock value it is non-empty. -/
theorem TimestampSigner.Sign_timestamp_bytes (signer : TimestampSigner) (now : Int) (v : Bytes) :
    signer.Sign now v =
      (signer.toSigner.Sign (v ++ signer.toSigner.sep
        ++ Base64Encode (bytesTrimLeft (putUint64 (toUint64 now)) [0]))).bind
        (fun r => .done (.ok r.1, ⟨r.2⟩)) ∧
    List.replicate (8 - (bytesTrimLeft (putUint64 (toUint64 now)) [0]).length) 0
      ++ bytesTrimLeft (putUint64 (toUint64 now)) [0] = putUint64 (toUint64 now) ∧
    (∀ b ∈ (bytesTrimLeft (putUint64 (toUint64 now)) [0]).head?, b ≠ 0) ∧
    beValue (bytesTrimLeft (putUint64 (toUint64 now)) [0]) = toUint64 now ∧
    (bytesTrimLeft (putUint64 (toUint64 now)) [0] = [] ↔ toUint64 now = 0) := by
  have hw := toUint64_lt now
  obtain ⟨h1, h2⟩ := putUint64_split (toUint64 now) hw
  have h3 := trimLeft_putUint64 (toUint64 now) hw
  have h4 := trimLeft_putUint64_length (toUint64 now) hw
  refine ⟨TimestampSigner.Sign_eq signer now v, ?_, ?_, ?_, ?_⟩
  · rw [h4, h3]
    exact h1.symm
  · rw [h3]
    exact h2
  · have h5 := beValue_zeros (8 - byteLen (toUint64 now))
      ((putUint64 (toUint64 now)).drop (8 - byteLen (toUint64 now)))
    rw [← h1, beValue_putUint64, Nat.mod_eq_of_lt hw] at h5
    rw [h3]
    exact h5.symm
  · rw [← List.length_eq_zero, h4]
    unfold byteLen
    constructor
    · intro h
      split_ifs at h
      assumption
    · intro h
      simp [h]

set_option maxRecDepth 1000000 in
/-- C10 (counterexample): at the clock value 0 the timestamp bytes are empty, and the
default signer with the secret "secret-key" signs "hello" as `hello..` followed by
the signature: the timestamp field between the two separators is empty. -/
theorem TimestampSigner.Sign_zero_clock_empty_timestamp :
    bytesTrimLeft (putUint64 (toUint64 0)) [0] = [] ∧
    (exampleSigner.Sign 0 (str "hello")).val
      = .done (.ok (str "hello..xWVRpozJVQCSgb9SQbt8cWGJ2CM")) := by
  constructor <;> decide

/-- C6 (amended): for every token whose outer signature verifies (the base
`Signer.Unsign` returns `payload`), whose payload contains the separator and whose
timestamp field (the bytes after the last separator of the payload) is not decodable
as base64, `TimestampSigner.GetSignedTimestamp` and `TimestampSigner.Unsign` (for
every clock and `maxAge`) fail with the error of `Base64Decode`, which is the
`BadData` "Invalid base64-encoded data", not a `BadTimeSignature`. -/
theorem TimestampSigner.undecodable_timestamp_is_BadData (signer : TimestampSigner)
    (token payload : Bytes) (s2 : Signer) (e : Error)
    (hU : signer.toSigner.Unsign token = .done (.ok payload, s2))
    (hC : bytesContains payload signer.toSigner.sep = true)
    (hD : Base64Decode (payload.drop
      (bytesLastIndex payload signer.toSigner.sep + signer.toSigner.sep.length).toNat) = .error e) :
    e = .BadData (str "Invalid base64-encoded data") ∧
    signer.GetSignedTimestamp token
      = .done (.error (.BadData (str "Invalid base64-encoded data")), ⟨s2⟩) ∧
    ∀ now maxAge, signer.Unsign now token maxAge
      = .done (.error (.BadData (str "Invalid base64-encoded data")), ⟨s2⟩) := by
  have he : e = .BadData (str "Invalid base64-encoded data") := by
    rcases Base64Decode_cases (payload.drop
      (bytesLastIndex payload signer.toSigner.sep + signer.toSigner.sep.length).toNat)
      with ⟨r, hr, _⟩ | hr
    · rw [hr] at hD
      exact absurd hD (by simp)
    · rw [hr] at hD
      simp only [Res.error.injEq] at hD
      exact hD.symm
  subst he
  exact ⟨rfl, TimestampSigner.read_undecodable signer token payload s2 _ hU hC hD⟩

set_option maxRecDepth 1000000 in
/-- Witness of `TimestampSigner.undecodable_timestamp_is_BadData`: the default signer
with the secret "secret-key" and a correctly signed token whose timestamp field is
`!`. -/
theorem TimestampSigner.undecodable_timestamp_is_BadData_witness :
    ∃ s2, exampleSigner.toSigner.Unsign (str "hello.!.T_yFBgdepoSSFHxEaQsHO8ZpI2s")
        = .done (.ok (str "hello.!"), s2) ∧
      bytesContains (str "hello.!") exampleSigner.toSigner.sep = true ∧
      Base64Decode ((str "hello.!").drop (bytesLastIndex (str "hello.!")
        exampleSigner.toSigner.sep + exampleSigner.toSigner.sep.length).toNat)
        = .error (.BadData (str "Invalid base64-encoded data")) ∧
      exampleSigner.GetSignedTimestamp (str "hello.!.T_yFBgdepoSSFHxEaQsHO8ZpI2s")
        = .done (.error (.BadData (str "Invalid base64-encoded data")), ⟨s2⟩) ∧
      ∀ now maxAge, exampleSigner.Unsign now (str "hello.!.T_yFBgdepoSSFHxEaQsHO8ZpI2s") maxAge
        = .done (.error (.BadData (str "Invalid base64-encoded data")), ⟨s2⟩) := by
  obtain ⟨s2, hU⟩ := Run.val_done (r := exampleSigner.toSigner.Unsign
    (str "hello.!.T_yFBgdepoSSFHxEaQsHO8ZpI2s")) (a := .ok (str "hello.!")) (by decide)
  have hC : bytesContains (str "hello.!") exampleSigner.toSigner.sep = true := by decide
  have hD : Base64Decode ((str "hello.!").drop (bytesLastIndex (str "hello.!")
      exampleSigner.toSigner.sep + exampleSigner.toSigner.sep.length).toNat)
      = .error (.BadData (str "Invalid base64-encoded data")) := by decide
  exact ⟨s2, hU, hC, hD, (TimestampSigner.undecodable_timestamp_is_BadData exampleSigner _ _ s2 _
    hU hC hD).2⟩

set_option maxRecDepth 1000000 in
/-- C6 (counterexample): the token `hello.!.` + signature of the default signer with
the secret "secret-key": the outer signature verifies with payload `hello.!`, the
payload contains the separator, the timestamp field `!` does not decode, and both
`GetSignedTimestamp` and `Unsign` fail with a `BadData`, not a `BadTimeSignature`. -/
theorem TimestampSigner.undecodable_timestamp_counterexample :
    (exampleSigner.toSigner.Unsign (str "hello.!.T_yFBgdepoSSFHxEaQsHO8ZpI2s")).val
      = .done (.ok (str "hello.!")) ∧
    (exampleSigner.GetSignedTimestamp (str "hello.!.T_yFBgdepoSSFHxEaQsHO8ZpI2s")).val
      = .done (.error (.BadData (str "Invalid base64-encoded data"))) ∧
    (exampleSigner.Unsign 1700000000 (str "hello.!.T_yFBgdepoSSFHxEaQsHO8ZpI2s") 0).val
      = .done (.error (.BadData (str "Invalid base64-encoded data"))) := by
  refine ⟨?_, ?_, ?_⟩ <;> decide

theorem quantumBytes_length (d : List Nat) : (quantumBytes d).length = min (d.length - 1) 3 := by
  simp [quantumBytes]

/-- A successful `decodeLoop` that meets a `=` has stored at least one byte. -/
theorem decodeLoop_ne_nil (src : Bytes) (d : List Nat) (o r : Bytes)
    (h : decodeLoop src d o = some r) (hp : 61 ∈ src ∨ o ≠ []) : r ≠ [] := by
  induction src generalizing d o with
  | nil =>
    unfold decodeLoop at h
    split at h
    · simp only [Option.some.injEq] at h
      rcases hp with hp | hp
      · simp at hp
      · exact h ▸ hp
    · exact absurd h (by simp)
  | cons c rest ih =>
    have hq : ∀ d2 : List Nat, 2 ≤ d2.length → o ++ quantumBytes d2 ≠ [] := by
      intro d2 hd2 hc
      have := congrArg List.length hc
      simp only [List.length_append, quantumBytes_length, List.length_nil] at this
      omega
    unfold decodeLoop at h
    split at h
    · rename_i hc
      have hc61 : c ≠ 61 := fun h61 => hc (h61 ▸ decodeMap_pad)
      have hp2 : ∀ o2 : Bytes, (o ≠ [] → o2 ≠ []) → 61 ∈ rest ∨ o2 ≠ [] := by
        intro o2 ho2
        rcases hp with hp | hp
        · rcases List.mem_cons.mp hp with h1 | h1
          · exact absurd h1.symm hc61
          · exact Or.inl h1
        · exact Or.inr (ho2 hp)
      split at h
      · exact ih _ _ h (hp2 _ (fun ho hcc => ho (List.append_eq_nil.mp hcc).1))
      · exact ih _ _ h (hp2 _ id)
    · split at h
      · rename_i hnl
        have hc61 : c ≠ 61 := by
          intro h61
          rw [h61] at hnl
          simp [isNL] at hnl
        refine ih _ _ h ?_
        rcases hp with hp | hp
        · rcases List.mem_cons.mp hp with h1 | h1
          · exact absurd h1.symm hc61
          · exact Or.inl h1
        · exact Or.inr hp
      · split at h
        · exact absurd h (by simp)
        · split at h
          · exact absurd h (by simp)
          · exact absurd h (by simp)
          · rename_i hd
            split at h
            · exact absurd h (by simp)
            · split at h
              · exact absurd h (by simp)
              · split at h
                · simp only [Option.some.injEq] at h
                  exact h ▸ hq d (by omega)
                · exact absurd h (by simp)
          · rename_i hd0 hd1 hd2
            split at h
            · simp only [Option.some.injEq] at h
              refine h ▸ hq d ?_
              rcases Nat.lt_or_ge d.length 2 with hlt | hge
              · exfalso
                rcases Nat.lt_or_ge d.length 1 with h0 | h1
                · exact hd0 (by omega)
                · exact hd1 (by omega)
              · exact hge
            · exact absurd h (by simp)

/-- `Base64Decode` never returns the empty byte string. -/
theorem Base64Decode_ne_nil (x r : Bytes) (h : Base64Decode x = .ok r) : r ≠ [] := by
  unfold Base64Decode at h
  simp only at h
  split at h
  · exact absurd h (by simp)
  · rename_i dst hdst
    simp only [Res.ok.injEq] at h
    subst h
    refine decodeLoop_ne_nil _ _ _ _ hdst (Or.inl ?_)
    simp only [BytesCombine, List.flatten_cons, List.flatten_nil, List.append_nil,
      List.mem_append]
    right
    split
    · have : 4 - x.length % 4 = (4 - x.length % 4 - 1) + 1 := by omega
      rw [this]
      simp [bytesRepeat, List.replicate_succ]
    · simp [bytesRepeat]

/-- A timestamp field that decodes is always read: the padding gives `binary.Read`
at least eight bytes, so the "Malformed timestamp" branch is never taken. -/
theorem TimestampSigner.decoded_timestamp_read (signer : TimestampSigner)
    (token payload sig : Bytes) (s2 : Signer)
    (hU : signer.toSigner.Unsign token = .done (.ok payload, s2))
    (hC : bytesContains payload signer.toSigner.sep = true)
    (hD : Base64Decode (payload.drop
      (bytesLastIndex payload signer.toSigner.sep + signer.toSigner.sep.length).toNat) = .ok sig) :
    ∃ T, T < 2 ^ 56 ∧
      readUint64 (BytesCombine [bytesRepeat [0] (timestampPadLen sig), sig]) = some T ∧
      signer.GetSignedTimestamp token = .done (.ok ⟨(T : Int)⟩, ⟨s2⟩) ∧
      ∀ now maxAge, maxAge ≤ 0 → signer.Unsign now token maxAge =
        .done (.ok (payload.take (bytesLastIndex payload signer.toSigner.sep).toNat), ⟨s2⟩) := by
  have hb : IsBytes sig := by
    rcases Base64Decode_cases (payload.drop
      (bytesLastIndex payload signer.toSigner.sep + signer.toSigner.sep.length).toNat)
      with ⟨r, hr, hrb⟩ | hr
    · rw [hr] at hD
      simp only [Res.ok.injEq] at hD
      exact hD ▸ hrb
    · rw [hr] at hD
      exact absurd hD (by simp)
  obtain ⟨T, hR, hT⟩ := readUint64_padded sig (Base64Decode_ne_nil _ _ hD) hb
  obtain ⟨h1, h2⟩ := TimestampSigner.read_timestamp signer token payload sig s2 T hU hC hD hR
  have hT2 : toInt64 (T : Int) = (T : Int) := by
    unfold toInt64
    omega
  refine ⟨T, hT, hR, ?_, ?_⟩
  · rw [h1, hT2]
  · intro now maxAge hm
    rw [h2 now maxAge, if_neg (by omega), if_neg (by omega)]

set_option maxRecDepth 1000000 in
/-- C7 (code defect, evaluated at the failing input): the token
`hello.AQIDBAUGBwgJCg.` + signature of the default signer with the secret
"secret-key" is correctly signed and its timestamp field decodes to the ten bytes
1, 2, ..., 10. `GetSignedTimestamp` does not fail: it returns the time 258 (the
first eight bytes of six zero bytes followed by the ten bytes), and `Unsign` returns
the value `hello`, without age check and also with `maxAge = 100` at the clock 300. -/
theorem TimestampSigner.oversized_timestamp_accepted :
    (exampleSigner.toSigner.Unsign (str "hello.AQIDBAUGBwgJCg.bGJInhhi2V3-f_4AwvjC5yuPXLs")).val
      = .done (.ok (str "hello.AQIDBAUGBwgJCg")) ∧
    Base64Decode (str "AQIDBAUGBwgJCg") = .ok [1, 2, 3, 4, 5, 6, 7, 8, 9, 10] ∧
    (exampleSigner.GetSignedTimestamp (str "hello.AQIDBAUGBwgJCg.bGJInhhi2V3-f_4AwvjC5yuPXLs")).val
      = .done (.ok ⟨258⟩) ∧
    (exampleSigner.Unsign 1700000000 (str "hello.AQIDBAUGBwgJCg.bGJInhhi2V3-f_4AwvjC5yuPXLs") 0).val
      = .done (.ok (str "hello")) ∧
    (exampleSigner.Unsign 300 (str "hello.AQIDBAUGBwgJCg.bGJInhhi2V3-f_4AwvjC5yuPXLs") 100).val
      = .done (.ok (str "hello")) := by
  refine ⟨?_, ?_, ?_, ?_, ?_⟩ <;> decide

/-- C8: expiry rule. For every token whose outer signature verifies and whose
timestamp field parses to the integer `T`, every `maxAge` and every verifier clock
`now` (both `int64`), with `age` the program's `now - T` (`int64` subtraction, which is
the integer `now - T` whenever that is at least `-2 ^ 63`, so for every clock that is
not before `-(2 ^ 63 - 2 ^ 56)`): for `maxAge > 0`, `TimestampSigner.Unsign` fails with
`SignatureExpired` if `age > maxAge` or `age < 0` and otherwise returns the value; it
returns the value when `now - T = maxAge` and fails with `SignatureExpired` when
`now - T = maxAge + 1`, and fails with `SignatureExpired` when `T` is after a
non-negative `now`. For `maxAge <= 0` no age check is made and the result does not
depend on `now`. -/
theorem TimestampSigner.Unsign_expiry (signer : TimestampSigner) (token payload sig : Bytes)
    (s2 : Signer) (T : Nat) (now maxAge : Int)
    (hU : signer.toSigner.Unsign token = .done (.ok payload, s2))
    (hC : bytesContains payload signer.toSigner.sep = true)
    (hD : Base64Decode (payload.drop
      (bytesLastIndex payload signer.toSigner.sep + signer.toSigner.sep.length).toNat) = .ok sig)
    (hR : readUint64 (BytesCombine [bytesRepeat [0] (timestampPadLen sig), sig]) = some T)
    (hnow : -(2 ^ 63) ≤ now ∧ now < 2 ^ 63) (hmax : -(2 ^ 63) ≤ maxAge ∧ maxAge < 2 ^ 63) :
    (-(2 ^ 63) ≤ now - T → toInt64 (now - T) = now - T) ∧
    (0 < maxAge → (toInt64 (now - T) > maxAge ∨ toInt64 (now - T) < 0) →
      ∃ m, signer.Unsign now token maxAge = .done (.error (.SignatureExpired m), ⟨s2⟩)) ∧
    (0 < maxAge → ¬ (toInt64 (now - T) > maxAge ∨ toInt64 (now - T) < 0) →
      signer.Unsign now token maxAge =
        .done (.ok (payload.take (bytesLastIndex payload signer.toSigner.sep).toNat), ⟨s2⟩)) ∧
    (0 < maxAge → now - T = maxAge →
      signer.Unsign now token maxAge =
        .done (.ok (payload.take (bytesLastIndex payload signer.toSigner.sep).toNat), ⟨s2⟩)) ∧
    (0 < maxAge → now - T = maxAge + 1 →
      ∃ m, signer.Unsign now token maxAge = .done (.error (.SignatureExpired m), ⟨s2⟩)) ∧
    (0 < maxAge → 0 ≤ now → now < T →
      ∃ m, signer.Unsign now token maxAge = .done (.error (.SignatureExpired m), ⟨s2⟩)) ∧
    (maxAge ≤ 0 → ∀ now2 : Int, signer.Unsign now2 token maxAge =
        .done (.ok (payload.take (bytesLastIndex payload signer.toSigner.sep).toNat), ⟨s2⟩)) := by
  obtain ⟨T2, hT2, hR2, _, _⟩ := TimestampSigner.decoded_timestamp_read signer token payload sig
    s2 hU hC hD
  have hTT : T2 = T := by
    rw [hR] at hR2
    exact (Option.some.inj hR2).symm
  subst hTT
  have hTi : toInt64 (T2 : Int) = (T2 : Int) := by
    unfold toInt64
    omega
  have hrule := (TimestampSigner.read_timestamp signer token payload sig s2 T2 hU hC hD hR).2
  simp only [hTi] at hrule
  have hexp : (0 < maxAge → (toInt64 (now - T2) > maxAge ∨ toInt64 (now - T2) < 0) →
      ∃ m, signer.Unsign now token maxAge = .done (.error (.SignatureExpired m), ⟨s2⟩)) := by
    intro hm hage
    rw [hrule now maxAge]
    by_cases h1 : toInt64 (now - T2) > maxAge
    · exact ⟨_, by rw [if_pos ⟨hm, h1⟩]⟩
    · have h2 : toInt64 (now - T2) < 0 := by
        rcases hage with h | h
        · exact absurd h h1
        · exact h
      exact ⟨_, by rw [if_neg (fun h => h1 h.2), if_pos ⟨hm, h2⟩]⟩
  have hok : (0 < maxAge → ¬ (toInt64 (now - T2) > maxAge ∨ toInt64 (now - T2) < 0) →
      signer.Unsign now token maxAge =
        .done (.ok (payload.take (bytesLastIndex payload signer.toSigner.sep).toNat), ⟨s2⟩)) := by
    intro _ hage
    rw [hrule now maxAge, if_neg (fun h => hage (Or.inl h.2)), if_neg (fun h => hage (Or.inr h.2))]
  have hwrap : -(2 ^ 63) ≤ now - T2 → toInt64 (now - T2) = now - T2 := by
    intro h
    unfold toInt64
    omega
  refine ⟨hwrap, hexp, hok, ?_, ?_, ?_, ?_⟩
  · intro hm heq
    apply hok hm
    rw [hwrap (by omega)]
    omega
  · intro hm heq
    apply hexp hm
    rw [hwrap (by omega)]
    omega
  · intro hm h0 hlt
    apply hexp hm
    rw [hwrap (by omega)]
    omega
  · intro hm now2
    rw [hrule now2 maxAge, if_neg (by omega), if_neg (by omega)]

set_option maxRecDepth 1000000 in
/-- Witness of `TimestampSigner.Unsign_expiry`: the default signer with the secret
"secret-key", the token it issues for `hello` at the clock 1700000000, read at the
clock 1700000005 with `maxAge = 5`. -/
theorem TimestampSigner.Unsign_expiry_witness :
    ∃ s2, exampleSigner.toSigner.Unsign (str "hello.ZVPxAA.UQx3EIPGLNk6IyY28rz4wwlRRWI")
        = .done (.ok (str "hello.ZVPxAA"), s2) ∧
      exampleSigner.Unsign 1700000005 (str "hello.ZVPxAA.UQx3EIPGLNk6IyY28rz4wwlRRWI") 5
        = .done (.ok (str "hello"), ⟨s2⟩) ∧
      ∃ m, exampleSigner.Unsign 1700000006 (str "hello.ZVPxAA.UQx3EIPGLNk6IyY28rz4wwlRRWI") 5
        = .done (.error (.SignatureExpired m), ⟨s2⟩) := by
  obtain ⟨s2, hU⟩ := Run.val_done (r := exampleSigner.toSigner.Unsign
    (str "hello.ZVPxAA.UQx3EIPGLNk6IyY28rz4wwlRRWI")) (a := .ok (str "hello.ZVPxAA")) (by decide)
  have hC : bytesContains (str "hello.ZVPxAA") exampleSigner.toSigner.sep = true := by decide
  have hD : Base64Decode ((str "hello.ZVPxAA").drop (bytesLastIndex (str "hello.ZVPxAA")
      exampleSigner.toSigner.sep + exampleSigner.toSigner.sep.length).toNat)
      = .ok [101, 83, 241, 0] := by decide
  have hR : readUint64 (BytesCombine [bytesRepeat [0] (timestampPadLen [101, 83, 241, 0]),
      [101, 83, 241, 0]]) = some 1700000000 := by decide
  have hv : (str "hello.ZVPxAA").take (bytesLastIndex (str "hello.ZVPxAA")
      exampleSigner.toSigner.sep).toNat = str "hello" := by decide
  have h5 := TimestampSigner.Unsign_expiry exampleSigner _ _ _ s2 1700000000 1700000005 5
    hU hC hD hR (by decide) (by decide)
  have h6 := TimestampSigner.Unsign_expiry exampleSigner _ _ _ s2 1700000000 1700000006 5
    hU hC hD hR (by decide) (by decide)
  refine ⟨s2, hU, ?_, ?_⟩
  · rw [h5.2.2.2.1 (by decide) (by decide), hv]
  · exact h6.2.2.2.2.1 (by decide) (by decide)

theorem bytesRepeat_zero (k : Nat) : bytesRepeat [0] k = List.replicate k 0 := by
  induction k with
  | zero => rfl
  | succ k ih =>
    simp only [bytesRepeat, List.replicate_succ, List.flatten_cons] at ih ⊢
    rw [ih]; rfl

/-- Reading back the timestamp bytes that `TimestampSigner.Sign` wrote, when there are
between one and seven of them. -/
theorem readUint64_trimmed (w : Nat) (hw : w < 2 ^ 64) (h0 : 0 < byteLen w) (h8 : byteLen w < 8) :
    readUint64 (BytesCombine [bytesRepeat [0]
      (timestampPadLen (bytesTrimLeft (putUint64 w) [0])), bytesTrimLeft (putUint64 w) [0]])
      = some w := by
  have hlen := trimLeft_putUint64_length w hw
  have hpad : timestampPadLen (bytesTrimLeft (putUint64 w) [0]) = 8 - byteLen w := by
    unfold timestampPadLen
    rw [hlen, Nat.mod_eq_of_lt (by omega), if_pos h0]
  have hsplit := (putUint64_split w hw).1
  rw [← trimLeft_putUint64 w hw] at hsplit
  simp only [BytesCombine, List.flatten_cons, List.flatten_nil, List.append_nil, hpad,
    bytesRepeat_zero]
  rw [← hsplit]
  unfold readUint64
  rw [if_neg (by simp [putUint64])]
  have h8 : (putUint64 w).take 8 = putUint64 w := by simp [putUint64]
  rw [h8, beValue_putUint64, Nat.mod_eq_of_lt hw]

/-- C4 (amended): timestamp encode/decode round trip. For every signer with a clean
separator, a known key derivation and the None algorithm or an HMAC algorithm whose
digest length is not a multiple of three, every value `v` and every clock value `T`
with `0 <= T < 2 ^ 56`: when the minimal big-endian encoding of `T` has 1, 2, 4, 5 or
7 bytes (`1 <= T < 2 ^ 16`, `2 ^ 24 <= T < 2 ^ 40` or `2 ^ 48 <= T`),
`GetSignedTimestamp` applied to the token `Sign(v)` produced at clock `T` succeeds and
returns the time `T`; when it has 0, 3 or 6 bytes (`T = 0`, `2 ^ 16 <= T < 2 ^ 24` or
`2 ^ 40 <= T < 2 ^ 48`) it fails with the `BadData` "Invalid base64-encoded data". -/
theorem TimestampSigner.Sign_GetSignedTimestamp (signer : TimestampSigner) (v : Bytes) (T : Int)
    (hne : signer.toSigner.sep ≠ [])
    (hsep : ∀ c ∈ signer.toSigner.sep, c ∉ base64Alphabet)
    (hkd : signer.toSigner.keyDerivation = "concat" ∨
      signer.toSigner.keyDerivation = "django-concat" ∨
      signer.toSigner.keyDerivation = "hmac" ∨ signer.toSigner.keyDerivation = "none")
    (halg : signer.toSigner.algorithm = .noneAlg ∨
      ∃ d, signer.toSigner.algorithm = .hmacAlg ⟨d⟩ ∧
        ∀ m, ((d.getD sha1).sum m).length % 3 ≠ 0)
    (hT : 0 ≤ T ∧ T < 2 ^ 56) :
    ∃ token s1 s2, signer.Sign T v = .done (.ok token, s1) ∧
      (((1 ≤ T ∧ T < 2 ^ 16) ∨ (2 ^ 24 ≤ T ∧ T < 2 ^ 40) ∨ 2 ^ 48 ≤ T) →
        s1.GetSignedTimestamp token = .done (.ok ⟨T⟩, s2)) ∧
      ((T = 0 ∨ (2 ^ 16 ≤ T ∧ T < 2 ^ 24) ∨ (2 ^ 40 ≤ T ∧ T < 2 ^ 48)) →
        s1.GetSignedTimestamp token
          = .done (.error (.BadData (str "Invalid base64-encoded data")), s2)) := by
  have hw : toUint64 T < 2 ^ 64 := toUint64_lt T
  have hwT : ((toUint64 T : Nat) : Int) = T := by
    unfold toUint64
    omega
  obtain ⟨sig, s1, s2, hS, hs1, hU⟩ := Signer.Sign_Unsign signer.toSigner
    (v ++ signer.toSigner.sep ++ Base64Encode (bytesTrimLeft (putUint64 (toUint64 T)) [0]))
    hne hsep hkd halg
  have hsign := TimestampSigner.Sign_eq signer T v
  rw [hS] at hsign
  simp only [Run.bind] at hsign
  have hlast := @bytesLastIndex_eq (v ++ signer.toSigner.sep
      ++ Base64Encode (bytesTrimLeft (putUint64 (toUint64 T)) [0])) signer.toSigner.sep v
    (Base64Encode (bytesTrimLeft (putUint64 (toUint64 T)) [0]))
    rfl (no_later_sep v signer.toSigner.sep _ hne
      (fun c hc => decodeMap_of_not_mem (hsep c hc)) (Base64Encode_alpha _))
  have hfield : (v ++ signer.toSigner.sep
      ++ Base64Encode (bytesTrimLeft (putUint64 (toUint64 T)) [0])).drop
      (bytesLastIndex (v ++ signer.toSigner.sep
        ++ Base64Encode (bytesTrimLeft (putUint64 (toUint64 T)) [0])) signer.toSigner.sep
        + signer.toSigner.sep.length).toNat
      = Base64Encode (bytesTrimLeft (putUint64 (toUint64 T)) [0]) := by
    rw [hlast.2]
    have : ((v.length : Int) + (signer.toSigner.sep.length : Int)).toNat
        = (v ++ signer.toSigner.sep).length := by
      rw [List.length_append]; omega
    rw [this, List.drop_left]
  have hdec := Base64Decode_Base64Encode (bytesTrimLeft (putUint64 (toUint64 T)) [0])
    (by
      rw [trimLeft_putUint64 _ hw]
      exact fun y hy => putUint64_bytes _ y (List.mem_of_mem_drop hy))
  rw [trimLeft_putUint64_length _ hw] at hdec
  refine ⟨_, ⟨s1⟩, ⟨s2⟩, hsign, ?_, ?_⟩
  · intro hr
    have hbl : 0 < byteLen (toUint64 T) ∧ byteLen (toUint64 T) < 8 ∧
        byteLen (toUint64 T) % 3 ≠ 0 := by
      unfold byteLen
      split_ifs <;> omega
    rw [if_pos hbl.2.2] at hdec
    have hR := readUint64_trimmed (toUint64 T) hw hbl.1 hbl.2.1
    have h := (TimestampSigner.read_timestamp ⟨s1⟩ _ _ _ s2 (toUint64 T) hU
      (by rw [hs1]; exact hlast.1) (by rw [hs1, hfield]; exact hdec) hR).1
    rw [h, hwT]
    have : toInt64 T = T := by
      unfold toInt64
      omega
    rw [this]
  · intro hr
    have hbl : ¬ byteLen (toUint64 T) % 3 ≠ 0 := by
      unfold byteLen
      split_ifs <;> omega
    rw [if_neg hbl] at hdec
    exact (TimestampSigner.read_undecodable ⟨s1⟩ _ _ s2 _ hU
      (by rw [hs1]; exact hlast.1) (by rw [hs1, hfield]; exact hdec)).1

set_option maxRecDepth 1000000 in
/-- Witness of `TimestampSigner.Sign_GetSignedTimestamp`: the default signer with the
secret "secret-key", the value `hello` and the clock 1700000000. -/
theorem TimestampSigner.Sign_GetSignedTimestamp_witness :
    ∃ token s1 s2, exampleSigner.Sign 1700000000 (str "hello") = .done (.ok token, s1) ∧
      s1.GetSignedTimestamp token = .done (.ok ⟨1700000000⟩, s2) := by
  obtain ⟨token, s1, s2, h1, h2, _⟩ := TimestampSigner.Sign_GetSignedTimestamp exampleSigner
    (str "hello") 1700000000 (by decide) (by decide) (Or.inr (Or.inl rfl))
    (Or.inr ⟨some sha1, rfl, fun m => by
      show (sha1Sum m).length % 3 ≠ 0
      rw [sha1Sum_length]
      decide⟩) (by decide)
  exact ⟨token, s1, s2, h1, h2 (by decide)⟩

set_option maxRecDepth 1000000 in
/-- C4 (counterexample): the default signer with the secret "secret-key" and the
value `hello`. At the clock 0 the token is `hello..` + signature and
`GetSignedTimestamp` fails with `BadData`; at the clock 65536 (three significant
bytes) the token is `hello.AQAA.` + signature and `GetSignedTimestamp` fails with
`BadData`; at the clock `2 ^ 56` (eight significant bytes) the token is
`hello.AQAAAAAAAAA.` + signature and `GetSignedTimestamp` returns the time `2 ^ 48`. -/
theorem TimestampSigner.Sign_GetSignedTimestamp_fails :
    ((exampleSigner.Sign 0 (str "hello")).val
        = .done (.ok (str "hello..xWVRpozJVQCSgb9SQbt8cWGJ2CM")) ∧
      (exampleSigner.GetSignedTimestamp (str "hello..xWVRpozJVQCSgb9SQbt8cWGJ2CM")).val
        = .done (.error (.BadData (str "Invalid base64-encoded data")))) ∧
    ((exampleSigner.Sign 65536 (str "hello")).val
        = .done (.ok (str "hello.AQAA.PGMDDwAHEUyiWpsNr8ZgUHU1Doo")) ∧
      (exampleSigner.GetSignedTimestamp (str "hello.AQAA.PGMDDwAHEUyiWpsNr8ZgUHU1Doo")).val
        = .done (.error (.BadData (str "Invalid base64-encoded data")))) ∧
    ((exampleSigner.Sign (2 ^ 56) (str "hello")).val
        = .done (.ok (str "hello.AQAAAAAAAAA.Fc7QvURL29YS_iovzDd7Pnq2Jz8")) ∧
      (exampleSigner.GetSignedTimestamp (str "hello.AQAAAAAAAAA.Fc7QvURL29YS_iovzDd7Pnq2Jz8")).val
        = .done (.ok ⟨2 ^ 48⟩)) := by
  refine ⟨⟨?_, ?_⟩, ⟨?_, ?_⟩, ⟨?_, ?_⟩⟩ <;> decide

/-! ## Tampering with the signature segment -/

theorem feed_append (a b : List Nat) (d : List Nat) (o : Bytes) :
    feed (a ++ b) d o = feed b (feed a d o).1 (feed a d o).2 := by
  induction a generalizing d o with
  | nil => rfl
  | cons s a ih =>
    simp only [List.cons_append, feed]
    split <;> exact ih _ _

theorem unsext_length (l : List Nat) :
    (unsext l).length = 3 * (l.length / 4) + (l.length % 4 - 1) := by
  induction l using unsext.induct with
  | case1 s0 s1 s2 s3 rest ih =>
    simp only [unsext, List.length_append, ih, quantumBytes_length, List.length_cons]
    omega
  | case2 s0 s1 s2 => simp [unsext, quantumBytes_length]
  | case3 s0 s1 => simp [unsext, quantumBytes_length]
  | case4 s0 => simp [unsext]
  | case5 => simp [unsext]

theorem quantumBytes_four_inj (a b c d a2 b2 c2 d2 : Nat) (ha : a < 64) (hb : b < 64)
    (hc : c < 64) (hd : d < 64) (ha2 : a2 < 64) (hb2 : b2 < 64) (hc2 : c2 < 64) (hd2 : d2 < 64)
    (h : quantumBytes [a, b, c, d] = quantumBytes [a2, b2, c2, d2]) :
    a = a2 ∧ b = b2 ∧ c = c2 ∧ d = d2 := by
  simp only [quantumBytes, List.getD_cons_zero, List.getD_cons_succ, List.length_cons,
    List.length_nil, List.take, List.cons.injEq, and_true] at h
  omega

theorem quantumBytes_three_eq (a b c a2 b2 c2 : Nat) (ha : a < 64) (hb : b < 64)
    (hc : c < 64) (ha2 : a2 < 64) (hb2 : b2 < 64) (hc2 : c2 < 64) :
    quantumBytes [a, b, c] = quantumBytes [a2, b2, c2] ↔ a = a2 ∧ b = b2 ∧ c / 4 = c2 / 4 := by
  simp only [quantumBytes, List.getD_cons_zero, List.getD_cons_succ, List.length_cons,
    List.length_nil, List.getD_nil, List.take, List.cons.injEq, and_true]
  omega

/-- Replacing one 6-bit value of a list that ends in a three-value quantum changes
the bytes it carries, unless it is the last value and its upper four bits are kept. -/
theorem unsext_set (sx : List Nat) (k s : Nat) (hlen : sx.length % 4 = 3) (hk : k < sx.length)
    (hall : ∀ x ∈ sx, x < 64) (hs : s < 64) (hne : s ≠ sx.getD k 0) :
    unsext (sx.set k s) = unsext sx ↔ (k + 1 = sx.length ∧ s / 4 = sx.getD k 0 / 4) := by
  induction sx using unsext.induct generalizing k with
  | case1 s0 s1 s2 s3 rest ih =>
    have h0 : s0 < 64 := hall s0 (by simp)
    have h1 : s1 < 64 := hall s1 (by simp)
    have h2 : s2 < 64 := hall s2 (by simp)
    have h3 : s3 < 64 := hall s3 (by simp)
    have hrest : ∀ x ∈ rest, x < 64 := fun x hx => hall x (by simp [hx])
    have hq : ∀ a b c d : Nat, a < 64 → b < 64 → c < 64 → d < 64 →
        (quantumBytes [a, b, c, d] ++ unsext rest = quantumBytes [s0, s1, s2, s3] ++ unsext rest
          ↔ a = s0 ∧ b = s1 ∧ c = s2 ∧ d = s3) := by
      intro a b c d ha hb hc hd
      constructor
      · intro h
        exact quantumBytes_four_inj a b c d s0 s1 s2 s3 ha hb hc hd h0 h1 h2 h3
          (List.append_cancel_right h)
      · rintro ⟨rfl, rfl, rfl, rfl⟩
        rfl
    simp only [List.length_cons] at hlen hk ⊢
    match k, hk, hne with
    | 0, _, hne =>
      simp only [List.set_cons_zero, unsext, List.getD_cons_zero] at hne ⊢
      rw [hq s s1 s2 s3 hs h1 h2 h3]
      constructor
      · intro h; exact absurd h.1 hne
      · intro h; omega
    | 1, _, hne =>
      simp only [List.set_cons_succ, List.set_cons_zero, unsext, List.getD_cons_succ,
        List.getD_cons_zero] at hne ⊢
      rw [hq s0 s s2 s3 h0 hs h2 h3]
      constructor
      · intro h; exact absurd h.2.1 hne
      · intro h; omega
    | 2, _, hne =>
      simp only [List.set_cons_succ, List.set_cons_zero, unsext, List.getD_cons_succ,
        List.getD_cons_zero] at hne ⊢
      rw [hq s0 s1 s s3 h0 h1 hs h3]
      constructor
      · intro h; exact absurd h.2.2.1 hne
      · intro h; omega
    | 3, _, hne =>
      simp only [List.set_cons_succ, List.set_cons_zero, unsext, List.getD_cons_succ,
        List.getD_cons_zero] at hne ⊢
      rw [hq s0 s1 s2 s h0 h1 h2 hs]
      constructor
      · intro h; exact absurd h.2.2.2 hne
      · intro h; omega
    | k + 4, hk, hne =>
      simp only [List.set_cons_succ, unsext, List.getD_cons_succ] at hne ⊢
      rw [List.append_cancel_left_eq, ih k (by omega) (by omega) hrest hne]
      constructor
      · rintro ⟨h1, h2⟩; exact ⟨by omega, h2⟩
      · rintro ⟨h1, h2⟩; exact ⟨by omega, h2⟩
  | case2 s0 s1 s2 =>
    have h0 : s0 < 64 := hall s0 (by simp)
    have h1 : s1 < 64 := hall s1 (by simp)
    have h2 : s2 < 64 := hall s2 (by simp)
    simp only [List.length_cons, List.length_nil] at hk ⊢
    match k, hk, hne with
    | 0, _, hne =>
      simp only [List.set_cons_zero, unsext, List.getD_cons_zero] at hne ⊢
      rw [quantumBytes_three_eq s s1 s2 s0 s1 s2 hs h1 h2 h0 h1 h2]
      constructor
      · intro h; exact absurd h.1 hne
      · intro h; omega
    | 1, _, hne =>
      simp only [List.set_cons_succ, List.set_cons_zero, unsext, List.getD_cons_succ,
        List.getD_cons_zero] at hne ⊢
      rw [quantumBytes_three_eq s0 s s2 s0 s1 s2 h0 hs h2 h0 h1 h2]
      constructor
      · intro h; exact absurd h.2.1 hne
      · intro h; omega
    | 2, _, hne =>
      simp only [List.set_cons_succ, List.set_cons_zero, unsext, List.getD_cons_succ,
        List.getD_cons_zero] at hne ⊢
      rw [quantumBytes_three_eq s0 s1 s s0 s1 s2 h0 h1 hs h0 h1 h2]
      constructor
      · intro h
        refine ⟨?_, h.2.2⟩
        first | rfl | trivial
      · intro h; exact ⟨rfl, rfl, h.2⟩
  | case3 s0 s1 => simp at hlen
  | case4 s0 => simp at hlen
  | case5 => simp at hlen

theorem decodeMap_of_isNL {c : Nat} (h : isNL c = true) : decodeMap c = 0xff := by
  simp only [isNL, Bool.or_eq_true, beq_iff_eq] at h
  rcases h with h | h <;> subst h <;> decide

theorem isNL_pad : isNL 61 = false := by decide

theorem Base64Decode_ok {x r : Bytes} (h : Base64Decode x = .ok r) :
    decodeLoop (x ++ List.replicate (if x.length % 4 > 0 then 4 - x.length % 4 else 1) 61) [] []
      = some r := by
  unfold Base64Decode urlDecode at h
  simp only [BytesCombine, List.flatten_cons, List.flatten_nil, List.append_nil] at h
  have hrep : ∀ k, bytesRepeat [61] k = List.replicate k 61 := by
    intro k
    induction k with
    | zero => rfl
    | succ k ih =>
      simp only [bytesRepeat, List.replicate_succ, List.flatten_cons] at ih ⊢
      rw [ih]; rfl
  rw [hrep] at h
  split at h
  · exact absurd h (by simp)
  · rename_i dst hdst
    simp only [Res.ok.injEq] at h
    rw [hdst, h]

/-- A source of alphabet bytes in which one byte is replaced by a byte outside the
alphabet, and whose length is three modulo four: `Base64Decode` fails, or returns
fewer bytes than the unmodified source carries. -/
theorem Base64Decode_replaced_nonalpha (pre post : Bytes) (c : Nat)
    (hpre : ∀ x ∈ pre, decodeMap x ≠ 0xff) (hpost : ∀ x ∈ post, decodeMap x ≠ 0xff)
    (hlen : (pre.length + 1 + post.length) % 4 = 3) (hc : decodeMap c = 0xff) (r : Bytes)
    (h : Base64Decode (pre ++ c :: post) = .ok r) :
    r.length < 3 * ((pre.length + 1 + post.length) / 4) + 2 := by
  have hl : (pre ++ c :: post).length = pre.length + 1 + post.length := by
    simp only [List.length_append, List.length_cons]; omega
  have h := Base64Decode_ok h
  simp only [hl, hlen, List.replicate, List.append_assoc, List.cons_append] at h
  rw [decodeLoop_alpha pre _ [] [] hpre] at h
  obtain ⟨hu, hd⟩ := feed_unsext (pre.map decodeMap) []
  rw [List.length_map] at hd
  rw [decodeLoop] at h
  simp only [hc, ne_eq, not_true_eq_false, if_false] at h
  by_cases hnl : isNL c = true
  · -- a skipped line break: the padding no longer fits
    simp only [hnl, if_true] at h
    rw [decodeLoop_alpha post _ _ _ hpost, ← feed_append] at h
    have hd2 := (feed_unsext (pre.map decodeMap ++ post.map decodeMap) []).2
    rw [List.length_append, List.length_map, List.length_map] at hd2
    have hd3 : (feed (pre.map decodeMap ++ post.map decodeMap) [] []).1.length = 2 := by omega
    rw [decodeLoop] at h
    simp [decodeMap_pad, isNL_pad, hd3] at h
  · simp only [hnl, Bool.false_eq_true, if_false] at h
    by_cases h61 : c = 61
    · subst h61
      simp only [ne_eq, not_true_eq_false, if_false] at h
      have hposthead : ∀ p l, post = p :: l → isNL p = false ∧ p ≠ 61 := by
        intro p l hp
        have hpa : decodeMap p ≠ 0xff := hpost p (by rw [hp]; exact List.mem_cons_self _ _)
        constructor
        · by_contra hn
          exact hpa (decodeMap_of_isNL (by simpa using hn))
        · intro h61
          exact hpa (h61 ▸ decodeMap_pad)
      cases hpost2 : post with
      | nil =>
        rw [hpost2] at h hlen
        simp only [List.nil_append, List.dropWhile, isNL_pad, ne_eq, not_true_eq_false,
          if_false, List.isEmpty_nil, if_true, List.isEmpty_cons, Bool.false_eq_true] at h
        split at h
        · simp at h
        · simp at h
        · simp only [Option.some.injEq] at h
          subst h
          rw [List.nil_append] at hu
          rw [hu, unsext_length, List.length_map]
          simp only [List.length_nil] at hlen ⊢
          omega
        · simp at h
      | cons p l =>
        obtain ⟨hp1, hp2⟩ := hposthead p l hpost2
        rw [hpost2] at h
        simp only [List.cons_append, List.dropWhile, hp1, ne_eq, hp2, not_false_eq_true,
          if_true, List.isEmpty_cons, Bool.false_eq_true, if_false] at h
        split at h <;> simp at h
    · simp [h61] at h

/-- The encoded form of a 20-byte signature with the byte at index `k` replaced by
another byte `c`: it decodes to the same 20 bytes exactly when `k` is the last index,
`c` is an alphabet byte and the 6-bit values of `c` and of the replaced byte agree in
their upper four bits. -/
theorem Base64Decode_tampered (h : Bytes) (hb : IsBytes h) (hl : h.length = 20) (k c : Nat)
    (hk : k < 27) (hc : c ≠ (Base64Encode h).getD k 0) :
    ((k = 26 ∧ decodeMap c ≠ 0xff ∧
        decodeMap c / 4 = decodeMap ((Base64Encode h).getD k 0) / 4) →
      Base64Decode ((Base64Encode h).set k c) = .ok h) ∧
    (¬ (k = 26 ∧ decodeMap c ≠ 0xff ∧
        decodeMap c / 4 = decodeMap ((Base64Encode h).getD k 0) / 4) →
      ∀ r, Base64Decode ((Base64Encode h).set k c) = .ok r → r ≠ h) := by
  have hsl : (sextets h).length = 27 := by rw [sextets_length, hl]
  have hEl : (Base64Encode h).length = 27 := by rw [Base64Encode_length, hl]
  have hgetE : (Base64Encode h).getD k 0 = encChar ((sextets h).getD k 0) := by
    rw [Base64Encode_eq, List.getD_eq_getElem _ _ (by rw [List.length_map, hsl]; exact hk),
      List.getD_eq_getElem _ _ (by rw [hsl]; exact hk), List.getElem_map]
  have hsk : (sextets h).getD k 0 < 64 := by
    rw [List.getD_eq_getElem _ _ (by rw [hsl]; exact hk)]
    exact sextets_lt h _ (List.getElem_mem _)
  have hdm : decodeMap ((Base64Encode h).getD k 0) = (sextets h).getD k 0 := by
    rw [hgetE, decodeMap_encChar _ hsk]
  have hmapE : (Base64Encode h).map decodeMap = sextets h := by
    rw [Base64Encode_eq, List.map_map]
    conv => rhs; rw [← List.map_id (sextets h)]
    apply List.map_congr_left
    intro s hs
    exact decodeMap_encChar s (sextets_lt h s hs)
  rw [hdm]
  by_cases hca : decodeMap c ≠ 0xff
  · -- an alphabet byte: the source decodes, to the bytes of the modified 6-bit values
    have hal : ∀ x ∈ (Base64Encode h).set k c, decodeMap x ≠ 0xff := by
      intro x hx
      rcases List.mem_or_eq_of_mem_set hx with h1 | h1
      · exact Base64Encode_alpha h x h1
      · exact h1 ▸ hca
    have hdec := Base64Decode_alpha _ hal
    rw [List.length_set, hEl, if_pos (by decide), List.map_set, hmapE] at hdec
    have hne : decodeMap c ≠ (sextets h).getD k 0 := by
      intro he
      apply hc
      rw [hgetE, ← he, encChar_decodeMap hca]
    have hset := unsext_set (sextets h) k (decodeMap c) (by rw [hsl]) (by rw [hsl]; exact hk)
      (sextets_lt h) (decodeMap_lt hca) hne
    rw [unsext_sextets h hb, hsl] at hset
    constructor
    · intro hp
      rw [hdec, hset.mpr ⟨by omega, hp.2.2⟩]
    · intro hp r hr
      rw [hdec] at hr
      simp only [Res.ok.injEq] at hr
      intro hrh
      rw [← hr] at hrh
      have := hset.mp hrh
      exact hp ⟨by omega, hca, this.2⟩
  · -- a byte outside the alphabet: a failure, or fewer than 20 bytes
    have hca2 : decodeMap c = 0xff := by
      by_contra hn
      exact hca hn
    constructor
    · intro hp
      exact absurd hp.2.1 hca
    · intro _ r hr
      rw [List.set_eq_take_append_cons_drop, if_pos (by rw [hEl]; exact hk)] at hr
      have hlt := Base64Decode_replaced_nonalpha _ _ c
        (fun x hx => Base64Encode_alpha h x (List.mem_of_mem_take hx))
        (fun x hx => Base64Encode_alpha h x (List.mem_of_mem_drop hx))
        (by
          rw [List.length_take, List.length_drop, hEl]
          omega) hca2 r hr
      rw [List.length_take, List.length_drop, hEl] at hlt
      intro hrh
      rw [hrh, hl] at hlt
      omega

/-- A proper suffix of the encoded form of a 20-byte signature decodes, if at all, to
fewer than 20 bytes. -/
theorem Base64Decode_suffix_short (h : Bytes) (hl : h.length = 20) (k : Nat) (r : Bytes)
    (hr : Base64Decode ((Base64Encode h).drop (k + 1)) = .ok r) : r.length < 20 := by
  have hEl : (Base64Encode h).length = 27 := by rw [Base64Encode_length, hl]
  have hdec := Base64Decode_alpha ((Base64Encode h).drop (k + 1))
    (fun x hx => Base64Encode_alpha h x (List.mem_of_mem_drop hx))
  rw [hdec] at hr
  split at hr
  · simp only [Res.ok.injEq] at hr
    rw [← hr, unsext_length, List.length_map, List.length_drop, hEl]
    omega
  · exact absurd hr (by simp)

/-- What `DefaultSigner(secretKey, salt, nil)` returns. -/
theorem DefaultSigner_eq (secretKey salt : Option Bytes) :
    DefaultSigner secretKey salt none = .done
      { secretKey := secretKey
        salt := salt.getD (str "itsdangerous.Signer")
        sep := [46]
        keyDerivation := "django-concat"
        digestMethod := sha1
        algorithm := .hmacAlg { DigestMethod := some sha1 } } := by
  have h : bytesContains ([46] : Bytes) base64Alphabet = false := by decide
  unfold DefaultSigner
  rw [NewSigner_eq]
  simp only [Option.getD, h, Bool.false_eq_true, if_false]
  rfl

/-- `Sign` and `VerifySignature` of the default signer: HMAC-SHA1 under the
django-concat key, and no change of state. -/
theorem DefaultSigner_ops (secretKey salt : Option Bytes) (signer : Signer)
    (hs : DefaultSigner secretKey salt none = .done signer) :
    signer.sep = [46] ∧
    ∃ key, (∀ v, signer.Sign v = .done (v ++ [46] ++ Base64Encode (hmacSum sha1 key v), signer)) ∧
      (∀ value sig e, Base64Decode sig = .error e →
        signer.VerifySignature value sig = .done (false, signer)) ∧
      (∀ value sig r, Base64Decode sig = .ok r →
        signer.VerifySignature value sig = .done (decide (hmacSum sha1 key value = r), signer)) := by
  rw [DefaultSigner_eq] at hs
  simp only [Run.done.injEq] at hs
  subst hs
  refine ⟨rfl, sha1.sum (salt.getD (str "itsdangerous.Signer") ++ str "signer"
    ++ secretKey.getD []), ?_, ?_, ?_⟩
  · intro v
    simp [Signer.Sign, Signer.GetSignature, Signer.DeriveKey, SigningAlgorithm.GetSignature,
      HMACAlgorithm.GetSignature, BytesCombine]
  · intro value sig e he
    simp [Signer.VerifySignature, he]
  · intro value sig r hr
    cases secretKey <;>
    simp [Signer.VerifySignature, hr, Signer.DeriveKey, SigningAlgorithm.VerifySignature,
      HMACAlgorithm.VerifySignature, HMACAlgorithm.GetSignature, hmacEqual]

theorem hmacSum_sha1_length (key v : Bytes) : (hmacSum sha1 key v).length = 20 :=
  sha1Sum_length _

theorem decodeMap_dot : decodeMap 46 = 0xff := by decide

/-- C2 (amended): tamper detection on the signature segment. For the default
configuration (HMAC with SHA-1, django-concat, separator `.`), every value `v`, the
token `t = Sign(v)` and every token that differs from `t` in exactly one byte, at an
index `i` of the signature segment: `Unsign` of the modified token fails with
`BadData`, except when the changed byte is the trailing byte of the token and the new
byte is an alphabet byte whose 6-bit value agrees with that of the original byte in
its upper four bits; in that case `Unsign` succeeds and returns `v` (the lower two
bits of the last base64 byte of a 20-byte signature carry no data and are ignored by
the decoder). -/
theorem Signer.Unsign_tampered_signature (secretKey salt : Option Bytes) (signer : Signer)
    (v : Bytes) (hs : DefaultSigner secretKey salt none = .done signer) :
    ∃ t s1, signer.Sign v = .done (t, s1) ∧ t.length = v.length + 28 ∧
      ∀ i c : Nat, v.length + 1 ≤ i → i < t.length → c ≠ t.getD i 0 →
        ((i + 1 = t.length ∧ decodeMap c ≠ 0xff ∧
            decodeMap c / 4 = decodeMap (t.getD i 0) / 4) →
          (s1.Unsign (t.set i c)).val = .done (.ok v)) ∧
        (¬ (i + 1 = t.length ∧ decodeMap c ≠ 0xff ∧
            decodeMap c / 4 = decodeMap (t.getD i 0) / 4) →
          ∃ m, (s1.Unsign (t.set i c)).val = .done (.error (.BadData m))) := by
  obtain ⟨hsep, key, hsign, hverr, hvok⟩ := DefaultSigner_ops secretKey salt signer hs
  have hl := hmacSum_sha1_length key v
  have hb : IsBytes (hmacSum sha1 key v) := sha1.sum_bytes _
  have hEl : (Base64Encode (hmacSum sha1 key v)).length = 27 := by
    rw [Base64Encode_length, hl]
  refine ⟨_, signer, hsign v, by simp only [List.length_append, hEl, List.length_singleton],
    ?_⟩
  intro i c hi1 hi2 hc
  simp only [List.length_append, hEl, List.length_singleton] at hi2
  have hvl : (v ++ [46]).length = v.length + 1 := by simp
  have hvi : (v ++ [46]).length ≤ i := by omega
  have hgetD : (v ++ [46] ++ Base64Encode (hmacSum sha1 key v)).getD i 0
      = (Base64Encode (hmacSum sha1 key v)).getD (i - (v.length + 1)) 0 := by
    rw [List.getD_append_right _ _ _ _ hvi, hvl]
  have hset : (v ++ [46] ++ Base64Encode (hmacSum sha1 key v)).set i c
      = v ++ [46] ++ (Base64Encode (hmacSum sha1 key v)).set (i - (v.length + 1)) c := by
    rw [List.set_append_right _ _ hvi, hvl]
  rw [hgetD] at hc ⊢
  rw [hset]
  simp only [List.length_append, hEl, List.length_singleton]
  obtain ⟨k, hk⟩ : ∃ k, k = i - (v.length + 1) := ⟨_, rfl⟩
  rw [← hk] at hc ⊢
  have hk27 : k < 27 := by omega
  have hik : i + 1 = v.length + 1 + 27 ↔ k = 26 := by omega
  rw [hik]
  by_cases h46 : c = 46
  · -- the new byte is the separator: the token is split at it
    subst h46
    have hsplit : v ++ [46] ++ (Base64Encode (hmacSum sha1 key v)).set k 46
        = (v ++ [46] ++ (Base64Encode (hmacSum sha1 key v)).take k) ++ signer.sep
          ++ (Base64Encode (hmacSum sha1 key v)).drop (k + 1) := by
      rw [List.set_eq_take_append_cons_drop, if_pos (by rw [hEl]; exact hk27), hsep]
      simp [List.append_assoc]
    have hu := Signer.Unsign_split signer _ _ _ hsplit (by
      rw [hsplit]
      exact no_later_sep _ _ _ (by rw [hsep]; simp)
        (by
          intro x hx
          rw [hsep, List.mem_singleton] at hx
          exact hx ▸ decodeMap_dot)
        (fun x hx => Base64Encode_alpha _ x (List.mem_of_mem_drop hx)))
    constructor
    · intro hp
      exact absurd decodeMap_dot hp.2.1
    · intro _
      rw [hu]
      rcases hd : Base64Decode ((Base64Encode (hmacSum sha1 key v)).drop (k + 1)) with r | e
      · have hlt := Base64Decode_suffix_short _ hl k r hd
        have hne : ¬ hmacSum sha1 key
            (v ++ [46] ++ (Base64Encode (hmacSum sha1 key v)).take k) = r := by
          intro he
          have := congrArg List.length he
          rw [hmacSum_sha1_length] at this
          omega
        rw [hvok _ _ r hd]
        simp only [hne, decide_False]
        exact ⟨_, rfl⟩
      · rw [hverr _ _ e hd]
        exact ⟨_, rfl⟩
  · -- the token is still split after `v`
    have hu := Signer.Unsign_split signer
      (v ++ [46] ++ (Base64Encode (hmacSum sha1 key v)).set k c) v
      ((Base64Encode (hmacSum sha1 key v)).set k c) (by rw [hsep]) (by
        rw [hsep]
        refine no_later_sep_of_disjoint _ _ _ (by simp) ?_
        intro x hx hxe
        rw [List.mem_singleton] at hx
        subst hx
        rcases List.mem_or_eq_of_mem_set hxe with h1 | h1
        · exact Base64Encode_alpha _ _ h1 decodeMap_dot
        · exact h46 h1.symm)
    obtain ⟨ht1, ht2⟩ := Base64Decode_tampered (hmacSum sha1 key v) hb hl k c hk27 hc
    constructor
    · intro hp
      rw [hu, hvok _ _ _ (ht1 hp)]
      simp [Run.val]
    · intro hp
      rw [hu]
      rcases hd : Base64Decode ((Base64Encode (hmacSum sha1 key v)).set k c) with r | e
      · have hne : ¬ hmacSum sha1 key v = r := fun he => ht2 hp r hd he.symm
        rw [hvok _ _ r hd]
        simp only [hne, decide_False]
        exact ⟨_, rfl⟩
      · rw [hverr _ _ e hd]
        exact ⟨_, rfl⟩

set_option maxRecDepth 1000000 in
/-- Witness of `Signer.Unsign_tampered_signature`: the default signer with the secret
"secret-key" and the value `hello`; the trailing byte `4` of the token replaced by `5`
(same upper four bits: accepted) and by `8` (other upper bits: `BadData`). -/
theorem Signer.Unsign_tampered_signature_witness :
    ∃ s1, exampleSigner.toSigner.Sign (str "hello")
        = .done (str "hello.GIG_I5genEs4rf1bcDRWLO8Yso4", s1) ∧
      (s1.Unsign (str "hello.GIG_I5genEs4rf1bcDRWLO8Yso5")).val = .done (.ok (str "hello")) ∧
      ∃ m, (s1.Unsign (str "hello.GIG_I5genEs4rf1bcDRWLO8Yso8")).val
        = .done (.error (.BadData m)) := by
  obtain ⟨t, s1, hS, _, hall⟩ := Signer.Unsign_tampered_signature (some (str "secret-key")) none
    exampleSigner.toSigner (str "hello") (DefaultSigner_eq (some (str "secret-key")) none)
  have hv : (exampleSigner.toSigner.Sign (str "hello")).val
      = .done (str "hello.GIG_I5genEs4rf1bcDRWLO8Yso4") := by decide
  rw [hS] at hv
  simp only [Run.val, Run.done.injEq] at hv
  subst hv
  have h5 := (hall 32 53 (by decide) (by decide) (by decide)).1 (by decide)
  have h8 := (hall 32 56 (by decide) (by decide) (by decide)).2 (by decide)
  have e5 : (str "hello.GIG_I5genEs4rf1bcDRWLO8Yso4").set 32 53
      = str "hello.GIG_I5genEs4rf1bcDRWLO8Yso5" := by decide
  have e8 : (str "hello.GIG_I5genEs4rf1bcDRWLO8Yso4").set 32 56
      = str "hello.GIG_I5genEs4rf1bcDRWLO8Yso8" := by decide
  rw [e5] at h5
  rw [e8] at h8
  exact ⟨s1, hS, h5, h8⟩

set_option maxRecDepth 1000000 in
/-- C2 (counterexample): the default signer with the secret "secret-key" signs `hello`
as `hello.GIG_I5genEs4rf1bcDRWLO8Yso4`; the token that differs from it in exactly the
trailing byte (index 32, `5` for `4`) is accepted by `Unsign`, which returns `hello`. -/
theorem Signer.Unsign_accepts_altered_trailing_byte :
    DefaultSigner (some (str "secret-key")) none none = .done exampleSigner.toSigner ∧
    (exampleSigner.toSigner.Sign (str "hello")).val
      = .done (str "hello.GIG_I5genEs4rf1bcDRWLO8Yso4") ∧
    (str "hello.GIG_I5genEs4rf1bcDRWLO8Yso4").set 32 53
      = str "hello.GIG_I5genEs4rf1bcDRWLO8Yso5" ∧
    (exampleSigner.toSigner.Unsign (str "hello.GIG_I5genEs4rf1bcDRWLO8Yso5")).val
      = .done (.ok (str "hello")) := by
  refine ⟨DefaultSigner_eq (some (str "secret-key")) none, ?_, ?_, ?_⟩ <;> decide

/-! ## Key derivation -/

/-- C12: key derivation formulas. For every Signer with digest function `H`, salt `s`
and configured secret `k` (a nil secret is the empty key), and with `k` replaced by
the override when `DeriveKey` is given a non-nil one: `DeriveKey` returns `H(s ++ k)`
for "concat", `H(s ++ "signer" ++ k)` for "django-concat", `HMAC_H(key = k,
message = s)` for "hmac" and `k` unchanged for "none"; for every other derivation
name `DeriveKey` panics. -/
theorem Signer.DeriveKey_formulas (signer : Signer) (override : Option Bytes) :
    (signer.keyDerivation = "concat" →
      signer.DeriveKey override = .done (signer.digestMethod.sum
        (signer.salt ++ (override.getD (signer.secretKey.getD []))))) ∧
    (signer.keyDerivation = "django-concat" →
      signer.DeriveKey override = .done (signer.digestMethod.sum
        (signer.salt ++ str "signer" ++ (override.getD (signer.secretKey.getD []))))) ∧
    (signer.keyDerivation = "hmac" →
      signer.DeriveKey override = .done (hmacSum signer.digestMethod
        (override.getD (signer.secretKey.getD [])) signer.salt)) ∧
    (signer.keyDerivation = "none" →
      signer.DeriveKey override = .done (override.getD (signer.secretKey.getD []))) ∧
    (signer.keyDerivation ≠ "concat" → signer.keyDerivation ≠ "django-concat" →
      signer.keyDerivation ≠ "hmac" → signer.keyDerivation ≠ "none" →
      ∃ m, signer.DeriveKey override = .panic m) := by
  refine ⟨?_, ?_, ?_, ?_, ?_⟩
  · intro h
    unfold Signer.DeriveKey
    cases override <;> simp [h]
  · intro h
    unfold Signer.DeriveKey
    cases override <;> simp [h]
  · intro h
    unfold Signer.DeriveKey
    cases override <;> simp [h]
  · intro h
    unfold Signer.DeriveKey
    cases override <;> simp [h]
  · intro h1 h2 h3 h4
    exact ⟨_, Signer.DeriveKey_unknown signer ⟨h1, h2, h3, h4⟩ override⟩

/-- Witness of `Signer.DeriveKey_formulas`: the default signer for the secret
"secret-key", with and without an override, and the same signer with the
derivations "concat", "hmac", "none" and the unknown name "sha256". -/
theorem Signer.DeriveKey_formulas_witness :
    exampleSigner.toSigner.DeriveKey none
      = .done (sha1.sum (str "itsdangerous.Signer" ++ str "signer" ++ str "secret-key")) ∧
    exampleSigner.toSigner.DeriveKey (some (str "other"))
      = .done (sha1.sum (str "itsdangerous.Signer" ++ str "signer" ++ str "other")) ∧
    ({ exampleSigner.toSigner with keyDerivation := "concat" } : Signer).DeriveKey none
      = .done (sha1.sum (str "itsdangerous.Signer" ++ str "secret-key")) ∧
    ({ exampleSigner.toSigner with keyDerivation := "hmac" } : Signer).DeriveKey none
      = .done (hmacSum sha1 (str "secret-key") (str "itsdangerous.Signer")) ∧
    ({ exampleSigner.toSigner with keyDerivation := "none" } : Signer).DeriveKey none
      = .done (str "secret-key") ∧
    ({ exampleSigner.toSigner with keyDerivation := "none", secretKey := none } : Signer).DeriveKey
      none = .done [] ∧
    ∃ m, ({ exampleSigner.toSigner with keyDerivation := "sha256" } : Signer).DeriveKey none
      = .panic m :=
  ⟨(Signer.DeriveKey_formulas exampleSigner.toSigner none).2.1 rfl,
    (Signer.DeriveKey_formulas exampleSigner.toSigner (some (str "other"))).2.1 rfl,
    (Signer.DeriveKey_formulas { exampleSigner.toSigner with keyDerivation := "concat" }
      none).1 rfl,
    (Signer.DeriveKey_formulas { exampleSigner.toSigner with keyDerivation := "hmac" }
      none).2.2.1 rfl,
    (Signer.DeriveKey_formulas { exampleSigner.toSigner with keyDerivation := "none" }
      none).2.2.2.1 rfl,
    (Signer.DeriveKey_formulas
      { exampleSigner.toSigner with keyDerivation := "none", secretKey := none }
      none).2.2.2.1 rfl,
    (Signer.DeriveKey_formulas { exampleSigner.toSigner with keyDerivation := "sha256" }
      none).2.2.2.2 (by decide) (by decide) (by decide) (by decide)⟩

/-! ## Missing timestamp -/

/-- The errors of the base `Unsign` are `BadData` errors. -/
theorem Signer.Unsign_error_BadData (signer : Signer) (token : Bytes) (e : Error) (s2 : Signer)
    (h : signer.Unsign token = .done (.error e, s2)) : ∃ m, e = .BadData m := by
  unfold Signer.Unsign at h
  split at h
  · simp only [Run.done.injEq, Prod.mk.injEq, Res.error.injEq] at h
    exact ⟨_, h.1.symm⟩
  · simp only at h
    split at h
    · exact absurd h (by simp)
    · exact absurd h (by simp)
    · simp only [Run.done.injEq, Prod.mk.injEq, Res.error.injEq] at h
      exact ⟨_, h.1.symm⟩

/-- C13: missing timestamp. For every token on which the base `Signer.Unsign`
succeeds with a payload that does not contain the separator,
`TimestampSigner.GetSignedTimestamp` and `TimestampSigner.Unsign` (for every clock
and `maxAge`) fail with `BadTimeSignature` "timestamp missing"; and whenever the
base `Signer.Unsign` fails, its error is a `BadData` and both fail with that same
error. -/
theorem TimestampSigner.missing_timestamp (signer : TimestampSigner) (token : Bytes) :
    (∀ payload s2, signer.toSigner.Unsign token = .done (.ok payload, s2) →
      bytesContains payload signer.toSigner.sep = false →
      signer.GetSignedTimestamp token
        = .done (.error (.BadTimeSignature (str "timestamp missing")), ⟨s2⟩) ∧
      ∀ now maxAge, signer.Unsign now token maxAge
        = .done (.error (.BadTimeSignature (str "timestamp missing")), ⟨s2⟩)) ∧
    (∀ e s2, signer.toSigner.Unsign token = .done (.error e, s2) →
      (∃ m, e = .BadData m) ∧
      signer.GetSignedTimestamp token = .done (.error e, ⟨s2⟩) ∧
      ∀ now maxAge, signer.Unsign now token maxAge = .done (.error e, ⟨s2⟩)) := by
  constructor
  · intro payload s2 hU hC
    constructor
    · simp only [TimestampSigner.GetSignedTimestamp, hU, hC, Bool.not_false, if_true]
    · intro now maxAge
      simp only [TimestampSigner.Unsign, hU, hC, Bool.not_false, if_true]
  · intro e s2 hU
    refine ⟨Signer.Unsign_error_BadData _ _ _ _ hU, ?_, ?_⟩
    · simp only [TimestampSigner.GetSignedTimestamp, hU]
    · intro now maxAge
      simp only [TimestampSigner.Unsign, hU]

set_option maxRecDepth 1000000 in
/-- Witness of `TimestampSigner.missing_timestamp`: the default signer with the secret
"secret-key"; the token the base `Sign` issues for `hello` has no timestamp field,
and a token without any separator fails in the base `Unsign`. -/
theorem TimestampSigner.missing_timestamp_witness :
    (∃ s2, exampleSigner.toSigner.Unsign (str "hello.GIG_I5genEs4rf1bcDRWLO8Yso4")
        = .done (.ok (str "hello"), s2) ∧
      exampleSigner.GetSignedTimestamp (str "hello.GIG_I5genEs4rf1bcDRWLO8Yso4")
        = .done (.error (.BadTimeSignature (str "timestamp missing")), ⟨s2⟩) ∧
      exampleSigner.Unsign 1700000000 (str "hello.GIG_I5genEs4rf1bcDRWLO8Yso4") 10
        = .done (.error (.BadTimeSignature (str "timestamp missing")), ⟨s2⟩)) ∧
    (exampleSigner.GetSignedTimestamp (str "hello")
        = .done (.error (.BadData (str "No . found in value")), exampleSigner) ∧
      exampleSigner.Unsign 1700000000 (str "hello") 10
        = .done (.error (.BadData (str "No . found in value")), exampleSigner)) := by
  have hm := TimestampSigner.missing_timestamp exampleSigner
    (str "hello.GIG_I5genEs4rf1bcDRWLO8Yso4")
  have hn := TimestampSigner.missing_timestamp exampleSigner (str "hello")
  obtain ⟨s2, hU⟩ := Run.val_done (r := exampleSigner.toSigner.Unsign
    (str "hello.GIG_I5genEs4rf1bcDRWLO8Yso4")) (a := .ok (str "hello")) (by decide)
  have h1 := hm.1 _ s2 hU (by decide)
  have hU2 : exampleSigner.toSigner.Unsign (str "hello")
      = .done (.error (.BadData (str "No . found in value")), exampleSigner.toSigner) := by
    rw [Signer.Unsign_no_sep _ _ (by decide)]
    have : str "No " ++ exampleSigner.toSigner.sep ++ str " found in value"
        = str "No . found in value" := by decide
    rw [this]
  have h2 := (hn.2 _ _ hU2).2
  exact ⟨⟨s2, hU, h1.1, h1.2 _ _⟩, h2.1, h2.2 _ _⟩

/-! ## The two readers of a timestamped token -/

/-- C17: `GetSignedTimestamp` and `TimestampSigner.Unsign` perform the same recovery.
For every token (and every clock): one panics exactly when the other does, with the
same message; `GetSignedTimestamp(token)` fails with an error exactly when
`Unsign(token, 0)` fails with that same error (kind and message); it succeeds
exactly when `Unsign(token, 0)` succeeds; and when it returns the time `t`, then
`Unsign` with every clock and every `maxAge` is the age check on that same integer
`t`: for `maxAge > 0` the age is the int64 `now - t`, and the value is returned when
`0 ≤ age ≤ maxAge`; for `maxAge ≤ 0` the value is returned. -/
theorem TimestampSigner.GetSignedTimestamp_Unsign_same_recovery (signer : TimestampSigner)
    (token : Bytes) :
    (∀ now m, signer.GetSignedTimestamp token = .panic m ↔
      signer.Unsign now token 0 = .panic m) ∧
    (∀ now e s2, signer.GetSignedTimestamp token = .done (.error e, s2) ↔
      signer.Unsign now token 0 = .done (.error e, s2)) ∧
    (∀ now s2, (∃ t, signer.GetSignedTimestamp token = .done (.ok t, s2)) ↔
      (∃ v, signer.Unsign now token 0 = .done (.ok v, s2))) ∧
    (∀ t s2, signer.GetSignedTimestamp token = .done (.ok t, s2) →
      ∃ v, ∀ now maxAge, signer.Unsign now token maxAge =
        if maxAge > 0 then
          if toInt64 (now - t.unix) > maxAge then
            .done (.error (.SignatureExpired (str ("Signature age "
              ++ toString (toInt64 (now - t.unix)) ++ " > " ++ toString maxAge ++ " seconds"))), s2)
          else if toInt64 (now - t.unix) < 0 then
            .done (.error (.SignatureExpired (str ("Signature age "
              ++ toString (toInt64 (now - t.unix)) ++ " < 0 seconds"))), s2)
          else .done (.ok v, s2)
        else .done (.ok v, s2)) := by
  have h0 : ¬ ((0 : Int) > 0) := by decide
  rcases hU : signer.toSigner.Unsign token with ⟨⟨p | e, s1⟩⟩ | m
  · by_cases hC : bytesContains p signer.toSigner.sep = true
    · rcases hD : Base64Decode (p.drop (bytesLastIndex p signer.toSigner.sep
          + signer.toSigner.sep.length).toNat) with sig | e
      · rcases hR : readUint64 (BytesCombine [bytesRepeat [0] (timestampPadLen sig), sig])
          with _ | ts
        · simp [TimestampSigner.GetSignedTimestamp, TimestampSigner.Unsign, hU, hC, hD, hR]
        · refine ⟨?_, ?_, ?_, ?_⟩
          · simp [TimestampSigner.GetSignedTimestamp, TimestampSigner.Unsign, hU, hC, hD, hR]
          · simp [TimestampSigner.GetSignedTimestamp, TimestampSigner.Unsign, hU, hC, hD, hR]
          · simp [TimestampSigner.GetSignedTimestamp, TimestampSigner.Unsign, hU, hC, hD, hR]
          · intro t s2 hG
            simp only [TimestampSigner.GetSignedTimestamp, hU, hC, hD, hR, Bool.not_true,
              Bool.false_eq_true, if_false, Run.done.injEq, Prod.mk.injEq, Res.ok.injEq] at hG
            obtain ⟨ht, hs⟩ := hG
            subst ht hs
            refine ⟨p.take (bytesLastIndex p signer.toSigner.sep).toNat, ?_⟩
            intro now maxAge
            simp only [TimestampSigner.Unsign, hU, hC, hD, hR, Bool.not_true,
              Bool.false_eq_true, if_false, TimestampSigner.TimestampToTime]
      · simp [TimestampSigner.GetSignedTimestamp, TimestampSigner.Unsign, hU, hC, hD]
    · simp [TimestampSigner.GetSignedTimestamp, TimestampSigner.Unsign, hU, hC]
  · simp [TimestampSigner.GetSignedTimestamp, TimestampSigner.Unsign, hU]
  · simp [TimestampSigner.GetSignedTimestamp, TimestampSigner.Unsign, hU]

set_option maxRecDepth 1000000 in
/-- Witness of `TimestampSigner.GetSignedTimestamp_Unsign_same_recovery`: the token the
default signer for the secret "secret-key" issues for `hello` at the clock
1700000000; `GetSignedTimestamp` returns 1700000000 and `Unsign` with `maxAge = 0`
succeeds, on a token without a separator both fail with the same `BadData`. -/
theorem TimestampSigner.GetSignedTimestamp_Unsign_same_recovery_witness :
    (∃ s2, exampleSigner.GetSignedTimestamp (str "hello.ZVPxAA.UQx3EIPGLNk6IyY28rz4wwlRRWI")
        = .done (.ok ⟨1700000000⟩, s2) ∧
      ∃ v, exampleSigner.Unsign 1700000005 (str "hello.ZVPxAA.UQx3EIPGLNk6IyY28rz4wwlRRWI") 0
        = .done (.ok v, s2)) ∧
    (exampleSigner.GetSignedTimestamp (str "hello")
        = .done (.error (.BadData (str "No . found in value")), exampleSigner) ∧
      exampleSigner.Unsign 1700000005 (str "hello") 0
        = .done (.error (.BadData (str "No . found in value")), exampleSigner)) := by
  obtain ⟨s2, hG⟩ := Run.val_done (r := exampleSigner.GetSignedTimestamp
    (str "hello.ZVPxAA.UQx3EIPGLNk6IyY28rz4wwlRRWI")) (a := .ok ⟨1700000000⟩) (by decide)
  have hE : exampleSigner.GetSignedTimestamp (str "hello")
      = .done (.error (.BadData (str "No . found in value")), exampleSigner) := by
    have hc : bytesContains (str "hello") exampleSigner.toSigner.sep = false := by decide
    have hm : str "No " ++ exampleSigner.toSigner.sep ++ str " found in value"
        = str "No . found in value" := by decide
    simp only [TimestampSigner.GetSignedTimestamp, Signer.Unsign_no_sep _ _ hc, hm]
  exact ⟨⟨s2, hG, ((TimestampSigner.GetSignedTimestamp_Unsign_same_recovery exampleSigner
      (str "hello.ZVPxAA.UQx3EIPGLNk6IyY28rz4wwlRRWI")).2.2.1 1700000005 s2).1 ⟨_, hG⟩⟩,
    hE, ((TimestampSigner.GetSignedTimestamp_Unsign_same_recovery exampleSigner
      (str "hello")).2.1 1700000005 _ _).1 hE⟩

/-! ## `Base64Encode` against RFC 4648 -/

theorem rfc4648URLChar_eq : ∀ i, i < 64 → rfc4648URLChar i = encChar i := by decide

theorem six_bits_1 (a b c : Nat) (ha : a < 256) (hb : b < 256) (hc : c < 256) :
    2 * (2 * (2 * (2 * (2 * (2 * 0 + a / 128 % 2) + a / 64 % 2) + a / 32 % 2) + a / 16 % 2)
      + a / 8 % 2) + a / 4 % 2 = (a * 2 ^ 16 + b * 2 ^ 8 + c) / 2 ^ 18 % 64 := by
  omega

theorem six_bits_2 (a b c : Nat) (hb : b < 256) (hc : c < 256) :
    2 * (2 * (2 * (2 * (2 * (2 * 0 + a / 2 % 2) + a % 2) + b / 128 % 2) + b / 64 % 2)
      + b / 32 % 2) + b / 16 % 2 = (a * 2 ^ 16 + b * 2 ^ 8 + c) / 2 ^ 12 % 64 := by
  omega

theorem six_bits_3 (a b c : Nat) (hc : c < 256) :
    2 * (2 * (2 * (2 * (2 * (2 * 0 + b / 8 % 2) + b / 4 % 2) + b / 2 % 2) + b % 2)
      + c / 128 % 2) + c / 64 % 2 = (a * 2 ^ 16 + b * 2 ^ 8 + c) / 2 ^ 6 % 64 := by
  omega

theorem six_bits_4 (a b c : Nat) :
    2 * (2 * (2 * (2 * (2 * (2 * 0 + c / 32 % 2) + c / 16 % 2) + c / 8 % 2) + c / 4 % 2)
      + c / 2 % 2) + c % 2 = (a * 2 ^ 16 + b * 2 ^ 8 + c) % 64 := by
  omega

theorem pad_count (n : Nat) : (4 - (4 * n + 2) / 3 % 4) % 4 = (3 - n % 3) % 3 := by
  have h := Nat.div_add_mod n 3
  have h3 : n % 3 = 0 ∨ n % 3 = 1 ∨ n % 3 = 2 := by omega
  rcases h3 with h3 | h3 | h3 <;> rw [h3] at h ⊢ <;> omega

set_option maxHeartbeats 1000000 in
/-- The six-bit groups of RFC 4648 are the 6-bit values the encoder writes. -/
theorem rfc4648_sextets (x : Bytes) (hx : IsBytes x) :
    (rfc4648Groups (rfc4648Bits x)).map rfc4648Index = sextets x := by
  induction x using sextets.induct with
  | case1 a b c rest ih =>
    have ha : a < 256 := hx a (by simp)
    have hb : b < 256 := hx b (by simp)
    have hc : c < 256 := hx c (by simp)
    have hr : IsBytes rest := fun y hy => hx y (by simp [hy])
    have hbits : rfc4648Bits (a :: b :: c :: rest)
        = a / 128 % 2 :: a / 64 % 2 :: a / 32 % 2 :: a / 16 % 2 :: a / 8 % 2 :: a / 4 % 2
          :: a / 2 % 2 :: a % 2
          :: b / 128 % 2 :: b / 64 % 2 :: b / 32 % 2 :: b / 16 % 2 :: b / 8 % 2 :: b / 4 % 2
          :: b / 2 % 2 :: b % 2
          :: c / 128 % 2 :: c / 64 % 2 :: c / 32 % 2 :: c / 16 % 2 :: c / 8 % 2 :: c / 4 % 2
          :: c / 2 % 2 :: c % 2 :: rfc4648Bits rest := rfl
    rw [hbits]
    simp only [rfc4648Groups, List.map_cons, ih hr, sextets, rfc4648Index, List.foldl_cons,
      List.foldl_nil]
    rw [six_bits_1 a b c ha hb hc, six_bits_2 a b c hb hc, six_bits_3 a b c hc,
      six_bits_4 a b c]
  | case2 a b =>
    have ha : a < 256 := hx a (by simp)
    have hb : b < 256 := hx b (by simp)
    have hbits : rfc4648Bits [a, b]
        = [a / 128 % 2, a / 64 % 2, a / 32 % 2, a / 16 % 2, a / 8 % 2, a / 4 % 2, a / 2 % 2, a % 2,
          b / 128 % 2, b / 64 % 2, b / 32 % 2, b / 16 % 2, b / 8 % 2, b / 4 % 2, b / 2 % 2,
          b % 2] := rfl
    rw [hbits]
    simp only [rfc4648Groups, List.map_cons, List.map_nil, sextets, rfc4648Index,
      List.foldl_cons, List.foldl_nil, List.replicate, List.take, List.cons_append,
      List.nil_append, List.cons.injEq, and_true]
    refine ⟨?_, ?_, ?_⟩ <;> omega
  | case3 a =>
    have ha : a < 256 := hx a (by simp)
    have hbits : rfc4648Bits [a]
        = [a / 128 % 2, a / 64 % 2, a / 32 % 2, a / 16 % 2, a / 8 % 2, a / 4 % 2, a / 2 % 2,
          a % 2] := rfl
    rw [hbits]
    simp only [rfc4648Groups, List.map_cons, List.map_nil, sextets, rfc4648Index,
      List.foldl_cons, List.foldl_nil, List.replicate, List.take, List.cons_append,
      List.nil_append, List.cons.injEq, and_true]
    refine ⟨?_, ?_⟩ <;> omega
  | case4 => rfl

/-- The code's padded encoder is the padded URL-safe encoding of RFC 4648. -/
theorem urlEncode_rfc4648 (x : Bytes) (hx : IsBytes x) : urlEncode x = rfc4648URLPadded x := by
  have hmap : (rfc4648Groups (rfc4648Bits x)).map (fun g => rfc4648URLChar (rfc4648Index g))
      = (sextets x).map encChar := by
    rw [← rfc4648_sextets x hx, List.map_map]
    apply List.map_congr_left
    intro g hg
    have hlt : rfc4648Index g < 64 := by
      apply sextets_lt x
      rw [← rfc4648_sextets x hx]
      exact List.mem_map_of_mem _ hg
    simp only [Function.comp]
    exact rfc4648URLChar_eq _ hlt
  unfold rfc4648URLPadded
  simp only [hmap]
  rw [urlEncode_eq, List.length_map, sextets_length]
  rw [pad_count]

theorem stripTrailingPad_replicate (n : Nat) : stripTrailingPad (List.replicate n 61) = [] := by
  induction n with
  | zero => rfl
  | succ k ih => simp [List.replicate, stripTrailingPad, ih]

theorem stripTrailingPad_pad (a : Bytes) (n : Nat) (h : ∀ c ∈ a, c ≠ 61) :
    stripTrailingPad (a ++ List.replicate n 61) = a := by
  induction a with
  | nil => simpa using stripTrailingPad_replicate n
  | cons c a ih =>
    have hc : c ≠ 61 := h c (by simp)
    have ih2 := ih (fun y hy => h y (by simp [hy]))
    show stripTrailingPad (c :: (a ++ List.replicate n 61)) = c :: a
    simp only [stripTrailingPad, ih2, hc, and_false, if_false]

theorem encChar_range : ∀ i, i < 64 →
    ((65 ≤ encChar i ∧ encChar i ≤ 90) ∨ (97 ≤ encChar i ∧ encChar i ≤ 122) ∨
      (48 ≤ encChar i ∧ encChar i ≤ 57) ∨ encChar i = 45 ∨ encChar i = 95) := by decide

/-- C15: `Base64Encode` is total and unpadded URL-safe. For every byte sequence `x`
of length `n`, `Base64Encode x` has length `ceil(4n/3)`, that is `(4n + 2) / 3`, the
least `m` with `4n ≤ 3m`; every byte of it is one of `A`-`Z`, `a`-`z`, `0`-`9`, `-`,
`_`, and none is `=`, `+` or `/`; and it equals the standard padded URL-safe base 64
encoding of `x` (RFC 4648: the bits of `x` in groups of six, one alphabet character
per group, `=` up to a multiple of four) with all trailing `=` removed. -/
theorem Base64Encode_unpadded_urlsafe (x : Bytes) (hx : IsBytes x) :
    (Base64Encode x).length = (4 * x.length + 2) / 3 ∧
    (4 * x.length ≤ 3 * (Base64Encode x).length ∧
      3 * (Base64Encode x).length < 4 * x.length + 3) ∧
    (∀ c ∈ Base64Encode x, (65 ≤ c ∧ c ≤ 90) ∨ (97 ≤ c ∧ c ≤ 122) ∨ (48 ≤ c ∧ c ≤ 57) ∨
      c = 45 ∨ c = 95) ∧
    (∀ c ∈ Base64Encode x, c ≠ 61 ∧ c ≠ 43 ∧ c ≠ 47) ∧
    Base64Encode x = stripTrailingPad (rfc4648URLPadded x) := by
  have hlen := Base64Encode_length x
  have hrange : ∀ c ∈ Base64Encode x, (65 ≤ c ∧ c ≤ 90) ∨ (97 ≤ c ∧ c ≤ 122) ∨
      (48 ≤ c ∧ c ≤ 57) ∨ c = 45 ∨ c = 95 := by
    intro c hc
    rw [Base64Encode_eq] at hc
    obtain ⟨s, hs, rfl⟩ := List.mem_map.mp hc
    exact encChar_range s (sextets_lt x s hs)
  refine ⟨hlen, ⟨by omega, by omega⟩, hrange, ?_, ?_⟩
  · intro c hc
    have := hrange c hc
    omega
  · rw [← urlEncode_rfc4648 x hx, urlEncode_eq, stripTrailingPad_pad, Base64Encode_eq]
    intro c hc
    obtain ⟨s, hs, rfl⟩ := List.mem_map.mp hc
    exact encChar_ne_pad s (sextets_lt x s hs)

/-- Witness of `Base64Encode_unpadded_urlsafe`: the five bytes of `hello` encode to the
seven characters `aGVsbG8`, and the bytes `ff ee` to `_-4`. -/
theorem Base64Encode_unpadded_urlsafe_witness :
    IsBytes (str "hello") ∧ Base64Encode (str "hello") = str "aGVsbG8" ∧
    (Base64Encode (str "hello")).length = 7 ∧
    rfc4648URLPadded (str "hello") = str "aGVsbG8=" ∧
    Base64Encode [255, 238] = stripTrailingPad (rfc4648URLPadded [255, 238]) ∧
    Base64Encode [255, 238] = str "_-4" :=
  ⟨by unfold IsBytes; decide, by decide, (Base64Encode_unpadded_urlsafe (str "hello") (by unfold IsBytes; decide)).1,
    by decide, (Base64Encode_unpadded_urlsafe [255, 238] (by unfold IsBytes; decide)).2.2.2.2, by decide⟩

/-! ## The round trip of base 64 -/

/-- `Base64Decode` decodes its input followed by `base64PadLen` bytes `=`. -/
theorem Base64Decode_padLen (src : Bytes) :
    Base64Decode src = (urlDecode (src ++ bytesRepeat [61] (base64PadLen src))).elim
      (.error (.BadData (str "Invalid base64-encoded data"))) .ok := by
  unfold Base64Decode base64PadLen
  simp only [BytesCombine, List.flatten_cons, List.flatten_nil, List.append_nil]
  cases urlDecode (src ++ bytesRepeat [61] (if src.length % 4 > 0 then 4 - src.length % 4 else 1))
    <;> rfl

/-- C18: the base 64 round trip depends on the length mod 3. `Base64Decode` decodes
its input followed by `base64PadLen` bytes `=`. For every byte sequence `x`,
`Base64Decode (Base64Encode x)` succeeds exactly when the length of `x` is not a
multiple of 3, and then it returns `x`. When the length is a multiple of 3 (the
empty sequence included) the encoded length is a multiple of 4, exactly one `=` is
appended, the padded text does not decode, and `Base64Decode` fails with `BadData`. -/
theorem Base64_round_trip_mod3 (x : Bytes) (hx : IsBytes x) :
    (∀ src, Base64Decode src = (urlDecode (src ++ bytesRepeat [61] (base64PadLen src))).elim
      (.error (.BadData (str "Invalid base64-encoded data"))) .ok) ∧
    ((∃ y, Base64Decode (Base64Encode x) = .ok y) ↔ x.length % 3 ≠ 0) ∧
    (Base64Decode (Base64Encode x) = .ok x ↔ x.length % 3 ≠ 0) ∧
    (x.length % 3 = 0 →
      (Base64Encode x).length % 4 = 0 ∧
      base64PadLen (Base64Encode x) = 1 ∧
      bytesRepeat [61] (base64PadLen (Base64Encode x)) = [61] ∧
      urlDecode (Base64Encode x ++ [61]) = none ∧
      Base64Decode (Base64Encode x) = .error (.BadData (str "Invalid base64-encoded data"))) := by
  have hrt := Base64Decode_Base64Encode x hx
  refine ⟨Base64Decode_padLen, ?_, ?_, ?_⟩
  · by_cases h : x.length % 3 = 0
    · simp [hrt, h]
    · simp [hrt, h]
  · by_cases h : x.length % 3 = 0
    · simp [hrt, h]
    · simp [hrt, h]
  · intro h
    have hl : (Base64Encode x).length % 4 = 0 := by
      rw [Base64Encode_length]
      omega
    have hp : base64PadLen (Base64Encode x) = 1 := by
      unfold base64PadLen
      rw [hl]
      rfl
    have hr : bytesRepeat [61] (base64PadLen (Base64Encode x)) = [61] := by
      rw [hp]
      rfl
    have he : Base64Decode (Base64Encode x)
        = .error (.BadData (str "Invalid base64-encoded data")) := by
      simp [hrt, h]
    refine ⟨hl, hp, hr, ?_, he⟩
    have hd := Base64Decode_padLen (Base64Encode x)
    rw [hr, he] at hd
    cases hu : urlDecode (Base64Encode x ++ [61]) with
    | none => rfl
    | some d =>
      rw [hu] at hd
      simp [Option.elim] at hd

/-- Witness of `Base64_round_trip_mod3`: the five bytes of `hello` come back, the three
bytes of `abc` encode to the four characters `YWJj` and do not come back. -/
theorem Base64_round_trip_mod3_witness :
    IsBytes (str "hello") ∧ Base64Decode (Base64Encode (str "hello")) = .ok (str "hello") ∧
    IsBytes (str "abc") ∧ Base64Encode (str "abc") = str "YWJj" ∧
    Base64Decode (Base64Encode (str "abc"))
      = .error (.BadData (str "Invalid base64-encoded data")) ∧
    Base64Decode (Base64Encode [])
      = .error (.BadData (str "Invalid base64-encoded data")) :=
  ⟨by unfold IsBytes; decide,
    (Base64_round_trip_mod3 (str "hello") (by unfold IsBytes; decide)).2.2.1.2 (by decide),
    by unfold IsBytes; decide, by decide,
    ((Base64_round_trip_mod3 (str "abc") (by unfold IsBytes; decide)).2.2.2
      (by decide)).2.2.2.2,
    ((Base64_round_trip_mod3 [] (by unfold IsBytes; decide)).2.2.2 (by decide)).2.2.2.2⟩

/-! ## The conditional round trip of a Signer -/

theorem decodeMap_of_not_mem_encodeURL {c : Nat} (h : c ∉ encodeURL) : decodeMap c = 0xff := by
  unfold decodeMap
  have hi : encodeURL.indexOf c = encodeURL.length := List.indexOf_eq_length.mpr h
  have hl : encodeURL.length = 64 := by decide
  rw [hi, hl]
  simp

/-- The None algorithm returns one byte and accepts it. -/
theorem SigningAlgorithm.noneAlg_sound (key v : Bytes) :
    IsBytes (SigningAlgorithm.noneAlg.GetSignature key v).1 ∧
    (SigningAlgorithm.noneAlg.GetSignature key v).1.length % 3 ≠ 0 ∧
    ((SigningAlgorithm.noneAlg.GetSignature key v).2.VerifySignature key v
      (SigningAlgorithm.noneAlg.GetSignature key v).1).1 = true := by
  simp only [SigningAlgorithm.GetSignature, SigningAlgorithm.VerifySignature,
    NoneAlgorithm.GetSignature, NoneAlgorithm.VerifySignature, hmacEqual]
  refine ⟨?_, by decide, by decide⟩
  intro x hx
  simp only [List.mem_singleton] at hx
  omega

/-- An HMAC algorithm returns bytes and accepts them; their number is the output
length of its digest, SHA-1 when `DigestMethod` is nil. -/
theorem SigningAlgorithm.hmacAlg_sound (d : Option Hash) (key v : Bytes)
    (hl : ∀ m, ((d.getD sha1).sum m).length % 3 ≠ 0) :
    IsBytes ((SigningAlgorithm.hmacAlg ⟨d⟩).GetSignature key v).1 ∧
    ((SigningAlgorithm.hmacAlg ⟨d⟩).GetSignature key v).1.length % 3 ≠ 0 ∧
    (((SigningAlgorithm.hmacAlg ⟨d⟩).GetSignature key v).2.VerifySignature key v
      ((SigningAlgorithm.hmacAlg ⟨d⟩).GetSignature key v).1).1 = true := by
  cases d with
  | none =>
    simp only [Option.getD, SigningAlgorithm.GetSignature, SigningAlgorithm.VerifySignature,
      HMACAlgorithm.GetSignature, HMACAlgorithm.VerifySignature, hmacEqual]
    exact ⟨Hash.sum_bytes _ _, hl _, by simp⟩
  | some d =>
    simp only [Option.getD, SigningAlgorithm.GetSignature, SigningAlgorithm.VerifySignature,
      HMACAlgorithm.GetSignature, HMACAlgorithm.VerifySignature, hmacEqual]
    exact ⟨Hash.sum_bytes _ _, hl _, by simp⟩

/-- C19: conditional Signer round trip. For every Signer whose separator is non-empty
and contains no byte of the URL-safe base64 alphabet, whose key derivation is one of
the four known names, and whose algorithm (a function of key and message) returns
bytes whose number is not a multiple of 3 and accepts its own signatures, and for
every value `v` (also one that contains the separator): `Sign(v)` returns
`v ++ sep ++ Base64Encode(signature)`, `Unsign` of that token returns `v` and
`Validate` of it is true. -/
theorem Signer.conditional_round_trip (s : Signer) (v : Bytes)
    (hne : s.sep ≠ [])
    (hsep : ∀ c ∈ s.sep, c ∉ encodeURL)
    (hkd : s.keyDerivation = "concat" ∨ s.keyDerivation = "django-concat" ∨
      s.keyDerivation = "hmac" ∨ s.keyDerivation = "none")
    (halg : ∀ key, IsBytes (s.algorithm.GetSignature key v).1 ∧
      (s.algorithm.GetSignature key v).1.length % 3 ≠ 0 ∧
      ((s.algorithm.GetSignature key v).2.VerifySignature key v
        (s.algorithm.GetSignature key v).1).1 = true) :
    ∃ key s1 s2, s.DeriveKey none = .done key ∧
      s.Sign v = .done (v ++ s.sep ++ Base64Encode (s.algorithm.GetSignature key v).1, s1) ∧
      s1.Unsign (v ++ s.sep ++ Base64Encode (s.algorithm.GetSignature key v).1)
        = .done (.ok v, s2) ∧
      s1.Validate (v ++ s.sep ++ Base64Encode (s.algorithm.GetSignature key v).1)
        = .done (true, s2) := by
  obtain ⟨key, hkey⟩ := Signer.DeriveKey_known s none hkd
  obtain ⟨s1, s2, h1, h2⟩ := Signer.Sign_Unsign_core s v key hne
    (fun c hc => decodeMap_of_not_mem_encodeURL (hsep c hc)) hkey (halg key).1 (halg key).2.1
    (halg key).2.2
  refine ⟨key, s1, s2, hkey, h1, h2, ?_⟩
  simp only [Signer.Validate, h2]

/-- Witness of `Signer.conditional_round_trip`: the default signer for the secret
"secret-key" (HMAC with SHA-1, 20 bytes) and the same signer with the None algorithm
(1 byte), on the value `a.b`, which contains the separator. -/
theorem Signer.conditional_round_trip_witness :
    (∃ key s1 s2, exampleSigner.toSigner.DeriveKey none = .done key ∧
      exampleSigner.toSigner.Sign (str "a.b") = .done (str "a.b" ++ [46]
        ++ Base64Encode (hmacSum sha1 key (str "a.b")), s1) ∧
      s1.Unsign (str "a.b" ++ [46] ++ Base64Encode (hmacSum sha1 key (str "a.b")))
        = .done (.ok (str "a.b"), s2) ∧
      s1.Validate (str "a.b" ++ [46] ++ Base64Encode (hmacSum sha1 key (str "a.b")))
        = .done (true, s2)) ∧
    (∃ key s1 s2, ({ exampleSigner.toSigner with algorithm := .noneAlg } : Signer).DeriveKey none
        = .done key ∧
      ({ exampleSigner.toSigner with algorithm := .noneAlg } : Signer).Sign (str "a.b")
        = .done (str "a.b" ++ [46] ++ Base64Encode [98], s1) ∧
      s1.Unsign (str "a.b" ++ [46] ++ Base64Encode [98]) = .done (.ok (str "a.b"), s2) ∧
      s1.Validate (str "a.b" ++ [46] ++ Base64Encode [98]) = .done (true, s2)) :=
  ⟨Signer.conditional_round_trip exampleSigner.toSigner (str "a.b") (by decide) (by decide)
      (Or.inr (Or.inl rfl))
      (fun key => SigningAlgorithm.hmacAlg_sound (some sha1) key (str "a.b")
        (fun m => by rw [show ((some sha1).getD sha1).sum m = sha1Sum m from rfl,
          sha1Sum_length]; decide)),
    Signer.conditional_round_trip { exampleSigner.toSigner with algorithm := .noneAlg }
      (str "a.b") (by decide) (by decide) (Or.inr (Or.inl rfl))
      (fun key => SigningAlgorithm.noneAlg_sound key (str "a.b"))⟩

/-! ## What the operations change in a Signer -/

theorem SigningAlgorithm.resolved_after_get (a : SigningAlgorithm) (key v : Bytes) :
    (a.GetSignature key v).2 = a.resolved := by
  rcases a with _ | ⟨_ | d⟩ | ⟨get, verify⟩ <;> rfl

theorem SigningAlgorithm.resolved_after_verify (a : SigningAlgorithm) (key v sig : Bytes) :
    (a.VerifySignature key v sig).2 = a.resolved := by
  rcases a with _ | ⟨_ | d⟩ | ⟨get, verify⟩ <;> rfl

theorem SigningAlgorithm.resolved_resolved (a : SigningAlgorithm) :
    a.resolved.resolved = a.resolved := by
  rcases a with _ | ⟨_ | d⟩ | ⟨get, verify⟩ <;> rfl

theorem SigningAlgorithm.resolved_of_ne (a : SigningAlgorithm)
    (h : a ≠ .hmacAlg { DigestMethod := none }) : a.resolved = a := by
  rcases a with _ | ⟨_ | d⟩ | ⟨get, verify⟩
  · rfl
  · exact absurd rfl h
  · rfl
  · rfl

theorem Signer.GetSignature_state (s : Signer) (v sig : Bytes) (s1 : Signer)
    (h : s.GetSignature v = .done (sig, s1)) : s1 = s.resolved := by
  unfold Signer.GetSignature at h
  rcases hk : s.DeriveKey none with key | m
  · rw [hk] at h
    simp only [Run.done.injEq, Prod.mk.injEq] at h
    rw [← h.2, SigningAlgorithm.resolved_after_get]
    rfl
  · rw [hk] at h
    exact absurd h (by simp)

theorem Signer.Sign_state (s : Signer) (v t : Bytes) (s1 : Signer)
    (h : s.Sign v = .done (t, s1)) : s1 = s.resolved := by
  unfold Signer.Sign at h
  rcases hg : s.GetSignature v with ⟨sig, s2⟩ | m
  · rw [hg] at h
    simp only [Run.done.injEq, Prod.mk.injEq] at h
    rw [← h.2]
    exact Signer.GetSignature_state s v sig s2 hg
  · rw [hg] at h
    exact absurd h (by simp)

theorem Signer.VerifySignature_state (s : Signer) (v sig : Bytes) (b : Bool) (s1 : Signer)
    (h : s.VerifySignature v sig = .done (b, s1)) : s1 = s ∨ s1 = s.resolved := by
  unfold Signer.VerifySignature at h
  rcases hd : Base64Decode sig with d | e
  · rw [hd] at h
    rcases hk : s.DeriveKey s.secretKey with key | m
    · rw [hk] at h
      simp only [Run.done.injEq, Prod.mk.injEq] at h
      right
      rw [← h.2, SigningAlgorithm.resolved_after_verify]
      rfl
    · rw [hk] at h
      exact absurd h (by simp)
  · rw [hd] at h
    simp only [Run.done.injEq, Prod.mk.injEq] at h
    left
    exact h.2.symm

theorem Signer.Unsign_state (s : Signer) (t : Bytes) (r : Res Bytes) (s1 : Signer)
    (h : s.Unsign t = .done (r, s1)) : s1 = s ∨ s1 = s.resolved := by
  unfold Signer.Unsign at h
  split at h
  · simp only [Run.done.injEq, Prod.mk.injEq] at h
    left
    exact h.2.symm
  · simp only at h
    split at h
    · exact absurd h (by simp)
    · rename_i s2 hv
      simp only [Run.done.injEq, Prod.mk.injEq] at h
      rw [← h.2]
      exact Signer.VerifySignature_state s _ _ _ _ hv
    · rename_i s2 hv
      simp only [Run.done.injEq, Prod.mk.injEq] at h
      rw [← h.2]
      exact Signer.VerifySignature_state s _ _ _ _ hv

/-- C14 (as stated, refuted at one input): `NewSigner` with the caller-supplied
algorithm `&HMACAlgorithm{}`, whose `DigestMethod` is unset, returns a Signer whose
algorithm still has no digest; the first `GetSignature` sets it to `sha1.New`, so the
algorithm held by the Signer after the call differs from the one before it. -/
theorem NewSigner_lazy_digest_counterexample :
    ∃ signer sig s1,
      NewSigner (some (str "secret-key")) none none none ""
        (some (.hmacAlg { DigestMethod := none })) = .done signer ∧
      signer.algorithm = .hmacAlg { DigestMethod := none } ∧
      signer.GetSignature (str "hello") = .done (sig, s1) ∧
      s1.algorithm = .hmacAlg { DigestMethod := some sha1 } ∧
      s1.algorithm ≠ signer.algorithm := by
  have h : bytesContains ([46] : Bytes) base64Alphabet = false := by decide
  refine ⟨{ exampleSigner.toSigner with algorithm := .hmacAlg { DigestMethod := none } },
    Base64Encode (hmacSum sha1 (sha1.sum (str "itsdangerous.Signer" ++ str "signer"
      ++ str "secret-key")) (str "hello")),
    { exampleSigner.toSigner with algorithm := .hmacAlg { DigestMethod := some sha1 } },
    ?_, rfl, ?_, rfl, ?_⟩
  · rw [NewSigner_eq]
    simp only [Option.getD, h, Bool.false_eq_true, if_false]
    rfl
  · simp [Signer.GetSignature, Signer.DeriveKey, SigningAlgorithm.GetSignature,
      HMACAlgorithm.GetSignature, exampleSigner]
  · simp

/-- C14 (amended): what the operations leave unchanged. For every Signer returned by
`NewSigner`, the Signer after `GetSignature` or `Sign` is `signer.resolved`, and the
Signer after `VerifySignature` or `Unsign` is `signer` itself (no signature was
computed) or `signer.resolved`. `signer.resolved` has the same secret key, salt,
separator, key derivation and digest function; it is `signer` itself unless the
caller supplied an `HMACAlgorithm` whose `DigestMethod` is unset, and for that one the
algorithm's digest is set to `sha1.New` by the first call that computes a signature
and does not change afterwards. -/
theorem NewSigner_configuration_frame (secretKey salt sep : Option Bytes)
    (digestMethod : Option Hash) (keyDerivation : String) (algorithm : Option SigningAlgorithm)
    (signer : Signer)
    (hs : NewSigner secretKey salt sep digestMethod keyDerivation algorithm = .done signer) :
    (∀ v sig s1, signer.GetSignature v = .done (sig, s1) → s1 = signer.resolved) ∧
    (∀ v t s1, signer.Sign v = .done (t, s1) → s1 = signer.resolved) ∧
    (∀ v sig b s1, signer.VerifySignature v sig = .done (b, s1) →
      s1 = signer ∨ s1 = signer.resolved) ∧
    (∀ t r s1, signer.Unsign t = .done (r, s1) → s1 = signer ∨ s1 = signer.resolved) ∧
    (signer.resolved.secretKey = signer.secretKey ∧ signer.resolved.salt = signer.salt ∧
      signer.resolved.sep = signer.sep ∧
      signer.resolved.keyDerivation = signer.keyDerivation ∧
      signer.resolved.digestMethod = signer.digestMethod) ∧
    (algorithm ≠ some (.hmacAlg { DigestMethod := none }) → signer.resolved = signer) ∧
    (algorithm = some (.hmacAlg { DigestMethod := none }) →
      signer.algorithm = .hmacAlg { DigestMethod := none } ∧
      signer.resolved.algorithm = .hmacAlg { DigestMethod := some sha1 }) ∧
    signer.resolved.resolved = signer.resolved := by
  have hf := (NewSigner_fields hs).2.2.2.2.2
  refine ⟨Signer.GetSignature_state signer, Signer.Sign_state signer,
    Signer.VerifySignature_state signer, Signer.Unsign_state signer,
    ⟨rfl, rfl, rfl, rfl, rfl⟩, ?_, ?_, ?_⟩
  · intro hne
    have hne2 : signer.algorithm ≠ .hmacAlg { DigestMethod := none } := by
      rw [hf]
      cases algorithm with
      | none => simp [Option.getD]
      | some a =>
        intro h
        apply hne
        simp only [Option.getD] at h
        rw [h]
    unfold Signer.resolved
    rw [SigningAlgorithm.resolved_of_ne _ hne2]
  · intro h
    rw [h] at hf
    simp only [Option.getD] at hf
    refine ⟨hf, ?_⟩
    unfold Signer.resolved
    simp only [hf]
    rfl
  · unfold Signer.resolved
    simp only [SigningAlgorithm.resolved_resolved]

/-- Witness of `NewSigner_configuration_frame`: the default signer for the secret
"secret-key" is unchanged by its operations, and the same arguments with the
algorithm `&HMACAlgorithm{}` give a signer whose algorithm gets the digest `sha1.New`
at the first signature. -/
theorem NewSigner_configuration_frame_witness :
    (NewSigner (some (str "secret-key")) none none none "" none = .done exampleSigner.toSigner ∧
      (∀ v t s1, exampleSigner.toSigner.Sign v = .done (t, s1) →
        s1 = exampleSigner.toSigner.resolved) ∧
      exampleSigner.toSigner.resolved = exampleSigner.toSigner) ∧
    (NewSigner (some (str "secret-key")) none none none ""
        (some (.hmacAlg { DigestMethod := none }))
        = .done { exampleSigner.toSigner with algorithm := .hmacAlg { DigestMethod := none } } ∧
      ({ exampleSigner.toSigner with algorithm := .hmacAlg { DigestMethod := none } }
        : Signer).resolved.algorithm = .hmacAlg { DigestMethod := some sha1 }) := by
  have h : bytesContains ([46] : Bytes) base64Alphabet = false := by decide
  have h1 : NewSigner (some (str "secret-key")) none none none "" none
      = .done exampleSigner.toSigner := by
    rw [NewSigner_eq]
    simp only [Option.getD, h, Bool.false_eq_true, if_false]
    rfl
  have h2 : NewSigner (some (str "secret-key")) none none none ""
      (some (.hmacAlg { DigestMethod := none }))
      = .done { exampleSigner.toSigner with algorithm := .hmacAlg { DigestMethod := none } } := by
    rw [NewSigner_eq]
    simp only [Option.getD, h, Bool.false_eq_true, if_false]
    rfl
  have f1 := NewSigner_configuration_frame _ _ _ _ _ _ _ h1
  have f2 := NewSigner_configuration_frame _ _ _ _ _ _ _ h2
  exact ⟨⟨h1, f1.2.1, f1.2.2.2.2.2.1 (by simp)⟩, h2, (f2.2.2.2.2.2.2.1 rfl).2⟩

/-! ## The comparison of `HMACAlgorithm.VerifySignature` -/

/-- The value `HMACAlgorithm.VerifySignature` returns: true exactly when the supplied
signature is, byte for byte, the one `GetSignature` computes for the key and the
message. The running time of the comparison is not part of this model. -/
theorem HMACAlgorithm.VerifySignature_iff (alg : HMACAlgorithm) (key value sig : Bytes) :
    (alg.VerifySignature key value sig).1 = true ↔ sig = (alg.GetSignature key value).1 := by
  simp only [HMACAlgorithm.VerifySignature, hmacEqual, decide_eq_true_eq]
  exact eq_comm

/-! ## The timestamped round trip of the default configuration -/

theorem DefaultTimestampSigner_eq (secretKey salt : Option Bytes) :
    DefaultTimestampSigner secretKey salt none = .done
      ⟨{ secretKey := secretKey
         salt := salt.getD (str "itsdangerous.Signer")
         sep := [46]
         keyDerivation := "django-concat"
         digestMethod := sha1
         algorithm := .hmacAlg { DigestMethod := some sha1 } }⟩ := by
  have h := DefaultSigner_eq secretKey salt
  unfold DefaultSigner at h
  unfold DefaultTimestampSigner NewTimestampSigner
  rw [h]

/-- C20: timestamped round trip in the realistic clock range. For the default
configuration (`DefaultTimestampSigner` with any secret and salt: HMAC-SHA1,
separator `.`), every value `v` (also one that contains `.`), every signing clock `T`
with `2^24 ≤ T < 2^32`, and every verifier clock `now` and `maxAge` (an `int64`) with
`maxAge ≤ 0` or `0 ≤ now - T ≤ maxAge`: `Sign(v)` at clock `T` returns a token,
`Unsign(token, maxAge)` at clock `now` returns `v` and `GetSignedTimestamp(token)`
returns `T`. -/
theorem TimestampSigner.default_round_trip (secretKey salt : Option Bytes)
    (signer : TimestampSigner)
    (hs : DefaultTimestampSigner secretKey salt none = .done signer)
    (v : Bytes) (T now maxAge : Int)
    (hT : 2 ^ 24 ≤ T ∧ T < 2 ^ 32) (hmax : maxAge < 2 ^ 63)
    (hage : maxAge ≤ 0 ∨ (0 ≤ now - T ∧ now - T ≤ maxAge)) :
    ∃ token, signer.Sign T v = .done (.ok token, signer) ∧
      signer.Unsign now token maxAge = .done (.ok v, signer) ∧
      signer.GetSignedTimestamp token = .done (.ok ⟨T⟩, signer) := by
  rw [DefaultTimestampSigner_eq] at hs
  simp only [Run.done.injEq] at hs
  subst hs
  generalize hS0 : ({ secretKey := secretKey
                      salt := salt.getD (str "itsdangerous.Signer")
                      sep := [46]
                      keyDerivation := "django-concat"
                      digestMethod := sha1
                      algorithm := .hmacAlg { DigestMethod := some sha1 } } : Signer) = S
  have hsepS : S.sep = [46] := by rw [← hS0]
  have hres : S.resolved = S := by rw [← hS0]; rfl
  have hne : S.sep ≠ [] := by rw [hsepS]; simp
  have hsep : ∀ c ∈ S.sep, c ∉ base64Alphabet := by rw [hsepS]; decide
  have hkd : S.keyDerivation = "concat" ∨ S.keyDerivation = "django-concat" ∨
      S.keyDerivation = "hmac" ∨ S.keyDerivation = "none" := by
    rw [← hS0]; exact Or.inr (Or.inl rfl)
  have halg : S.algorithm = .noneAlg ∨
      ∃ d, S.algorithm = .hmacAlg ⟨d⟩ ∧ ∀ m, ((d.getD sha1).sum m).length % 3 ≠ 0 := by
    right
    refine ⟨some sha1, by rw [← hS0], ?_⟩
    intro m
    rw [show ((some sha1).getD sha1).sum m = sha1Sum m from rfl, sha1Sum_length]
    decide
  have hw : toUint64 T < 2 ^ 64 := toUint64_lt T
  have hwT : ((toUint64 T : Nat) : Int) = T := by
    unfold toUint64
    omega
  have hwr : 2 ^ 24 ≤ toUint64 T ∧ toUint64 T < 2 ^ 32 := by omega
  obtain ⟨sig, s1, s2, hSign, hs1, hU⟩ := Signer.Sign_Unsign S
    (v ++ S.sep ++ Base64Encode (bytesTrimLeft (putUint64 (toUint64 T)) [0]))
    hne hsep hkd halg
  have e1 : s1 = S := by rw [Signer.Sign_state S _ _ s1 hSign, hres]
  subst e1
  have e2 : s2 = s1 := by
    rcases Signer.Unsign_state s1 _ _ s2 hU with h | h
    · exact h
    · rw [h, hres]
  subst e2
  have hsign := TimestampSigner.Sign_eq ⟨s2⟩ T v
  rw [hSign] at hsign
  simp only [Run.bind] at hsign
  have hlast := @bytesLastIndex_eq (v ++ s2.sep
      ++ Base64Encode (bytesTrimLeft (putUint64 (toUint64 T)) [0])) s2.sep v
    (Base64Encode (bytesTrimLeft (putUint64 (toUint64 T)) [0]))
    rfl (no_later_sep v s2.sep _ hne
      (fun c hc => decodeMap_of_not_mem (hsep c hc)) (Base64Encode_alpha _))
  have hvl : ((v.length : Int) + (s2.sep.length : Int)).toNat = (v ++ s2.sep).length := by
    rw [List.length_append]; omega
  have hfield : (v ++ s2.sep
      ++ Base64Encode (bytesTrimLeft (putUint64 (toUint64 T)) [0])).drop
      (bytesLastIndex (v ++ s2.sep
        ++ Base64Encode (bytesTrimLeft (putUint64 (toUint64 T)) [0])) s2.sep
        + s2.sep.length).toNat
      = Base64Encode (bytesTrimLeft (putUint64 (toUint64 T)) [0]) := by
    rw [hlast.2, hvl, List.drop_left]
  have htake : (v ++ s2.sep
      ++ Base64Encode (bytesTrimLeft (putUint64 (toUint64 T)) [0])).take
      (bytesLastIndex (v ++ s2.sep
        ++ Base64Encode (bytesTrimLeft (putUint64 (toUint64 T)) [0])) s2.sep).toNat = v := by
    rw [hlast.2, Int.toNat_ofNat, List.append_assoc, List.take_left]
  have hdec := Base64Decode_Base64Encode (bytesTrimLeft (putUint64 (toUint64 T)) [0])
    (by
      rw [trimLeft_putUint64 _ hw]
      exact fun y hy => putUint64_bytes _ y (List.mem_of_mem_drop hy))
  rw [trimLeft_putUint64_length _ hw] at hdec
  have hbl : byteLen (toUint64 T) = 4 := by
    unfold byteLen
    rw [if_neg (show ¬ toUint64 T = 0 by omega), if_neg (show ¬ toUint64 T < 2 ^ 8 by omega)]
    rw [if_neg (show ¬ toUint64 T < 2 ^ 16 by omega)]
    rw [if_neg (show ¬ toUint64 T < 2 ^ 24 by omega), if_pos hwr.2]
  rw [hbl, if_pos (by decide)] at hdec
  have hR := readUint64_trimmed (toUint64 T) hw (by rw [hbl]; decide) (by rw [hbl]; decide)
  have h := TimestampSigner.read_timestamp ⟨s2⟩ _ _ _ s2 (toUint64 T) hU hlast.1
    (by rw [hfield]; exact hdec) hR
  have hTi : toInt64 ((toUint64 T : Nat) : Int) = T := by
    rw [hwT]
    unfold toInt64
    omega
  refine ⟨_, hsign, ?_, ?_⟩
  · rw [h.2 now maxAge, hTi, htake]
    have hc1 : ¬ (maxAge > 0 ∧ toInt64 (now - T) > maxAge) := by
      rintro ⟨hp, hgt⟩
      have : toInt64 (now - T) = now - T := by
        unfold toInt64
        omega
      omega
    have hc2 : ¬ (maxAge > 0 ∧ toInt64 (now - T) < 0) := by
      rintro ⟨hp, hlt⟩
      have : toInt64 (now - T) = now - T := by
        unfold toInt64
        omega
      omega
    rw [if_neg hc1, if_neg hc2]
  · rw [h.1, hTi]

set_option maxRecDepth 1000000 in
/-- Witness of `TimestampSigner.default_round_trip`: the default signer for the secret
"secret-key", the value `a.b`, the signing clock 1700000000, and the verifier clock
1700000005 with `maxAge = 10`. -/
theorem TimestampSigner.default_round_trip_witness :
    ∃ token, exampleSigner.Sign 1700000000 (str "a.b") = .done (.ok token, exampleSigner) ∧
      exampleSigner.Unsign 1700000005 token 10 = .done (.ok (str "a.b"), exampleSigner) ∧
      exampleSigner.GetSignedTimestamp token = .done (.ok ⟨1700000000⟩, exampleSigner) :=
  TimestampSigner.default_round_trip (some (str "secret-key")) none exampleSigner
    exampleSigner_eq (str "a.b") 1700000000 1700000005 10 (by decide) (by decide) (by decide)

/-! ## The wire format of a timestamped token -/

theorem beValue_eq_ofDigits (l : Bytes) : beValue l = Nat.ofDigits 256 l.reverse := by
  induction l with
  | nil => simp [beValue]
  | cons b l ih =>
    rw [beValue_cons, List.reverse_cons, Nat.ofDigits_append, Nat.ofDigits_singleton, ih,
      List.length_reverse]
    ring

/-- For a 64-bit clock value other than zero, the bytes `TimestampSigner.Sign` encodes
are the minimal big-endian representation. -/
theorem trimLeft_putUint64_minimal (w : Nat) (hw : w < 2 ^ 64) (h0 : w ≠ 0) :
    bytesTrimLeft (putUint64 w) [0] = minimalBigEndian w := by
  obtain ⟨h1, h2⟩ := putUint64_split w hw
  rw [trimLeft_putUint64 w hw]
  have hb : IsBytes ((putUint64 w).drop (8 - byteLen w)) :=
    fun x hx => putUint64_bytes w x (List.mem_of_mem_drop hx)
  have hv : beValue ((putUint64 w).drop (8 - byteLen w)) = w := by
    have h3 := beValue_putUint64 w
    rw [h1, beValue_zeros, Nat.mod_eq_of_lt hw] at h3
    exact h3
  have hd : Nat.digits 256 w = ((putUint64 w).drop (8 - byteLen w)).reverse := by
    conv => lhs; rw [← hv, beValue_eq_ofDigits]
    apply Nat.digits_ofDigits 256 (by decide)
    · intro l hl
      exact hb l (List.mem_reverse.mp hl)
    · intro hne
      rw [List.getLast_reverse]
      apply h2
      rw [List.head?_eq_head]
      exact rfl
  unfold minimalBigEndian
  rw [if_neg h0, hd, List.reverse_reverse]

/-- At the clock value zero `bytes.TrimLeft` leaves no byte, where the minimal
representation of the specification has the one byte `00`. -/
theorem trimLeft_putUint64_zero :
    bytesTrimLeft (putUint64 0) [0] = [] ∧ minimalBigEndian 0 = [0] := by
  constructor <;> decide

/-- `TimestampSigner.Sign` from the bytes `ts` of its timestamp field: it is the base
`Sign` of `v ++ sep ++ Base64Encode ts`. -/
theorem TimestampSigner.Sign_of_field (signer : TimestampSigner) (now : Int) (v ts : Bytes)
    (hts : bytesTrimLeft (putUint64 (toUint64 now)) [0] = ts) :
    signer.Sign now v =
      (signer.toSigner.Sign (v ++ signer.toSigner.sep ++ Base64Encode ts)).bind
        (fun r => .done (.ok r.1, ⟨r.2⟩)) ∧
    (∀ sig s2, signer.toSigner.GetSignature (v ++ signer.toSigner.sep ++ Base64Encode ts)
        = .done (sig, s2) →
      signer.toSigner.Sign (v ++ signer.toSigner.sep ++ Base64Encode ts)
        = .done (v ++ signer.toSigner.sep ++ Base64Encode ts ++ signer.toSigner.sep ++ sig, s2) ∧
      signer.Sign now v
        = .done (.ok (v ++ signer.toSigner.sep ++ Base64Encode ts ++ signer.toSigner.sep ++ sig),
          ⟨s2⟩)) ∧
    (∀ m, signer.toSigner.Sign (v ++ signer.toSigner.sep ++ Base64Encode ts) = .panic m ↔
      signer.Sign now v = .panic m) := by
  have heq := TimestampSigner.Sign_eq signer now v
  rw [hts] at heq
  refine ⟨heq, ?_, ?_⟩
  · intro sig s2 hG
    have hS : signer.toSigner.Sign (v ++ signer.toSigner.sep ++ Base64Encode ts)
        = .done (v ++ signer.toSigner.sep ++ Base64Encode ts ++ signer.toSigner.sep ++ sig,
          s2) := by
      unfold Signer.Sign
      rw [hG]
      simp only [BytesCombine, List.flatten_cons, List.flatten_nil, List.append_nil,
        List.append_assoc]
    refine ⟨hS, ?_⟩
    rw [heq, hS]
    rfl
  · intro m
    rw [heq]
    rcases signer.toSigner.Sign (v ++ signer.toSigner.sep ++ Base64Encode ts)
      with ⟨t, s2⟩ | m2
    · simp [Run.bind]
    · simp [Run.bind]

set_option maxRecDepth 1000000 in
/-- C11 (as stated, refuted at one input): at the clock value 0 the minimal big-endian
representation is the one byte `00`, encoded `AA`, and the base `Sign` of
`hello.AA` by the default signer for the secret "secret-key" is
`hello.AA.qoC8JJpgziE6NTDW7TUx0ZFAFyo`; `TimestampSigner.Sign` of `hello` at that clock
returns another token, `hello..xWVRpozJVQCSgb9SQbt8cWGJ2CM`, with an empty timestamp
field. -/
theorem TimestampSigner.Sign_zero_clock_not_delegated :
    minimalBigEndian (toUint64 0) = [0] ∧
    str "hello" ++ exampleSigner.toSigner.sep ++ Base64Encode (minimalBigEndian (toUint64 0))
      = str "hello.AA" ∧
    (exampleSigner.toSigner.Sign (str "hello" ++ exampleSigner.toSigner.sep
      ++ Base64Encode (minimalBigEndian (toUint64 0)))).val
      = .done (str "hello.AA.qoC8JJpgziE6NTDW7TUx0ZFAFyo") ∧
    (exampleSigner.Sign 0 (str "hello")).val
      = .done (.ok (str "hello..xWVRpozJVQCSgb9SQbt8cWGJ2CM")) ∧
    str "hello..xWVRpozJVQCSgb9SQbt8cWGJ2CM" ≠ str "hello.AA.qoC8JJpgziE6NTDW7TUx0ZFAFyo" := by
  refine ⟨?_, ?_, ?_, ?_, ?_⟩ <;> decide

/-- C11 (amended): timestamped wire format by delegation. For every value `v` and
every clock value `T` whose `uint64` value is not zero (every `T` with
`0 < T < 2^63`), `TimestampSigner.Sign(v)` at clock `T` is the base `Signer.Sign`
applied to `v ++ sep ++ Base64Encode(ts)` with `ts` the minimal big-endian
representation of `T`: when the base `GetSignature` returns `sig` for that text, the
token is `v ++ sep ++ Base64Encode(ts) ++ sep ++ sig`, and `Sign` panics exactly when
the base `Sign` does. At the clock value zero the code encodes no byte at all, not
the one byte `00` of the minimal representation: `Sign(v)` is the base `Sign` of
`v ++ sep`, and the token is `v ++ sep ++ sep ++ sig` with an empty timestamp
field. -/
theorem TimestampSigner.Sign_wire_format (signer : TimestampSigner) (now : Int) (v : Bytes) :
    (toUint64 now ≠ 0 →
      bytesTrimLeft (putUint64 (toUint64 now)) [0] = minimalBigEndian (toUint64 now) ∧
      signer.Sign now v =
        (signer.toSigner.Sign (v ++ signer.toSigner.sep
          ++ Base64Encode (minimalBigEndian (toUint64 now)))).bind
          (fun r => .done (.ok r.1, ⟨r.2⟩)) ∧
      (∀ sig s2, signer.toSigner.GetSignature (v ++ signer.toSigner.sep
          ++ Base64Encode (minimalBigEndian (toUint64 now))) = .done (sig, s2) →
        signer.toSigner.Sign (v ++ signer.toSigner.sep
          ++ Base64Encode (minimalBigEndian (toUint64 now)))
          = .done (v ++ signer.toSigner.sep ++ Base64Encode (minimalBigEndian (toUint64 now))
            ++ signer.toSigner.sep ++ sig, s2) ∧
        signer.Sign now v
          = .done (.ok (v ++ signer.toSigner.sep
            ++ Base64Encode (minimalBigEndian (toUint64 now))
            ++ signer.toSigner.sep ++ sig), ⟨s2⟩)) ∧
      (∀ m, signer.toSigner.Sign (v ++ signer.toSigner.sep
          ++ Base64Encode (minimalBigEndian (toUint64 now))) = .panic m ↔
        signer.Sign now v = .panic m)) ∧
    (toUint64 now = 0 →
      bytesTrimLeft (putUint64 (toUint64 now)) [0] = [] ∧
      minimalBigEndian (toUint64 now) = [0] ∧
      signer.Sign now v =
        (signer.toSigner.Sign (v ++ signer.toSigner.sep)).bind
          (fun r => .done (.ok r.1, ⟨r.2⟩)) ∧
      (∀ sig s2, signer.toSigner.GetSignature (v ++ signer.toSigner.sep) = .done (sig, s2) →
        signer.Sign now v
          = .done (.ok (v ++ signer.toSigner.sep ++ signer.toSigner.sep ++ sig), ⟨s2⟩)) ∧
      (∀ m, signer.toSigner.Sign (v ++ signer.toSigner.sep) = .panic m ↔
        signer.Sign now v = .panic m)) ∧
    (0 ≤ now → now < 2 ^ 63 → toUint64 now = now.toNat ∧ (toUint64 now = 0 ↔ now = 0)) := by
  refine ⟨?_, ?_, ?_⟩
  · intro h0
    have hmin := trimLeft_putUint64_minimal (toUint64 now) (toUint64_lt now) h0
    exact ⟨hmin, TimestampSigner.Sign_of_field signer now v _ hmin⟩
  · intro h0
    have hz : bytesTrimLeft (putUint64 (toUint64 now)) [0] = [] := by
      rw [h0]
      exact trimLeft_putUint64_zero.1
    have hm : minimalBigEndian (toUint64 now) = [0] := by
      rw [h0]
      exact trimLeft_putUint64_zero.2
    have hf := TimestampSigner.Sign_of_field signer now v [] hz
    have he : Base64Encode [] = [] := by decide
    rw [he] at hf
    simp only [List.append_nil] at hf
    refine ⟨hz, hm, hf.1, ?_, hf.2.2⟩
    intro sig s2 hG
    exact (hf.2.1 sig s2 hG).2
  · intro h0 h63
    have hu : toUint64 now = now.toNat := by
      unfold toUint64
      rw [Int.emod_eq_of_lt h0 (by omega)]
    refine ⟨hu, ?_⟩
    rw [hu]
    omega

set_option maxRecDepth 1000000 in
/-- Witness of `TimestampSigner.Sign_wire_format`: the default signer for the secret
"secret-key" at the clock 1700000000, whose minimal big-endian bytes are
`65 53 f1 00`, encoded `ZVPxAA`. -/
theorem TimestampSigner.Sign_wire_format_witness :
    toUint64 1700000000 ≠ 0 ∧
    minimalBigEndian 1700000000 = [0x65, 0x53, 0xf1, 0x00] ∧
    Base64Encode (minimalBigEndian 1700000000) = str "ZVPxAA" ∧
    ∃ s2, exampleSigner.toSigner.GetSignature (str "hello.ZVPxAA")
        = .done (str "UQx3EIPGLNk6IyY28rz4wwlRRWI", s2) ∧
      exampleSigner.Sign 1700000000 (str "hello")
        = .done (.ok (str "hello.ZVPxAA.UQx3EIPGLNk6IyY28rz4wwlRRWI"), ⟨s2⟩) := by
  have hm : minimalBigEndian 1700000000 = [0x65, 0x53, 0xf1, 0x00] := by
    simp [minimalBigEndian]
  have hu : toUint64 1700000000 = 1700000000 := by decide
  have h0 : toUint64 1700000000 ≠ 0 := by decide
  have hb : Base64Encode (minimalBigEndian 1700000000) = str "ZVPxAA" := by
    rw [hm]
    decide
  obtain ⟨s2, hG⟩ := Run.val_done (r := exampleSigner.toSigner.GetSignature
    (str "hello.ZVPxAA")) (a := str "UQx3EIPGLNk6IyY28rz4wwlRRWI") (by decide)
  have h := ((TimestampSigner.Sign_wire_format exampleSigner 1700000000 (str "hello")).1
    h0).2.2.1 (str "UQx3EIPGLNk6IyY28rz4wwlRRWI") s2
  rw [hu, hb] at h
  exact ⟨h0, hm, hb, s2, hG, (h hG).2⟩

/-! ## The three outcomes of `Signer.Unsign` -/

/-- `VerifySignature` returns when the key derivation is known, and when the signature
field does not decode; it panics when the field decodes and the derivation is not
known. -/
theorem Signer.VerifySignature_outcome (signer : Signer) (value sig : Bytes) :
    (∀ e, Base64Decode sig = .error e →
      signer.VerifySignature value sig = .done (false, signer)) ∧
    (∀ d, Base64Decode sig = .ok d →
      (signer.keyDerivation ≠ "concat" ∧ signer.keyDerivation ≠ "django-concat" ∧
        signer.keyDerivation ≠ "hmac" ∧ signer.keyDerivation ≠ "none") →
      signer.VerifySignature value sig = .panic "Unknown key derivation method") ∧
    ((signer.keyDerivation = "concat" ∨ signer.keyDerivation = "django-concat" ∨
        signer.keyDerivation = "hmac" ∨ signer.keyDerivation = "none") →
      ∃ b s2, signer.VerifySignature value sig = .done (b, s2)) ∧
    (∀ m, signer.VerifySignature value sig = .panic m →
      m = "Unknown key derivation method" ∧ (∃ d, Base64Decode sig = .ok d) ∧
      signer.keyDerivation ≠ "concat" ∧ signer.keyDerivation ≠ "django-concat" ∧
      signer.keyDerivation ≠ "hmac" ∧ signer.keyDerivation ≠ "none") := by
  refine ⟨?_, ?_, ?_, ?_⟩
  · intro e he
    simp [Signer.VerifySignature, he]
  · intro d hd hk
    simp [Signer.VerifySignature, hd, Signer.DeriveKey_unknown signer hk]
  · intro hk
    obtain ⟨key, hkey⟩ := Signer.DeriveKey_known signer signer.secretKey hk
    rcases hd : Base64Decode sig with d | e
    · refine ⟨(signer.algorithm.VerifySignature key value d).1,
        { signer with algorithm := (signer.algorithm.VerifySignature key value d).2 }, ?_⟩
      simp only [Signer.VerifySignature, hd, hkey]
    · refine ⟨false, signer, ?_⟩
      simp only [Signer.VerifySignature, hd]
  · intro m hm
    rcases hd : Base64Decode sig with d | e
    · by_cases hk : signer.keyDerivation = "concat" ∨ signer.keyDerivation = "django-concat" ∨
          signer.keyDerivation = "hmac" ∨ signer.keyDerivation = "none"
      · obtain ⟨key, hkey⟩ := Signer.DeriveKey_known signer signer.secretKey hk
        simp [Signer.VerifySignature, hd, hkey] at hm
      · have hk2 : signer.keyDerivation ≠ "concat" ∧ signer.keyDerivation ≠ "django-concat" ∧
            signer.keyDerivation ≠ "hmac" ∧ signer.keyDerivation ≠ "none" := by
          refine ⟨?_, ?_, ?_, ?_⟩ <;> intro h <;> exact hk (by simp [h])
        simp only [Signer.VerifySignature, hd, Signer.DeriveKey_unknown signer hk2,
          Run.panic.injEq] at hm
        exact ⟨hm.symm, ⟨d, rfl⟩, hk2⟩
    · simp [Signer.VerifySignature, hd] at hm

/-- C9 (as stated, refuted at one input): `NewSigner` with the unknown key derivation
"bogus" returns a Signer; the token `hello.YQ` contains its separator `.` and its
signature field `YQ` base64-decodes, and `Unsign` of it neither returns a value nor
fails with `BadData`: it panics with "Unknown key derivation method". -/
theorem Signer.Unsign_panics_counterexample :
    ∃ signer, NewSigner (some (str "secret-key")) none none none "bogus" none = .done signer ∧
      bytesContains (str "hello.YQ") signer.sep = true ∧
      Base64Decode (str "YQ") = .ok (str "a") ∧
      signer.VerifySignature (str "hello") (str "YQ") = .panic "Unknown key derivation method" ∧
      signer.Unsign (str "hello.YQ") = .panic "Unknown key derivation method" := by
  have h : bytesContains ([46] : Bytes) base64Alphabet = false := by decide
  refine ⟨{ exampleSigner.toSigner with keyDerivation := "bogus" }, ?_, by decide, by decide,
    ?_, ?_⟩
  · rw [NewSigner_eq]
    simp only [Option.getD, h, Bool.false_eq_true, if_false]
    rfl
  · exact (Signer.VerifySignature_outcome _ _ _).2.1 (str "a") (by decide)
      ⟨by decide, by decide, by decide, by decide⟩
  · have hv : ({ exampleSigner.toSigner with keyDerivation := "bogus" } : Signer).VerifySignature
        (str "hello") (str "YQ") = .panic "Unknown key derivation method" :=
      (Signer.VerifySignature_outcome _ _ _).2.1 (str "a") (by decide)
        ⟨by decide, by decide, by decide, by decide⟩
    have hu := Signer.Unsign_split { exampleSigner.toSigner with keyDerivation := "bogus" }
      (str "hello.YQ") (str "hello") (str "YQ") (by decide)
      (no_later_sep (str "hello") [46] (str "YQ") (by decide) (by decide) (by decide))
    rw [hu, hv]

/-- C9 (amended): `Signer.Unsign` result characterisation. A token without the
separator fails with `BadData`. For a token that contains it, with `value` the bytes
before the LAST occurrence of the separator and `sig` the bytes after it: `Unsign`
returns exactly `value` when `VerifySignature(value, sig)` is true, fails with
`BadData` when it is false (a `sig` that does not base64-decode is not verified), and
panics exactly when `VerifySignature` panics, which is when `sig` base64-decodes and
the key derivation of the signer is none of the four known names. With a known key
derivation `Unsign` never panics: it returns `value` or fails with `BadData`.
Whenever `Unsign` returns a byte sequence it is that `value`, with a verified
signature, and its only panic is "Unknown key derivation method". -/
theorem Signer.Unsign_outcome (signer : Signer) (token : Bytes) :
    (bytesContains token signer.sep = false →
      ∃ m, signer.Unsign token = .done (.error (.BadData m), signer)) ∧
    (∀ value sig : Bytes, token = value ++ signer.sep ++ sig →
      (∀ j, value.length < j → j ≤ token.length → ¬ signer.sep <+: token.drop j) →
      (∀ s2, signer.VerifySignature value sig = .done (true, s2) →
        signer.Unsign token = .done (.ok value, s2)) ∧
      (∀ s2, signer.VerifySignature value sig = .done (false, s2) →
        ∃ m, signer.Unsign token = .done (.error (.BadData m), s2)) ∧
      (∀ m, signer.VerifySignature value sig = .panic m ↔ signer.Unsign token = .panic m) ∧
      (∀ e, Base64Decode sig = .error e →
        signer.VerifySignature value sig = .done (false, signer)) ∧
      (∀ d, Base64Decode sig = .ok d →
        (signer.keyDerivation ≠ "concat" ∧ signer.keyDerivation ≠ "django-concat" ∧
          signer.keyDerivation ≠ "hmac" ∧ signer.keyDerivation ≠ "none") →
        signer.Unsign token = .panic "Unknown key derivation method") ∧
      ((signer.keyDerivation = "concat" ∨ signer.keyDerivation = "django-concat" ∨
          signer.keyDerivation = "hmac" ∨ signer.keyDerivation = "none") →
        ∃ s2, signer.Unsign token = .done (.ok value, s2) ∨
          ∃ m, signer.Unsign token = .done (.error (.BadData m), s2))) ∧
    (∀ x s2, signer.Unsign token = .done (.ok x, s2) →
      bytesContains token signer.sep = true ∧
      ∃ sig, token = x ++ signer.sep ++ sig ∧
        (∀ j, x.length < j → j ≤ token.length → ¬ signer.sep <+: token.drop j) ∧
        signer.VerifySignature x sig = .done (true, s2)) ∧
    (∀ m, signer.Unsign token = .panic m →
      m = "Unknown key derivation method" ∧ bytesContains token signer.sep = true ∧
      signer.keyDerivation ≠ "concat" ∧ signer.keyDerivation ≠ "django-concat" ∧
      signer.keyDerivation ≠ "hmac" ∧ signer.keyDerivation ≠ "none") := by
  have hold := Signer.Unsign_characterisation signer token
  refine ⟨hold.1, ?_, hold.2.2, ?_⟩
  · intro value sig hs hlast
    have hu := Signer.Unsign_split signer token value sig hs hlast
    have ho := hold.2.1 value sig hs hlast
    have hvo := Signer.VerifySignature_outcome signer value sig
    refine ⟨ho.1, ho.2.1, ?_, ho.2.2, ?_, ?_⟩
    · intro m
      rw [hu]
      rcases signer.VerifySignature value sig with ⟨⟨_ | _, s2⟩⟩ | m2 <;> simp
    · intro d hd hk
      rw [hu, hvo.2.1 d hd hk]
    · intro hk
      obtain ⟨b, s2, hv⟩ := hvo.2.2.1 hk
      refine ⟨s2, ?_⟩
      cases b with
      | true => exact Or.inl (ho.1 s2 hv)
      | false => exact Or.inr (ho.2.1 s2 hv)
  · intro m hm
    have hc : bytesContains token signer.sep = true := by
      by_contra hn
      rw [Signer.Unsign_no_sep signer token (by simpa using hn)] at hm
      simp at hm
    obtain ⟨k, _, hk2, hk3, hk4⟩ := bytesLastIndex_of_contains hc
    have hsplit := split_at_prefix hk3
    have hlast : ∀ j, (token.take k).length < j → j ≤ token.length →
        ¬ signer.sep <+: token.drop j := by
      intro j hj
      rw [List.length_take, Nat.min_eq_left hk2] at hj
      exact hk4 j hj
    have hu := Signer.Unsign_split signer token _ _ hsplit hlast
    rw [hu] at hm
    have hv : signer.VerifySignature (token.take k) (token.drop (k + signer.sep.length))
        = .panic m := by
      rcases hvs : signer.VerifySignature (token.take k) (token.drop (k + signer.sep.length))
        with ⟨⟨_ | _, s2⟩⟩ | m2
      · rw [hvs] at hm
        simp at hm
      · rw [hvs] at hm
        simp at hm
      · rw [hvs] at hm
        simp only [Run.panic.injEq] at hm
        rw [hm]
    have h4 := (Signer.VerifySignature_outcome signer _ _).2.2.2 m hv
    exact ⟨h4.1, hc, h4.2.2⟩

set_option maxRecDepth 1000000 in
/-- Witness of `Signer.Unsign_outcome`: the default signer for the secret "secret-key"
returns `hello` for the token it issued, with a verified signature; the same signer
with the key derivation "bogus" panics on `hello.YQ`. -/
theorem Signer.Unsign_outcome_witness :
    (∃ s2 sig, exampleSigner.toSigner.Unsign (str "hello.GIG_I5genEs4rf1bcDRWLO8Yso4")
        = .done (.ok (str "hello"), s2) ∧
      str "hello.GIG_I5genEs4rf1bcDRWLO8Yso4" = str "hello" ++ exampleSigner.toSigner.sep ++ sig ∧
      exampleSigner.toSigner.VerifySignature (str "hello") sig = .done (true, s2)) ∧
    ({ exampleSigner.toSigner with keyDerivation := "bogus" } : Signer).Unsign (str "hello.YQ")
      = .panic "Unknown key derivation method" := by
  obtain ⟨s2, hU⟩ := Run.val_done (r := exampleSigner.toSigner.Unsign
    (str "hello.GIG_I5genEs4rf1bcDRWLO8Yso4")) (a := .ok (str "hello")) (by decide)
  obtain ⟨_, sig, h1, _, h3⟩ := (Signer.Unsign_outcome exampleSigner.toSigner
    (str "hello.GIG_I5genEs4rf1bcDRWLO8Yso4")).2.2.1 (str "hello") s2 hU
  exact ⟨⟨s2, sig, hU, h1, h3⟩,
    ((Signer.Unsign_outcome { exampleSigner.toSigner with keyDerivation := "bogus" }
      (str "hello.YQ")).2.1 (str "hello") (str "YQ") (by decide)
      (no_later_sep (str "hello") [46] (str "YQ") (by decide) (by decide) (by decide))).2.2.2.2.1
      (str "a") (by decide) ⟨by decide, by decide, by decide, by decide⟩⟩

end Itsdangerous
